import Mathlib

/-!
# SaneAudioRenderer: the look-ahead peak limiter and the renderer orchestrator

A shallow embedding of `src/DspLimiter.cpp` and of the control paths of
`src/AudioRenderer.cpp`, with the properties of the specification stated
and settled against it.

Conventions of the embedding.

* Float samples and envelope values are rationals (`ℚ`); every binary32 value
  other than the infinities and NaN is one.  In the section `DspLimiter` the
  interpolant `f` is computed exactly, without the rounding of binary32, and
  the literal `0.98f` is the rational `49/50`.  A division whose divisor is
  zero has, as everywhere in Lean, the value `0`; in C it yields an infinity
  or NaN.  No statement below draws a conclusion from the value of such a
  division.
* The section `DspLimiter, whatever the rounding` has the same functions with
  the float computations as a parameter (`Arithmetic`): the comparisons of
  lines 95 and 101, the rescaled sample of line 153 and the literal `0.98f`.
  The statements on the anchor deque (C9, C10) are about these, for every
  arithmetic, so that they hold of the code however it rounds; with the exact
  outcomes they are the functions of the section `DspLimiter`
  (`runWith_exact`), on which the other statements and the counterexamples
  are made.
* Frame counters (`size_t`, `uint64_t`) are natural numbers: a run is assumed
  to stay below `2^64` frames.  Where the source subtracts unsigned 64-bit
  numbers that may be in the wrong order the wrap-around is explicit
  (`sub64`).
* A chunk is its sample format and its frames; frame `k` is the list of the
  samples `data[k * channels + i]`, `i < channels`.
-/

namespace SaneAudioRenderer

/-! ## DspChunk -/

/-- Modelled from the spec: the sample formats of a chunk (`DspChunk.h` is not
among the sources).  The limiter only tells `Float` from the rest. -/
inductive DspFormat where
  | Unknown
  | Pcm16
  | Float
  deriving DecidableEq, Repr

/-- Modelled from the spec: a chunk of audio, its format and its frames, each
frame being the list of its channel samples (`DspChunk.h` is not among the
sources). -/
structure DspChunk where
  format : DspFormat
  frames : List (List ℚ)
  deriving DecidableEq

namespace DspChunk

/-- Modelled from the spec: the default-constructed chunk `DspChunk()`, which
is also what a moved-from chunk is: no frames. -/
def empty : DspChunk := ⟨DspFormat.Unknown, []⟩

def GetFrameCount (chunk : DspChunk) : Nat := chunk.frames.length

def GetFormat (chunk : DspChunk) : DspFormat := chunk.format

def IsEmpty (chunk : DspChunk) : Bool := chunk.frames.isEmpty

end DspChunk

/-! ## DspLimiter -/

/-- The difference `a - b` of two `uint64_t` values, wrapping around. -/
def sub64 (a b : Nat) : Nat := if b ≤ a then a - b else a + 2 ^ 64 - b

/-- The linear interpolant `f(leftPos, leftValue, rightPos, rightValue, pos)`
of `DspLimiter.cpp`: `pos - leftPos` is an unsigned 64-bit difference,
`rightPos - leftPos` a signed one. -/
def f (leftPos : Nat) (leftValue : ℚ) (rightPos : Nat) (rightValue : ℚ) (pos : Nat) : ℚ :=
  leftValue + ((sub64 pos leftPos : Nat) : ℚ) / (((rightPos : Int) - (leftPos : Int) : Int) : ℚ)
    * (rightValue - leftValue)

/-- The overload `f(left, right, pos)` on anchors. -/
def fPair (left right : Nat × ℚ) (pos : Nat) : ℚ :=
  f left.1 left.2 right.1 right.2 pos

/-- The members of `DspLimiter`. -/
structure DspLimiter where
  m_limit : ℚ
  m_attackFrames : Nat
  m_releaseFrames : Nat
  m_windowFrames : Nat
  m_buffer : List DspChunk
  m_bufferFrameCount : Nat
  m_bufferFirstFrame : Nat
  m_peaks : List (Nat × ℚ)
  deriving DecidableEq

namespace DspLimiter

/-- `DspLimiter::Initialize(rate, exclusive)`: every member is assigned. -/
def Initialize (rate : Nat) (exclusive : Bool) : DspLimiter :=
  { m_limit := if exclusive then 1 else 49 / 50
    m_attackFrames := rate / 100
    m_releaseFrames := rate / 100
    m_windowFrames := rate / 100 + rate / 100 + 1
    m_buffer := []
    m_bufferFrameCount := 0
    m_bufferFirstFrame := 0
    m_peaks := [] }

/-- The inner loop of `AnalyzeLastChunk`: `sample = fmax(fabs(data[..]), sample)`
over the channels of one frame, starting from `0.0f`. -/
def frameSample (frame : List ℚ) : ℚ :=
  frame.foldl (fun sample x => max |x| sample) 0

/-- The `while (nextToBack != m_peaks.rend())` loop of `AnalyzeLastChunk`, on
the deque read from its back (`back :: nextToBack :: _`): pops the back anchor
while it is dominated by the new peak `(peakFrame, sample)`. -/
def dropDominated (attackFrames releaseFrames peakFrame : Nat) (sample : ℚ) :
    List (Nat × ℚ) → List (Nat × ℚ)
  | back :: nextToBack :: rest =>
    if sample ≥ back.2 ∧
        nextToBack.1 ≥ sub64 (sub64 peakFrame attackFrames) releaseFrames ∧
        f nextToBack.1 nextToBack.2 peakFrame sample back.1 ≥ back.2 then
      dropDominated attackFrames releaseFrames peakFrame sample (nextToBack :: rest)
    else
      back :: nextToBack :: rest
  | peaks => peaks

/-- The body of the frame loop of `AnalyzeLastChunk` for the frame whose
absolute index is `peakFrame`.  A deque of exactly one anchor violates
`assert(m_peaks.size() > 1)`; the limiter never holds one
(`analyzeFrames_anchored`, `processAll_anchored`), and that branch leaves the
deque alone. -/
def analyzeFrame (s : DspLimiter) (peakFrame : Nat) (frame : List ℚ) : DspLimiter :=
  let sample := frameSample frame
  if sample > s.m_limit then
    match s.m_peaks.reverse with
    | [] =>
      { s with m_peaks :=
          [(if peakFrame > s.m_attackFrames then peakFrame - s.m_attackFrames else 0, s.m_limit),
           (peakFrame, sample),
           (peakFrame + s.m_releaseFrames, s.m_limit)] }
    | [_] => s
    | back :: nextToBack :: rest =>
      if peakFrame > back.1 ∨ fPair nextToBack back peakFrame < sample then
        { s with m_peaks :=
            (dropDominated s.m_attackFrames s.m_releaseFrames peakFrame sample
              (back :: nextToBack :: rest)).reverse ++
            [(peakFrame, sample), (peakFrame + s.m_releaseFrames, s.m_limit)] }
      else s
  else s

/-- The frame loop of `AnalyzeLastChunk`, from the frame of absolute index
`absFrame` on. -/
def analyzeFrames (s : DspLimiter) (absFrame : Nat) : List (List ℚ) → DspLimiter
  | [] => s
  | frame :: rest => analyzeFrames (analyzeFrame s absFrame frame) (absFrame + 1) rest

/-- `DspLimiter::AnalyzeLastChunk`, on `m_buffer.back()`. -/
def AnalyzeLastChunk (s : DspLimiter) : DspLimiter :=
  match s.m_buffer.getLast? with
  | none => s
  | some chunk =>
    analyzeFrames s (s.m_bufferFirstFrame + s.m_bufferFrameCount - chunk.GetFrameCount)
      chunk.frames

/-- The frame loop of `ModifyFirstChunk`, from the frame of absolute index
`absFrame` on: returns the rescaled frames and the anchors left.  After the
`break` the remaining frames are handed back as they are.  Fewer than two
anchors violate `assert(m_peaks.size() >= 2)`; the limiter never gets there
(`taken_anchored`, `modifyFrames_peaks`), and that branch leaves frames and
anchors alone. -/
def modifyFrames (limit : ℚ) : List (List ℚ) → List (Nat × ℚ) → Nat →
    List (List ℚ) × List (Nat × ℚ)
  | [], peaks, _ => ([], peaks)
  | frame :: rest, peaks, absFrame =>
    match peaks with
    | left :: right :: tail =>
      let divisor := fPair left right absFrame
      let scaled := frame.map (fun sample => sample * (limit / divisor))
      if right.1 ≤ absFrame then
        if tail.length + 1 = 1 then
          (scaled :: rest, [])
        else
          let r := modifyFrames limit rest (right :: tail) (absFrame + 1)
          (scaled :: r.1, r.2)
      else
        let r := modifyFrames limit rest (left :: right :: tail) (absFrame + 1)
        (scaled :: r.1, r.2)
    | _ => (frame :: rest, peaks)

/-- `DspLimiter::ModifyFirstChunk`, on `m_buffer.front()`: the frames before
`firstFrameOffset` are left alone. -/
def ModifyFirstChunk (s : DspLimiter) : DspLimiter :=
  match s.m_peaks, s.m_buffer with
  | front :: _, chunk :: rest =>
    let chunkFirstFrame := s.m_bufferFirstFrame
    let firstFrameOffset :=
      if chunkFirstFrame > front.1 then 0 else front.1 - chunkFirstFrame
    let r := modifyFrames s.m_limit (chunk.frames.drop firstFrameOffset) s.m_peaks
      (chunkFirstFrame + firstFrameOffset)
    { s with
      m_buffer := { chunk with frames := chunk.frames.take firstFrameOffset ++ r.1 } :: rest
      m_peaks := r.2 }
  | _, _ => s

/-- `DspLimiter::Process(chunk)`: the state after the call and the chunk the
caller holds after it.  A chunk that is taken into the buffer is moved from;
when the front chunk is not yet due the caller is left with the moved-from,
empty chunk. -/
def Process (s : DspLimiter) (chunk : DspChunk) : DspLimiter × DspChunk :=
  if !chunk.IsEmpty ∧ chunk.GetFormat = DspFormat.Float then
    let s1 := { s with
      m_bufferFrameCount := s.m_bufferFrameCount + chunk.GetFrameCount
      m_buffer := s.m_buffer ++ [chunk] }
    let s2 := AnalyzeLastChunk s1
    let bufferFrontFrames := (s2.m_buffer.headD DspChunk.empty).GetFrameCount
    if s2.m_bufferFrameCount - bufferFrontFrames ≥ s2.m_windowFrames then
      let s3 := ModifyFirstChunk s2
      ({ s3 with
          m_bufferFrameCount := s3.m_bufferFrameCount - bufferFrontFrames
          m_bufferFirstFrame := s3.m_bufferFirstFrame + bufferFrontFrames
          m_buffer := s3.m_buffer.tail },
        s3.m_buffer.headD DspChunk.empty)
    else
      (s2, DspChunk.empty)
  else
    (s, chunk)

/-- `DspLimiter::Finish(chunk)`: it is `Process(chunk)`. -/
def Finish (s : DspLimiter) (chunk : DspChunk) : DspLimiter × DspChunk :=
  Process s chunk

/-- The limiter fed a sequence of chunks: the state after the last call and
the chunks handed back, one per call, in call order. -/
def processAll (s : DspLimiter) : List DspChunk → DspLimiter × List DspChunk
  | [] => (s, [])
  | chunk :: rest =>
    let r := Process s chunk
    let q := processAll r.1 rest
    (q.1, r.2 :: q.2)

/-- The limiter after `Initialize(rate, exclusive)` and one `Process` call per
chunk. -/
def run (rate : Nat) (exclusive : Bool) (chunks : List DspChunk) : DspLimiter × List DspChunk :=
  processAll (Initialize rate exclusive) chunks

/-- The limiter with `chunk` taken into the buffer and analysed: the state of
`Process` after `AnalyzeLastChunk()`. -/
def taken (s : DspLimiter) (chunk : DspChunk) : DspLimiter :=
  AnalyzeLastChunk { s with
    m_bufferFrameCount := s.m_bufferFrameCount + chunk.GetFrameCount
    m_buffer := s.m_buffer ++ [chunk] }

/-- The test of `Process` for the front chunk being due, on the state before
the call: `m_bufferFrameCount - bufferFrontFrames >= m_windowFrames`. -/
abbrev due (s : DspLimiter) (chunk : DspChunk) : Prop :=
  s.m_bufferFrameCount + chunk.GetFrameCount -
    ((s.m_buffer ++ [chunk]).headD DspChunk.empty).GetFrameCount ≥ s.m_windowFrames

/-- The limiter after `n` end-of-stream calls `Finish(chunk)` on the empty
chunk. -/
def finishTimes (s : DspLimiter) : Nat → DspLimiter
  | 0 => s
  | n + 1 => finishTimes (Finish s DspChunk.empty).1 n

end DspLimiter

/-- The frames held by a list of chunks. -/
def frameTotal (chunks : List DspChunk) : Nat :=
  (chunks.map DspChunk.GetFrameCount).sum

/-- No sample of the chunk exceeds `limit` in absolute value. -/
def DspChunk.within (limit : ℚ) (chunk : DspChunk) : Prop :=
  ∀ frame ∈ chunk.frames, ∀ sample ∈ frame, |sample| ≤ limit

/-- A mono float chunk of the given samples. -/
def mono (samples : List ℚ) : DspChunk :=
  ⟨DspFormat.Float, samples.map (fun sample => [sample])⟩

/-- The shape of the anchor deque when the next frame to analyse is `next`:
empty, or ending in a peak above `limit` at an analysed frame followed by the
end of its release ramp. -/
def DspLimiter.anchoredAt (s : DspLimiter) (next : Nat) : Prop :=
  s.m_peaks = [] ∨
    ∃ pre q sq, s.m_peaks = pre ++ [(q, sq), (q + s.m_releaseFrames, s.m_limit)] ∧
      s.m_limit < sq ∧ q < next

/-- The frames the limiter analyses, in order: those of the float chunks. -/
def floatFrames : List DspChunk → List (List ℚ)
  | [] => []
  | chunk :: rest =>
    if chunk.format = DspFormat.Float then chunk.frames ++ floatFrames rest
    else floatFrames rest

/-- None of the first `k` frames exceeds `limit`. -/
def quietFor (limit : ℚ) (k : Nat) (frames : List (List ℚ)) : Prop :=
  ∀ frame ∈ frames.take k, DspLimiter.frameSample frame ≤ limit

/-- The frames of the anchors increase strictly along the deque. -/
def increasing (peaks : List (Nat × ℚ)) : Prop :=
  peaks.Pairwise (fun left right => left.1 < right.1)

/-- The chunk of the coalescing scenario: mono, value 2 at frames 1000 and
1020, all other samples 0 (1031 frames). -/
def twoPeaks : DspChunk :=
  ⟨DspFormat.Float,
    List.replicate 1000 [0] ++ [[2]] ++ List.replicate 19 [0] ++ [[2]] ++ List.replicate 10 [0]⟩

/-- The assertions of the frame loop of `ModifyFirstChunk`, from the frame of
absolute index `absFrame` on, along the passes `modifyFrames` makes: `true`
when none of `assert(m_peaks.size() >= 2)`, `assert(right.first > left.first)`
and `assert(right.first == frame + chunkFirstFrame)` fails. -/
def DspLimiter.modifyAsserts : List (List ℚ) → List (Nat × ℚ) → Nat → Bool
  | [], _, _ => true
  | _ :: rest, peaks, absFrame =>
    match peaks with
    | left :: right :: tail =>
      decide (right.1 > left.1) &&
        (if right.1 ≤ absFrame then
          decide (right.1 = absFrame) &&
            (if tail.length + 1 = 1 then true
            else modifyAsserts rest (right :: tail) (absFrame + 1))
        else modifyAsserts rest (left :: right :: tail) (absFrame + 1))
    | _ => false

/-- The assertions of the frame loop during `ModifyFirstChunk` on the state
`s`; there is no loop when the deque is empty. -/
def DspLimiter.ModifyFirstChunkAsserts (s : DspLimiter) : Bool :=
  match s.m_peaks, s.m_buffer with
  | front :: _, chunk :: _ =>
    let chunkFirstFrame := s.m_bufferFirstFrame
    let firstFrameOffset :=
      if chunkFirstFrame > front.1 then 0 else front.1 - chunkFirstFrame
    DspLimiter.modifyAsserts (chunk.frames.drop firstFrameOffset) s.m_peaks
      (chunkFirstFrame + firstFrameOffset)
  | _, _ => true

/-- The assertions of the frame loop of `ModifyFirstChunk` during
`Process(chunk)`: those of the call of `ModifyFirstChunk`, when `Process`
makes one. -/
def DspLimiter.ProcessAsserts (s : DspLimiter) (chunk : DspChunk) : Bool :=
  if !chunk.IsEmpty ∧ chunk.GetFormat = DspFormat.Float then
    let s1 := { s with
      m_bufferFrameCount := s.m_bufferFrameCount + chunk.GetFrameCount
      m_buffer := s.m_buffer ++ [chunk] }
    let s2 := DspLimiter.AnalyzeLastChunk s1
    let bufferFrontFrames := (s2.m_buffer.headD DspChunk.empty).GetFrameCount
    if s2.m_bufferFrameCount - bufferFrontFrames ≥ s2.m_windowFrames then
      DspLimiter.ModifyFirstChunkAsserts s2
    else true
  else true

/-- The assertions of the frame loop of `ModifyFirstChunk` over one `Process`
call per chunk, from the state `s` on. -/
def DspLimiter.assertsAll (s : DspLimiter) : List DspChunk → Bool
  | [] => true
  | chunk :: rest =>
    DspLimiter.ProcessAsserts s chunk && DspLimiter.assertsAll (DspLimiter.Process s chunk).1 rest

/-- The assertions of the frame loop of `ModifyFirstChunk` over
`Initialize(rate, exclusive)` and one `Process` call per chunk. -/
def DspLimiter.runAsserts (rate : Nat) (exclusive : Bool) (chunks : List DspChunk) : Bool :=
  DspLimiter.assertsAll (DspLimiter.Initialize rate exclusive) chunks

/-- The second anchor, when there is one, is not behind the front of the
buffer: no frame at or after it has been emitted. -/
def DspLimiter.ahead (s : DspLimiter) : Prop :=
  ∀ left right tail, s.m_peaks = left :: right :: tail → s.m_bufferFirstFrame ≤ right.1

/-! ## DspLimiter, whatever the rounding

The code computes the interpolant `f` in binary32, and three of its decisions
hang on the rounded result: the test of line 95, the test of line 101 and the
rescaled sample of line 153.  The definitions above take `f` exactly.  The
definitions of this section take the outcome of these computations from a
parameter instead: what is proved of them for every `Arithmetic` holds
whichever way the floating-point unit rounds, and also where `f` yields an
infinity or NaN.  With the exact outcomes (`exactArithmetic`) they are the
definitions above (`ProcessWith_exact`, `runWith_exact`).  Everything else in
the limiter compares or copies sample values and frame numbers without
arithmetic on samples, and is the same in both. -/

/-- The floating-point computations of `DspLimiter.cpp`, each a function of its
operands:
`shared` is the value of the literal `0.98f`;
`below nextToBack back peakFrame sample` is the outcome of
`f(*nextToBack, *back, peakFrame) < sample` (line 95);
`covers nextToBack peakFrame sample back` is the outcome of
`f(nextToBack->first, nextToBack->second, peakFrame, sample, back->first) >= back->second`
(line 101);
`scaled limit left right pos sample` is the sample after
`sample *= (double)m_limit / divisor` with `divisor = f(left, right, pos)`
(lines 148 and 153). -/
structure Arithmetic where
  shared : ℚ
  below : Nat × ℚ → Nat × ℚ → Nat → ℚ → Bool
  covers : Nat × ℚ → Nat → ℚ → Nat × ℚ → Bool
  scaled : ℚ → Nat × ℚ → Nat × ℚ → Nat → ℚ → ℚ

/-- The computations carried out exactly, on the rationals: the arithmetic of
the definitions of the section `DspLimiter`. -/
def exactArithmetic : Arithmetic :=
  { shared := 49 / 50
    below := fun nextToBack back peakFrame sample =>
      decide (fPair nextToBack back peakFrame < sample)
    covers := fun nextToBack peakFrame sample back =>
      decide (f nextToBack.1 nextToBack.2 peakFrame sample back.1 ≥ back.2)
    scaled := fun limit left right pos sample => sample * (limit / fPair left right pos) }

namespace DspLimiter

/-- `DspLimiter::Initialize(rate, exclusive)`, the literal `0.98f` having the
value the arithmetic gives it. -/
def InitializeWith (t : Arithmetic) (rate : Nat) (exclusive : Bool) : DspLimiter :=
  { m_limit := if exclusive then 1 else t.shared
    m_attackFrames := rate / 100
    m_releaseFrames := rate / 100
    m_windowFrames := rate / 100 + rate / 100 + 1
    m_buffer := []
    m_bufferFrameCount := 0
    m_bufferFirstFrame := 0
    m_peaks := [] }

/-- The `while (nextToBack != m_peaks.rend())` loop of `AnalyzeLastChunk`, on
the deque read from its back, the comparison of line 101 decided by the
arithmetic. -/
def dropDominatedWith (t : Arithmetic) (attackFrames releaseFrames peakFrame : Nat) (sample : ℚ) :
    List (Nat × ℚ) → List (Nat × ℚ)
  | back :: nextToBack :: rest =>
    if sample ≥ back.2 ∧
        nextToBack.1 ≥ sub64 (sub64 peakFrame attackFrames) releaseFrames ∧
        t.covers nextToBack peakFrame sample back = true then
      dropDominatedWith t attackFrames releaseFrames peakFrame sample (nextToBack :: rest)
    else
      back :: nextToBack :: rest
  | peaks => peaks

/-- The body of the frame loop of `AnalyzeLastChunk` for the frame whose
absolute index is `peakFrame`, the comparison of line 95 decided by the
arithmetic.  A deque of exactly one anchor violates
`assert(m_peaks.size() > 1)`; the limiter never holds one
(`processAllWith_shaped`), and that branch leaves the deque alone. -/
def analyzeFrameWith (t : Arithmetic) (s : DspLimiter) (peakFrame : Nat) (frame : List ℚ) :
    DspLimiter :=
  let sample := frameSample frame
  if sample > s.m_limit then
    match s.m_peaks.reverse with
    | [] =>
      { s with m_peaks :=
          [(if peakFrame > s.m_attackFrames then peakFrame - s.m_attackFrames else 0, s.m_limit),
           (peakFrame, sample),
           (peakFrame + s.m_releaseFrames, s.m_limit)] }
    | [_] => s
    | back :: nextToBack :: rest =>
      if peakFrame > back.1 ∨ t.below nextToBack back peakFrame sample = true then
        { s with m_peaks :=
            (dropDominatedWith t s.m_attackFrames s.m_releaseFrames peakFrame sample
              (back :: nextToBack :: rest)).reverse ++
            [(peakFrame, sample), (peakFrame + s.m_releaseFrames, s.m_limit)] }
      else s
  else s

/-- The frame loop of `AnalyzeLastChunk`, from the frame of absolute index
`absFrame` on. -/
def analyzeFramesWith (t : Arithmetic) (s : DspLimiter) (absFrame : Nat) :
    List (List ℚ) → DspLimiter
  | [] => s
  | frame :: rest =>
    analyzeFramesWith t (analyzeFrameWith t s absFrame frame) (absFrame + 1) rest

/-- `DspLimiter::AnalyzeLastChunk`, on `m_buffer.back()`. -/
def AnalyzeLastChunkWith (t : Arithmetic) (s : DspLimiter) : DspLimiter :=
  match s.m_buffer.getLast? with
  | none => s
  | some chunk =>
    analyzeFramesWith t s (s.m_bufferFirstFrame + s.m_bufferFrameCount - chunk.GetFrameCount)
      chunk.frames

/-- The frame loop of `ModifyFirstChunk`, from the frame of absolute index
`absFrame` on, the rescaled samples computed by the arithmetic: returns the
rescaled frames and the anchors left. -/
def modifyFramesWith (t : Arithmetic) (limit : ℚ) : List (List ℚ) → List (Nat × ℚ) → Nat →
    List (List ℚ) × List (Nat × ℚ)
  | [], peaks, _ => ([], peaks)
  | frame :: rest, peaks, absFrame =>
    match peaks with
    | left :: right :: tail =>
      let scaled := frame.map (fun sample => t.scaled limit left right absFrame sample)
      if right.1 ≤ absFrame then
        if tail.length + 1 = 1 then
          (scaled :: rest, [])
        else
          let r := modifyFramesWith t limit rest (right :: tail) (absFrame + 1)
          (scaled :: r.1, r.2)
      else
        let r := modifyFramesWith t limit rest (left :: right :: tail) (absFrame + 1)
        (scaled :: r.1, r.2)
    | _ => (frame :: rest, peaks)

/-- `DspLimiter::ModifyFirstChunk`, on `m_buffer.front()`. -/
def ModifyFirstChunkWith (t : Arithmetic) (s : DspLimiter) : DspLimiter :=
  match s.m_peaks, s.m_buffer with
  | front :: _, chunk :: rest =>
    let chunkFirstFrame := s.m_bufferFirstFrame
    let firstFrameOffset :=
      if chunkFirstFrame > front.1 then 0 else front.1 - chunkFirstFrame
    let r := modifyFramesWith t s.m_limit (chunk.frames.drop firstFrameOffset) s.m_peaks
      (chunkFirstFrame + firstFrameOffset)
    { s with
      m_buffer := { chunk with frames := chunk.frames.take firstFrameOffset ++ r.1 } :: rest
      m_peaks := r.2 }
  | _, _ => s

/-- `DspLimiter::Process(chunk)`: the state after the call and the chunk the
caller holds after it. -/
def ProcessWith (t : Arithmetic) (s : DspLimiter) (chunk : DspChunk) : DspLimiter × DspChunk :=
  if !chunk.IsEmpty ∧ chunk.GetFormat = DspFormat.Float then
    let s1 := { s with
      m_bufferFrameCount := s.m_bufferFrameCount + chunk.GetFrameCount
      m_buffer := s.m_buffer ++ [chunk] }
    let s2 := AnalyzeLastChunkWith t s1
    let bufferFrontFrames := (s2.m_buffer.headD DspChunk.empty).GetFrameCount
    if s2.m_bufferFrameCount - bufferFrontFrames ≥ s2.m_windowFrames then
      let s3 := ModifyFirstChunkWith t s2
      ({ s3 with
          m_bufferFrameCount := s3.m_bufferFrameCount - bufferFrontFrames
          m_bufferFirstFrame := s3.m_bufferFirstFrame + bufferFrontFrames
          m_buffer := s3.m_buffer.tail },
        s3.m_buffer.headD DspChunk.empty)
    else
      (s2, DspChunk.empty)
  else
    (s, chunk)

/-- The limiter fed a sequence of chunks: the state after the last call and
the chunks handed back, one per call, in call order. -/
def processAllWith (t : Arithmetic) (s : DspLimiter) : List DspChunk → DspLimiter × List DspChunk
  | [] => (s, [])
  | chunk :: rest =>
    let r := ProcessWith t s chunk
    let q := processAllWith t r.1 rest
    (q.1, r.2 :: q.2)

/-- The limiter after `Initialize(rate, exclusive)` and one `Process` call per
chunk. -/
def runWith (t : Arithmetic) (rate : Nat) (exclusive : Bool) (chunks : List DspChunk) :
    DspLimiter × List DspChunk :=
  processAllWith t (InitializeWith t rate exclusive) chunks

/-- The limiter with `chunk` taken into the buffer and analysed: the state of
`Process` after `AnalyzeLastChunk()`. -/
def takenWith (t : Arithmetic) (s : DspLimiter) (chunk : DspChunk) : DspLimiter :=
  AnalyzeLastChunkWith t { s with
    m_bufferFrameCount := s.m_bufferFrameCount + chunk.GetFrameCount
    m_buffer := s.m_buffer ++ [chunk] }

end DspLimiter

/-- The anchors above `limit`, the peaks, in deque order. -/
def peakAnchors (limit : ℚ) (peaks : List (Nat × ℚ)) : List (Nat × ℚ) :=
  peaks.filter (fun anchor => decide (limit < anchor.2))

/-- The state the limiter is in between two calls, with `next` the absolute
index of the next frame to analyse: the deque is empty or ends in a peak above
`limit` followed by the end of its release ramp, no anchor lies under `limit`,
and the peaks lie at analysed frames, in the order of their frames. -/
def DspLimiter.shapedAt (s : DspLimiter) (next : Nat) : Prop :=
  (s.m_peaks = [] ∨
    ∃ pre q sq, s.m_peaks = pre ++ [(q, sq), (q + s.m_releaseFrames, s.m_limit)] ∧
      s.m_limit < sq) ∧
  (∀ anchor ∈ s.m_peaks, s.m_limit ≤ anchor.2) ∧
  (∀ anchor ∈ peakAnchors s.m_limit s.m_peaks, anchor.1 < next) ∧
  increasing (peakAnchors s.m_limit s.m_peaks)

/-- The state in which the last chunk of the buffer holds the two peaks of the
coalescing scenario: 48 kHz, exclusive mode, nothing analysed yet. -/
def twoPeaksTaken : DspLimiter :=
  { DspLimiter.Initialize 48000 true with
    m_bufferFrameCount := 1031
    m_buffer := [twoPeaks] }


/-! ## AudioRenderer

The collaborators of the renderer (device, device manager, settings, clock,
sample correction, the DSP stages other than the limiter) are not among the
sources.  Their answers are arguments of the operations, and the calls the
renderer makes to them are recorded, in order, in `calls`. -/

/-- `FILTER_STATE`. -/
inductive FilterState where
  | State_Stopped
  | State_Paused
  | State_Running
  deriving DecidableEq, Repr

/-- Modelled from the spec: what the renderer reads off its `AudioDevice`
(`AudioDevice.h` is not among the sources); `rate` is
`GetWaveFormat()->nSamplesPerSec`. -/
structure AudioDevice where
  IsBitstream : Bool
  IsExclusive : Bool
  IsDefault : Bool
  IsLive : Bool
  GetBufferDuration : Nat
  GetFriendlyName : String
  rate : Nat
  GetDspFormat : DspFormat
  deriving DecidableEq

/-- Modelled from the spec: the input format descriptor, as far as the
renderer reads it. -/
structure WaveFormat where
  nSamplesPerSec : Nat
  nChannels : Nat
  deriving DecidableEq

/-- Modelled from the spec: the settings provider at the time of a call.
`GetOuputDevice` is `none` when the query fails, else the device name (`none`
for a null pointer), the exclusive flag and the buffer duration. -/
structure Settings where
  GetSerial : Nat
  GetOuputDevice : Option (Option String × Bool × Nat)

/-- The calls the renderer makes to its collaborators. -/
inductive Call where
  | SlaveClockToAudio (anchor : Int)
  | UnslaveClockFromAudio
  | OffsetSlavedClock (offset : Int)
  | DeviceStart
  | DeviceStop
  | DeviceReset
  | DevicePush
  | NewFormat
  | NewSegment
  | NewDeviceBuffer
  | ProcessSample
  | FilledEventSet
  deriving DecidableEq, Repr

/-- The members of `AudioRenderer` that the modelled operations touch, and the
record of the calls made so far. -/
structure AudioRenderer where
  m_state : FilterState
  m_inputFormat : Option WaveFormat
  m_live : Bool
  m_device : Option AudioDevice
  m_deviceSettingsSerial : Nat
  m_startClockOffset : Int
  m_startTime : Int
  m_rate : ℚ
  m_flush : Bool
  m_dspLimiter : DspLimiter
  calls : List Call
  deriving DecidableEq

/-- One pass of the loop of `Push` as the outside world decides it: whether
the flusher thread has set the flush event by then, what is left of the chunk
after `m_device->Push` (`none`: it throws), and the graph time (`none`:
`GetGraphTime` fails). -/
structure PushStep where
  flushed : Bool
  devicePush : Option DspChunk
  graphTime : Option Int

/-- What the collaborators answer during one `Enqueue`.  `created` is the
result of `m_deviceManager.CreateDevice` and `corrected` that of
`ProcessSample`; `upstream` stands for the stages before the limiter;
`none` in any of the three is a `std::bad_alloc`.  `downstream` stands for
the stages after the limiter and `DspChunk::ToFormat`. -/
structure EnqueueEnv where
  settings : Settings
  created : Option (Option AudioDevice)
  lastSampleEnd : Int
  corrected : Option DspChunk
  timingsError : Int
  slavedClockOffset : Int
  upstream : DspChunk → Option DspChunk
  downstream : DspChunk → DspChunk
  filledEvent : Bool
  push : List PushStep

namespace AudioRenderer

/-- `AudioRenderer::ClearDevice`. -/
def ClearDevice (r : AudioRenderer) : AudioRenderer :=
  match r.m_device with
  | some _ =>
    { r with
      calls := r.calls ++ [Call.UnslaveClockFromAudio, Call.DeviceStop]
      m_device := none }
  | none => r

/-- The test of `CheckDeviceSettings` for a materially different device. -/
def settingsDiffer (device : AudioDevice) (pDeviceName : Option String) (exclusive : Bool)
    (buffer : Nat) : Bool :=
  let named := match pDeviceName with
    | some name => name ≠ ""
    | none => false
  device.IsExclusive != exclusive ||
    device.GetBufferDuration != buffer ||
    (named && pDeviceName != some device.GetFriendlyName) ||
    (!named && !device.IsDefault)

/-- `AudioRenderer::CheckDeviceSettings`. -/
def CheckDeviceSettings (r : AudioRenderer) (settings : Settings) : AudioRenderer :=
  let serial := settings.GetSerial
  match r.m_device with
  | some device =>
    if r.m_deviceSettingsSerial ≠ serial then
      match settings.GetOuputDevice with
      | some (pDeviceName, exclusive, buffer) =>
        if settingsDiffer device pDeviceName exclusive buffer then ClearDevice r
        else { r with m_deviceSettingsSerial := serial }
      | none => r
    else r
  | none => r

/-- `AudioRenderer::StartDevice`. -/
def StartDevice (r : AudioRenderer) : AudioRenderer :=
  match r.m_device with
  | some _ =>
    let r1 := if !r.m_live then
        { r with calls := r.calls ++ [Call.SlaveClockToAudio (r.m_startTime + r.m_startClockOffset)] }
      else r
    { r1 with calls := r1.calls ++ [Call.DeviceStart] }
  | none => r

/-- `AudioRenderer::InitializeProcessors`, as far as the limiter goes:
`m_dspLimiter.Initialize(.., outRate, m_device->IsExclusive())`. -/
def InitializeProcessors (r : AudioRenderer) : AudioRenderer :=
  match r.m_device with
  | some device =>
    if device.IsBitstream then r
    else { r with m_dspLimiter := DspLimiter.Initialize device.rate device.IsExclusive }
  | none => r

/-- `AudioRenderer::CreateDevice`; the flag is `false` when the device manager
throws `std::bad_alloc`. -/
def CreateDevice (r : AudioRenderer) (settings : Settings) (created : Option (Option AudioDevice))
    (lastSampleEnd : Int) : AudioRenderer × Bool :=
  let r1 := { r with m_deviceSettingsSerial := settings.GetSerial }
  match created with
  | none => (r1, false)
  | some none => ({ r1 with m_device := none }, true)
  | some (some device) =>
    let r2 := { r1 with m_device := some device, calls := r1.calls ++ [Call.NewDeviceBuffer] }
    let r3 := InitializeProcessors r2
    let r4 := { r3 with m_startClockOffset := lastSampleEnd }
    (if r4.m_state = FilterState.State_Running then StartDevice r4 else r4, true)

/-- `AudioRenderer::ApplyClockCorrection`. -/
def ApplyClockCorrection (r : AudioRenderer) (timingsError slavedClockOffset : Int) :
    AudioRenderer :=
  let offset := timingsError - slavedClockOffset
  if |offset| > 1000 then { r with calls := r.calls ++ [Call.OffsetSlavedClock offset] }
  else r

/-- The `try` block of `Enqueue`: the state it leaves and the chunk, `none`
when a `std::bad_alloc` cut it short. -/
def enqueueTry (r : AudioRenderer) (env : EnqueueEnv) : AudioRenderer × Option DspChunk :=
  let r1 := CheckDeviceSettings r env.settings
  let r2 := if r1.m_device.isNone then CreateDevice r1 env.settings env.created env.lastSampleEnd
    else (r1, true)
  if !r2.2 then (r2.1, none)
  else
    let r3 := { r2.1 with calls := r2.1.calls ++ [Call.ProcessSample] }
    match env.corrected with
    | none => (r3, none)
    | some chunk =>
      let r4 := if !r3.m_live ∧ r3.m_device.isSome ∧ r3.m_state = FilterState.State_Running then
          ApplyClockCorrection r3 env.timingsError env.slavedClockOffset
        else r3
      match r4.m_device with
      | some device =>
        if !device.IsBitstream then
          match env.upstream chunk with
          | none => (r4, none)
          | some chunk1 =>
            let p := r4.m_dspLimiter.Process chunk1
            ({ r4 with m_dspLimiter := p.1 }, some (env.downstream p.2))
        else (r4, some chunk)
      | none => (r4, some chunk)

/-- The locked part of `AudioRenderer::Enqueue`: the `try` block and its
`catch (std::bad_alloc&)`. -/
def enqueueLocked (r : AudioRenderer) (env : EnqueueEnv) : AudioRenderer × DspChunk :=
  let t := enqueueTry r env
  match t.2 with
  | some chunk => (t.1, chunk)
  | none => (ClearDevice t.1, DspChunk.empty)

/-- `AudioRenderer::Push`: one pass of its loop per `PushStep`.  The result is
`none` when the steps run out while the loop is still going. -/
def Push (r : AudioRenderer) (chunk : DspChunk) (filledEvent : Bool) (lastSampleEnd : Int)
    (firstIteration : Bool) : List PushStep → AudioRenderer × Option Bool
  | [] => (r, if chunk.IsEmpty then some true else none)
  | step :: rest =>
    if chunk.IsEmpty then (r, some true)
    else
      let r1 := if step.flushed then { r with m_flush := true } else r
      if !firstIteration ∧ r1.m_flush then (r1, some false)
      else
        match r1.m_device with
        | some _ =>
          match step.devicePush with
          | some left =>
            Push { r1 with calls := r1.calls ++ [Call.DevicePush] } left filledEvent lastSampleEnd
              false rest
          | none =>
            Push (ClearDevice { r1 with calls := r1.calls ++ [Call.DevicePush] }) chunk filledEvent
              lastSampleEnd false rest
        | none =>
          let r2 := if filledEvent then { r1 with calls := r1.calls ++ [Call.FilledEventSet] }
            else r1
          let passed := match step.graphTime with
            | some graphTime => decide (graphTime > r2.m_startTime + lastSampleEnd)
            | none => false
          if r2.m_state = FilterState.State_Running ∧ passed = true then (r2, some true)
          else Push r2 chunk filledEvent lastSampleEnd false rest

/-- `AudioRenderer::Enqueue`. -/
def Enqueue (r : AudioRenderer) (env : EnqueueEnv) : AudioRenderer × Option Bool :=
  let l := enqueueLocked r env
  Push l.1 l.2 env.filledEvent env.lastSampleEnd true env.push

/-- `AudioRenderer::BeginFlush`. -/
def BeginFlush (r : AudioRenderer) : AudioRenderer :=
  { r with m_flush := true }

/-- `AudioRenderer::EndFlush`. -/
def EndFlush (r : AudioRenderer) : AudioRenderer :=
  let r1 := if r.m_live then r
    else
      match r.m_device with
      | some _ => { r with calls := r.calls ++ [Call.DeviceReset, Call.NewDeviceBuffer] }
      | none => r
  { r1 with m_flush := false }

/-- `AudioRenderer::SetFormat`. -/
def SetFormat (r : AudioRenderer) (inputFormat : WaveFormat) (live : Bool) : AudioRenderer :=
  ClearDevice { r with
    m_inputFormat := some inputFormat
    m_live := live
    calls := r.calls ++ [Call.NewFormat] }

/-- `AudioRenderer::NewSegment`. -/
def NewSegment (r : AudioRenderer) (rate : ℚ) : AudioRenderer :=
  let r1 := { r with
    m_startClockOffset := 0
    m_rate := rate
    calls := r.calls ++ [Call.NewSegment] }
  if r1.m_device.isSome then InitializeProcessors r1 else r1

/-- `AudioRenderer::Play`. -/
def Play (r : AudioRenderer) (startTime : Int) : AudioRenderer :=
  StartDevice { r with m_state := FilterState.State_Running, m_startTime := startTime }

/-- `AudioRenderer::Pause`. -/
def Pause (r : AudioRenderer) : AudioRenderer :=
  let r1 := { r with m_state := FilterState.State_Paused }
  match r1.m_device with
  | some _ => { r1 with calls := r1.calls ++ [Call.UnslaveClockFromAudio, Call.DeviceStop] }
  | none => r1

/-- `AudioRenderer::Stop`. -/
def Stop (r : AudioRenderer) : AudioRenderer :=
  ClearDevice { r with m_state := FilterState.State_Stopped }

end AudioRenderer

/-- The operations the host invokes on the renderer. -/
inductive Op where
  | SetFormat (inputFormat : WaveFormat) (live : Bool)
  | NewSegment (rate : ℚ)
  | Play (startTime : Int)
  | Pause
  | Stop
  | Enqueue (env : EnqueueEnv)
  | BeginFlush
  | EndFlush

namespace AudioRenderer

/-- The renderer after one operation. -/
def step (r : AudioRenderer) : Op → AudioRenderer
  | Op.SetFormat inputFormat live => r.SetFormat inputFormat live
  | Op.NewSegment rate => r.NewSegment rate
  | Op.Play startTime => r.Play startTime
  | Op.Pause => r.Pause
  | Op.Stop => r.Stop
  | Op.Enqueue env => (r.Enqueue env).1
  | Op.BeginFlush => r.BeginFlush
  | Op.EndFlush => r.EndFlush

/-- The renderer after a sequence of operations. -/
def steps (r : AudioRenderer) (ops : List Op) : AudioRenderer :=
  ops.foldl step r

/-- The calls that steer the clock. -/
def steersClock : Call → Bool
  | Call.SlaveClockToAudio _ => true
  | Call.OffsetSlavedClock _ => true
  | _ => false

end AudioRenderer

/-! ## States and devices of the scenarios -/

/-- A shared-mode PCM device, the system default. -/
def sharedDevice : AudioDevice :=
  { IsBitstream := false
    IsExclusive := false
    IsDefault := true
    IsLive := false
    GetBufferDuration := 200
    GetFriendlyName := "Speakers"
    rate := 48000
    GetDspFormat := DspFormat.Float }

/-- An exclusive-mode bitstream device. -/
def bitstreamDevice : AudioDevice :=
  { IsBitstream := true
    IsExclusive := true
    IsDefault := true
    IsLive := false
    GetBufferDuration := 200
    GetFriendlyName := "Speakers"
    rate := 48000
    GetDspFormat := DspFormat.Unknown }

/-- A paused renderer of a source that is not live, holding `sharedDevice`
created under settings serial 1, the flush event clear. -/
def pausedRenderer : AudioRenderer :=
  { m_state := FilterState.State_Paused
    m_inputFormat := some ⟨48000, 2⟩
    m_live := false
    m_device := some sharedDevice
    m_deviceSettingsSerial := 1
    m_startClockOffset := 0
    m_startTime := 0
    m_rate := 1
    m_flush := false
    m_dspLimiter := DspLimiter.Initialize 48000 false
    calls := [] }

/-- A running renderer of a live source, holding a live shared-mode device. -/
def liveRenderer : AudioRenderer :=
  { pausedRenderer with
    m_state := FilterState.State_Running
    m_live := true
    m_device := some { sharedDevice with IsLive := true } }

/-- The operation leaves a live source live: every operation but a `SetFormat`
to a source that is not live. -/
def Op.keepsLive : Op → Prop
  | Op.SetFormat _ live => live = true
  | _ => True

/-- Settings of serial 2 asking for the default device in exclusive mode with
a buffer of 200 ms. -/
def exclusiveSettings : Settings :=
  { GetSerial := 2, GetOuputDevice := some (none, true, 200) }

/-- An `Enqueue` under `exclusiveSettings` of one mono frame: the device
manager returns `created`, no stage before or after the limiter alters the
chunk, and the device takes the whole chunk at the first push. -/
def exclusiveEnv (created : Option AudioDevice) : EnqueueEnv :=
  { settings := exclusiveSettings
    created := some created
    lastSampleEnd := 0
    corrected := some (mono [1 / 2])
    timingsError := 0
    slavedClockOffset := 0
    upstream := fun chunk => some chunk
    downstream := fun chunk => chunk
    filledEvent := false
    push := [⟨false, some DspChunk.empty, some 1⟩] }

/-- An exclusive-mode PCM device, the system default. -/
def exclusiveDevice : AudioDevice :=
  { sharedDevice with IsExclusive := true }

end SaneAudioRenderer

/-! ## Properties of the limiter -/

namespace SaneAudioRenderer

namespace DspLimiter

/-! ### What each step leaves alone -/

theorem analyzeFrame_eq (s : DspLimiter) (p : Nat) (fr : List ℚ) :
    analyzeFrame s p fr = { s with m_peaks := (analyzeFrame s p fr).m_peaks } := by
  unfold analyzeFrame
  dsimp only
  split
  · split
    · rfl
    · rfl
    · split <;> rfl
  · rfl

theorem analyzeFrames_eq (s : DspLimiter) (p : Nat) (frs : List (List ℚ)) :
    analyzeFrames s p frs = { s with m_peaks := (analyzeFrames s p frs).m_peaks } := by
  induction frs generalizing s p with
  | nil => rfl
  | cons fr rest ih =>
    simp only [analyzeFrames]
    rw [ih, analyzeFrame_eq s p fr]

theorem AnalyzeLastChunk_eq (s : DspLimiter) :
    AnalyzeLastChunk s = { s with m_peaks := (AnalyzeLastChunk s).m_peaks } := by
  unfold AnalyzeLastChunk
  split
  · rfl
  · exact analyzeFrames_eq _ _ _

theorem modifyFrames_length (limit : ℚ) (frs : List (List ℚ)) (peaks : List (Nat × ℚ)) (a : Nat) :
    (modifyFrames limit frs peaks a).1.length = frs.length := by
  induction frs generalizing peaks a with
  | nil => rfl
  | cons fr rest ih =>
    simp only [modifyFrames]
    split
    · split
      · split
        · simp
        · simp [ih]
      · simp [ih]
    · rfl

theorem ModifyFirstChunk_fields (s : DspLimiter) :
    (ModifyFirstChunk s).m_limit = s.m_limit ∧
    (ModifyFirstChunk s).m_attackFrames = s.m_attackFrames ∧
    (ModifyFirstChunk s).m_releaseFrames = s.m_releaseFrames ∧
    (ModifyFirstChunk s).m_windowFrames = s.m_windowFrames ∧
    (ModifyFirstChunk s).m_bufferFrameCount = s.m_bufferFrameCount ∧
    (ModifyFirstChunk s).m_bufferFirstFrame = s.m_bufferFirstFrame ∧
    (ModifyFirstChunk s).m_buffer.tail = s.m_buffer.tail ∧
    (ModifyFirstChunk s).m_buffer.map DspChunk.GetFrameCount =
      s.m_buffer.map DspChunk.GetFrameCount ∧
    (ModifyFirstChunk s).m_buffer.map DspChunk.format = s.m_buffer.map DspChunk.format := by
  unfold ModifyFirstChunk
  split
  · rename_i front tl chunk rest hp hb
    simp only [hb, DspChunk.GetFrameCount, modifyFrames_length, List.tail_cons, List.map_cons,
      List.length_append, List.length_take, List.length_drop, true_and, List.cons.injEq, and_true]
    omega
  · simp

theorem ModifyFirstChunk_no_peaks (s : DspLimiter) (h : s.m_peaks = []) :
    ModifyFirstChunk s = s := by
  unfold ModifyFirstChunk
  split
  · rename_i hp _
    rw [h] at hp
    cases hp
  · rfl

theorem AnalyzeLastChunk_fields (s : DspLimiter) :
    (AnalyzeLastChunk s).m_limit = s.m_limit ∧
    (AnalyzeLastChunk s).m_attackFrames = s.m_attackFrames ∧
    (AnalyzeLastChunk s).m_releaseFrames = s.m_releaseFrames ∧
    (AnalyzeLastChunk s).m_windowFrames = s.m_windowFrames ∧
    (AnalyzeLastChunk s).m_bufferFrameCount = s.m_bufferFrameCount ∧
    (AnalyzeLastChunk s).m_bufferFirstFrame = s.m_bufferFirstFrame ∧
    (AnalyzeLastChunk s).m_buffer = s.m_buffer := by
  have h := AnalyzeLastChunk_eq s
  generalize AnalyzeLastChunk s = t at h
  refine ⟨?_, ?_, ?_, ?_, ?_, ?_, ?_⟩ <;> rw [h]

theorem taken_fields (s : DspLimiter) (chunk : DspChunk) :
    (taken s chunk).m_limit = s.m_limit ∧
    (taken s chunk).m_attackFrames = s.m_attackFrames ∧
    (taken s chunk).m_releaseFrames = s.m_releaseFrames ∧
    (taken s chunk).m_windowFrames = s.m_windowFrames ∧
    (taken s chunk).m_bufferFrameCount = s.m_bufferFrameCount + chunk.GetFrameCount ∧
    (taken s chunk).m_bufferFirstFrame = s.m_bufferFirstFrame ∧
    (taken s chunk).m_buffer = s.m_buffer ++ [chunk] :=
  AnalyzeLastChunk_fields _

theorem Process_pass (s : DspLimiter) (chunk : DspChunk)
    (h : chunk.frames = [] ∨ chunk.format ≠ DspFormat.Float) : Process s chunk = (s, chunk) := by
  unfold Process
  rw [if_neg]
  rcases h with h | h
  · simp [DspChunk.IsEmpty, h]
  · simp [DspChunk.GetFormat, h]

theorem Process_taken (s : DspLimiter) (chunk : DspChunk) (h1 : chunk.frames ≠ [])
    (h2 : chunk.format = DspFormat.Float) :
    Process s chunk =
      if due s chunk then
        ({ ModifyFirstChunk (taken s chunk) with
          m_bufferFrameCount := s.m_bufferFrameCount + chunk.GetFrameCount -
            ((s.m_buffer ++ [chunk]).headD DspChunk.empty).GetFrameCount
          m_bufferFirstFrame := s.m_bufferFirstFrame +
            ((s.m_buffer ++ [chunk]).headD DspChunk.empty).GetFrameCount
          m_buffer := (s.m_buffer ++ [chunk]).tail },
        (ModifyFirstChunk (taken s chunk)).m_buffer.headD DspChunk.empty)
      else (taken s chunk, DspChunk.empty) := by
  unfold Process
  rw [if_pos (by simp [DspChunk.IsEmpty, DspChunk.GetFormat, h1, h2])]
  obtain ⟨_, _, _, hw, hc, hf, hb⟩ := taken_fields s chunk
  obtain ⟨_, _, _, _, hc', hf', ht', _, _⟩ := ModifyFirstChunk_fields (taken s chunk)
  show (if (taken s chunk).m_bufferFrameCount -
      ((taken s chunk).m_buffer.headD DspChunk.empty).GetFrameCount ≥ (taken s chunk).m_windowFrames
    then ({ ModifyFirstChunk (taken s chunk) with
          m_bufferFrameCount := (ModifyFirstChunk (taken s chunk)).m_bufferFrameCount -
            ((taken s chunk).m_buffer.headD DspChunk.empty).GetFrameCount
          m_bufferFirstFrame := (ModifyFirstChunk (taken s chunk)).m_bufferFirstFrame +
            ((taken s chunk).m_buffer.headD DspChunk.empty).GetFrameCount
          m_buffer := (ModifyFirstChunk (taken s chunk)).m_buffer.tail },
        (ModifyFirstChunk (taken s chunk)).m_buffer.headD DspChunk.empty)
    else (taken s chunk, DspChunk.empty)) = _
  rw [hc', hf', ht', hw, hc, hf, hb]

/-! ### Frame accounting -/

theorem frameTotal_append (xs ys : List DspChunk) :
    frameTotal (xs ++ ys) = frameTotal xs + frameTotal ys := by
  simp [frameTotal]

theorem frameTotal_head_tail (xs : List DspChunk) :
    (xs.headD DspChunk.empty).GetFrameCount + frameTotal xs.tail = frameTotal xs := by
  cases xs with
  | nil => rfl
  | cons x rest => simp [frameTotal]

theorem headD_count_of_map_eq (xs ys : List DspChunk)
    (h : xs.map DspChunk.GetFrameCount = ys.map DspChunk.GetFrameCount) :
    (xs.headD DspChunk.empty).GetFrameCount = (ys.headD DspChunk.empty).GetFrameCount := by
  cases xs <;> cases ys <;> simp_all

/-- One `Process` call on a state whose `m_bufferFrameCount` is the number of
buffered frames: frames in equal frames out plus frames kept, the count stays
right, and `m_bufferFirstFrame` advances by what a float call hands back. -/
theorem Process_frames (s : DspLimiter) (chunk : DspChunk)
    (hinv : s.m_bufferFrameCount = frameTotal s.m_buffer) :
    (Process s chunk).2.GetFrameCount + (Process s chunk).1.m_bufferFrameCount =
        chunk.GetFrameCount + s.m_bufferFrameCount ∧
      (Process s chunk).1.m_bufferFrameCount = frameTotal (Process s chunk).1.m_buffer ∧
      (chunk.format = DspFormat.Float →
        (Process s chunk).1.m_bufferFirstFrame =
          s.m_bufferFirstFrame + (Process s chunk).2.GetFrameCount) := by
  by_cases h1 : chunk.frames = []
  · rw [Process_pass s chunk (Or.inl h1)]
    simp [hinv, DspChunk.GetFrameCount, h1]
  by_cases h2 : chunk.format = DspFormat.Float
  · rw [Process_taken s chunk h1 h2]
    obtain ⟨_, _, _, _, hc, hf, hb⟩ := taken_fields s chunk
    obtain ⟨_, _, _, _, _, _, _, hm, _⟩ := ModifyFirstChunk_fields (taken s chunk)
    have hhead := headD_count_of_map_eq _ _ hm
    have hsum := frameTotal_head_tail (s.m_buffer ++ [chunk])
    rw [frameTotal_append] at hsum
    have hone : frameTotal [chunk] = chunk.GetFrameCount := by simp [frameTotal]
    rw [hb] at hhead
    split
    · simp only [hhead]
      refine ⟨?_, ?_, fun _ => trivial⟩ <;> omega
    · refine ⟨?_, ?_, fun _ => ?_⟩
      · simp [hc, DspChunk.empty, DspChunk.GetFrameCount]; omega
      · rw [hc, hb, frameTotal_append]; omega
      · simp [hf, DspChunk.empty, DspChunk.GetFrameCount]
  · rw [Process_pass s chunk (Or.inr h2)]
    exact ⟨rfl, hinv, fun h => absurd h h2⟩

theorem processAll_frames (s : DspLimiter) (chunks : List DspChunk)
    (hinv : s.m_bufferFrameCount = frameTotal s.m_buffer) :
    frameTotal (processAll s chunks).2 + (processAll s chunks).1.m_bufferFrameCount =
        frameTotal chunks + s.m_bufferFrameCount ∧
      (processAll s chunks).1.m_bufferFrameCount = frameTotal (processAll s chunks).1.m_buffer ∧
      ((∀ chunk ∈ chunks, chunk.format = DspFormat.Float) →
        (processAll s chunks).1.m_bufferFirstFrame =
          s.m_bufferFirstFrame + frameTotal (processAll s chunks).2) := by
  induction chunks generalizing s with
  | nil => simp [processAll, frameTotal, hinv]
  | cons chunk rest ih =>
    obtain ⟨h1, h2, h3⟩ := Process_frames s chunk hinv
    obtain ⟨i1, i2, i3⟩ := ih (Process s chunk).1 h2
    simp only [processAll]
    refine ⟨?_, i2, fun hf => ?_⟩
    · have e1 : ∀ (x : DspChunk) (xs : List DspChunk),
          frameTotal (x :: xs) = x.GetFrameCount + frameTotal xs := by
        intro x xs; simp [frameTotal]
      rw [e1, e1]; omega
    · have e1 : ∀ (x : DspChunk) (xs : List DspChunk),
          frameTotal (x :: xs) = x.GetFrameCount + frameTotal xs := by
        intro x xs; simp [frameTotal]
      rw [e1, i3 (fun c hc => hf c (List.mem_cons_of_mem _ hc)),
        h3 (hf chunk (List.mem_cons_self _ _))]
      omega

theorem run_frames (rate : Nat) (exclusive : Bool) (chunks : List DspChunk) :
    (run rate exclusive chunks).1.m_bufferFrameCount =
      frameTotal (run rate exclusive chunks).1.m_buffer :=
  (processAll_frames _ chunks rfl).2.1

/-- C4: frame conservation in the limiter.  In every state reached from
`Initialize` by `Process` calls, one more `Process` call hands back and keeps
together exactly the frames submitted and kept before (a call that emits
nothing hands back the empty chunk); over the whole run of float chunks the
frames handed back plus `m_bufferFrameCount` are the frames submitted,
`m_bufferFrameCount` is the number of frames of the buffered chunks, and
`m_bufferFirstFrame` is the number of frames handed back. -/
theorem C4_frame_conservation (rate : Nat) (exclusive : Bool) (chunks : List DspChunk)
    (chunk : DspChunk) (hfloat : ∀ c ∈ chunks, c.format = DspFormat.Float) :
    (Process (run rate exclusive chunks).1 chunk).2.GetFrameCount +
        (Process (run rate exclusive chunks).1 chunk).1.m_bufferFrameCount =
      chunk.GetFrameCount + (run rate exclusive chunks).1.m_bufferFrameCount ∧
    frameTotal (run rate exclusive chunks).2 + (run rate exclusive chunks).1.m_bufferFrameCount =
      frameTotal chunks ∧
    (run rate exclusive chunks).1.m_bufferFrameCount =
      frameTotal (run rate exclusive chunks).1.m_buffer ∧
    (run rate exclusive chunks).1.m_bufferFirstFrame = frameTotal (run rate exclusive chunks).2 := by
  obtain ⟨h1, h2, h3⟩ := processAll_frames (Initialize rate exclusive) chunks rfl
  refine ⟨(Process_frames _ chunk (run_frames rate exclusive chunks)).1, ?_, h2, ?_⟩
  · simpa [Initialize] using h1
  · simpa [Initialize] using h3 hfloat

/-- C4 at a run of five one-frame chunks at rate 100: two frames were handed
back and `m_bufferFirstFrame` is 2. -/
theorem C4_frame_conservation_witness :
    (run 100 false [mono [1/2], mono [1/3], mono [1/4], mono [1/5], mono [1/6]]).1.m_bufferFirstFrame =
      frameTotal (run 100 false [mono [1/2], mono [1/3], mono [1/4], mono [1/5], mono [1/6]]).2 :=
  (C4_frame_conservation 100 false [mono [1/2], mono [1/3], mono [1/4], mono [1/5], mono [1/6]]
    (mono []) (by simp [mono])).2.2.2

/-! ### The parameters and the buffered chunks -/

theorem Process_fields (s : DspLimiter) (chunk : DspChunk) :
    (Process s chunk).1.m_limit = s.m_limit ∧
    (Process s chunk).1.m_attackFrames = s.m_attackFrames ∧
    (Process s chunk).1.m_releaseFrames = s.m_releaseFrames ∧
    (Process s chunk).1.m_windowFrames = s.m_windowFrames := by
  by_cases h : chunk.frames ≠ [] ∧ chunk.format = DspFormat.Float
  · rw [Process_taken s chunk h.1 h.2]
    obtain ⟨t1, t2, t3, t4, _⟩ := taken_fields s chunk
    obtain ⟨m1, m2, m3, m4, _⟩ := ModifyFirstChunk_fields (taken s chunk)
    split
    · exact ⟨m1.trans t1, m2.trans t2, m3.trans t3, m4.trans t4⟩
    · exact ⟨t1, t2, t3, t4⟩
  · rw [Process_pass s chunk (by tauto)]
    exact ⟨rfl, rfl, rfl, rfl⟩

theorem processAll_fields (s : DspLimiter) (chunks : List DspChunk) :
    (processAll s chunks).1.m_limit = s.m_limit ∧
    (processAll s chunks).1.m_attackFrames = s.m_attackFrames ∧
    (processAll s chunks).1.m_releaseFrames = s.m_releaseFrames ∧
    (processAll s chunks).1.m_windowFrames = s.m_windowFrames := by
  induction chunks generalizing s with
  | nil => exact ⟨rfl, rfl, rfl, rfl⟩
  | cons chunk rest ih =>
    obtain ⟨p1, p2, p3, p4⟩ := Process_fields s chunk
    obtain ⟨i1, i2, i3, i4⟩ := ih (Process s chunk).1
    exact ⟨i1.trans p1, i2.trans p2, i3.trans p3, i4.trans p4⟩

theorem run_fields (rate : Nat) (exclusive : Bool) (chunks : List DspChunk) :
    (run rate exclusive chunks).1.m_limit = (if exclusive then 1 else 49 / 50) ∧
    (run rate exclusive chunks).1.m_attackFrames = rate / 100 ∧
    (run rate exclusive chunks).1.m_releaseFrames = rate / 100 ∧
    (run rate exclusive chunks).1.m_windowFrames = rate / 100 + rate / 100 + 1 :=
  processAll_fields (Initialize rate exclusive) chunks

/-- The buffer after a `Process` call: the buffer before, with the chunk at
its back when it was taken, and without its front when that was handed
back. -/
theorem Process_buffer (s : DspLimiter) (chunk : DspChunk) :
    (Process s chunk).1.m_buffer = s.m_buffer ∨
      (Process s chunk).1.m_buffer = s.m_buffer ++ [chunk] ∧ chunk.frames ≠ [] ∨
      (Process s chunk).1.m_buffer = (s.m_buffer ++ [chunk]).tail ∧ chunk.frames ≠ [] := by
  by_cases h : chunk.frames ≠ [] ∧ chunk.format = DspFormat.Float
  · rw [Process_taken s chunk h.1 h.2]
    split
    · exact Or.inr (Or.inr ⟨rfl, h.1⟩)
    · exact Or.inr (Or.inl ⟨(taken_fields s chunk).2.2.2.2.2.2, h.1⟩)
  · rw [Process_pass s chunk (by tauto)]
    exact Or.inl rfl

theorem Process_buffer_nonempty (s : DspLimiter) (chunk : DspChunk)
    (hinv : ∀ c ∈ s.m_buffer, c.frames ≠ []) :
    ∀ c ∈ (Process s chunk).1.m_buffer, c.frames ≠ [] := by
  rcases Process_buffer s chunk with h | ⟨h, hc⟩ | ⟨h, hc⟩
  · rw [h]; exact hinv
  · rw [h]
    intro c hmem
    rcases List.mem_append.1 hmem with hm | hm
    · exact hinv c hm
    · rw [List.mem_singleton.1 hm]; exact hc
  · rw [h]
    intro c hmem
    rcases List.mem_append.1 (List.mem_of_mem_tail hmem) with hm | hm
    · exact hinv c hm
    · rw [List.mem_singleton.1 hm]; exact hc

theorem processAll_buffer_nonempty (s : DspLimiter) (chunks : List DspChunk)
    (hinv : ∀ c ∈ s.m_buffer, c.frames ≠ []) :
    ∀ c ∈ (processAll s chunks).1.m_buffer, c.frames ≠ [] := by
  induction chunks generalizing s with
  | nil => exact hinv
  | cons chunk rest ih => exact ih _ (Process_buffer_nonempty s chunk hinv)

theorem run_buffer_nonempty (rate : Nat) (exclusive : Bool) (chunks : List DspChunk) :
    ∀ c ∈ (run rate exclusive chunks).1.m_buffer, c.frames ≠ [] :=
  processAll_buffer_nonempty _ chunks (by simp [Initialize])

/-! ### The look-ahead delay -/

theorem Process_one_frame (s : DspLimiter) (chunk : DspChunk)
    (hchunk : chunk.GetFrameCount ≤ 1)
    (hbuf : ∀ c ∈ s.m_buffer, c.GetFrameCount = 1)
    (hcount : s.m_bufferFrameCount = s.m_buffer.length)
    (hle : s.m_bufferFrameCount ≤ s.m_windowFrames) :
    (∀ c ∈ (Process s chunk).1.m_buffer, c.GetFrameCount = 1) ∧
      (Process s chunk).1.m_bufferFrameCount = (Process s chunk).1.m_buffer.length ∧
      (Process s chunk).1.m_bufferFrameCount ≤ (Process s chunk).1.m_windowFrames := by
  by_cases h : chunk.frames ≠ [] ∧ chunk.format = DspFormat.Float
  · have hone : chunk.GetFrameCount = 1 := by
      have : chunk.frames.length ≠ 0 := fun h0 => h.1 (List.length_eq_zero.1 h0)
      simp only [DspChunk.GetFrameCount] at hchunk ⊢
      omega
    have hall : ∀ c ∈ s.m_buffer ++ [chunk], c.GetFrameCount = 1 := by
      intro c hc
      rcases List.mem_append.1 hc with hm | hm
      · exact hbuf c hm
      · rw [List.mem_singleton.1 hm]; exact hone
    have hhead : ((s.m_buffer ++ [chunk]).headD DspChunk.empty).GetFrameCount = 1 := by
      cases hb : s.m_buffer with
      | nil => simpa using hone
      | cons x rest => simpa using hbuf x (by simp [hb])
    obtain ⟨_, _, _, hw, hc, _, hb⟩ := taken_fields s chunk
    obtain ⟨_, _, _, hw', _⟩ := ModifyFirstChunk_fields (taken s chunk)
    rw [Process_taken s chunk h.1 h.2]
    split
    · rename_i hdue
      simp only [due, hhead, hone] at hdue
      refine ⟨fun c hm => hall c (List.mem_of_mem_tail hm), ?_, ?_⟩
      · simp only [hhead, hone, List.length_tail, List.length_append, List.length_singleton]
        omega
      · simp only [hhead, hone, hw', hw]
        omega
    · rename_i hdue
      simp only [due, hhead, hone, not_le] at hdue
      refine ⟨by rw [hb]; exact hall, ?_, ?_⟩
      · rw [hc, hb, hone]; simp [hcount]
      · rw [hc, hw, hone]; omega
  · rw [Process_pass s chunk (by tauto)]
    exact ⟨hbuf, hcount, hle⟩

theorem processAll_one_frame (s : DspLimiter) (chunks : List DspChunk)
    (hchunks : ∀ c ∈ chunks, c.GetFrameCount ≤ 1)
    (hbuf : ∀ c ∈ s.m_buffer, c.GetFrameCount = 1)
    (hcount : s.m_bufferFrameCount = s.m_buffer.length)
    (hle : s.m_bufferFrameCount ≤ s.m_windowFrames) :
    (processAll s chunks).1.m_bufferFrameCount ≤ (processAll s chunks).1.m_windowFrames := by
  induction chunks generalizing s with
  | nil => exact hle
  | cons chunk rest ih =>
    obtain ⟨h1, h2, h3⟩ :=
      Process_one_frame s chunk (hchunks chunk (List.mem_cons_self _ _)) hbuf hcount hle
    exact ih _ (fun c hc => hchunks c (List.mem_cons_of_mem _ hc)) h1 h2 h3

/-- After a call that hands back a buffered chunk at least `m_windowFrames`
frames stay behind. -/
theorem Process_emitted_bound (s : DspLimiter) (chunk : DspChunk)
    (hfloat : chunk.format = DspFormat.Float) (hout : (Process s chunk).2.IsEmpty = false) :
    (Process s chunk).1.m_windowFrames ≤ (Process s chunk).1.m_bufferFrameCount := by
  by_cases h : chunk.frames ≠ []
  · rw [Process_taken s chunk h hfloat] at hout ⊢
    obtain ⟨_, _, _, hw, _⟩ := taken_fields s chunk
    obtain ⟨_, _, _, hw', _⟩ := ModifyFirstChunk_fields (taken s chunk)
    split
    · rename_i hdue
      simp only [hw', hw]
      exact hdue
    · rename_i hdue
      rw [if_neg hdue] at hout
      simp [DspChunk.IsEmpty, DspChunk.empty] at hout
  · rw [Process_pass s chunk (Or.inl (not_not.1 h))] at hout
    simp [DspChunk.IsEmpty, not_not.1 h] at hout

/-- After a call that takes a chunk and hands nothing back fewer than
`m_windowFrames` frames are buffered behind the front chunk. -/
theorem Process_held_bound (s : DspLimiter) (chunk : DspChunk)
    (hbuf : ∀ c ∈ s.m_buffer, c.frames ≠ [])
    (hfloat : chunk.format = DspFormat.Float) (hin : chunk.IsEmpty = false)
    (hout : (Process s chunk).2.IsEmpty = true) :
    (Process s chunk).1.m_bufferFrameCount -
        ((Process s chunk).1.m_buffer.headD DspChunk.empty).GetFrameCount <
      (Process s chunk).1.m_windowFrames := by
  have h : chunk.frames ≠ [] := by
    intro h0
    simp [DspChunk.IsEmpty, h0] at hin
  rw [Process_taken s chunk h hfloat] at hout ⊢
  obtain ⟨_, _, _, hw, hc, _, hb⟩ := taken_fields s chunk
  split
  · rename_i hdue
    rw [if_pos hdue] at hout
    obtain ⟨_, _, _, _, _, _, _, hm, _⟩ := ModifyFirstChunk_fields (taken s chunk)
    have hhead := headD_count_of_map_eq _ _ hm
    rw [hb] at hhead
    have hne : ((s.m_buffer ++ [chunk]).headD DspChunk.empty).frames ≠ [] := by
      cases hs : s.m_buffer with
      | nil => simpa using h
      | cons x rest => simpa using hbuf x (by simp [hs])
    exfalso
    apply hne
    apply List.length_eq_zero.1
    have : ((taken s chunk).ModifyFirstChunk.m_buffer.headD DspChunk.empty).frames = [] := by
      simpa [DspChunk.IsEmpty] using hout
    simp only [DspChunk.GetFrameCount, this, List.length_nil] at hhead
    exact hhead.symm
  · rename_i hdue
    rw [hc, hb, hw]
    exact not_le.1 hdue

/-- C5, as the code has it: the look-ahead is a lower bound on what stays
buffered, not an upper one.  `m_windowFrames` is
`m_attackFrames + m_releaseFrames + 1`; after a `Process` call on a float
chunk that hands back a buffered chunk, `m_bufferFrameCount` is at least
`m_windowFrames`; after one that takes a chunk and hands nothing back, fewer
than `m_windowFrames` frames are buffered behind the front chunk; and when no
chunk has more than one frame, `m_bufferFrameCount` is at most
`m_windowFrames`. -/
theorem C5_delay_bounds (rate : Nat) (exclusive : Bool) (chunks : List DspChunk)
    (chunk : DspChunk) (hfloat : chunk.format = DspFormat.Float) :
    (run rate exclusive chunks).1.m_windowFrames =
      (run rate exclusive chunks).1.m_attackFrames +
        (run rate exclusive chunks).1.m_releaseFrames + 1 ∧
    ((Process (run rate exclusive chunks).1 chunk).2.IsEmpty = false →
      (Process (run rate exclusive chunks).1 chunk).1.m_windowFrames ≤
        (Process (run rate exclusive chunks).1 chunk).1.m_bufferFrameCount) ∧
    (chunk.IsEmpty = false → (Process (run rate exclusive chunks).1 chunk).2.IsEmpty = true →
      (Process (run rate exclusive chunks).1 chunk).1.m_bufferFrameCount -
          ((Process (run rate exclusive chunks).1 chunk).1.m_buffer.headD
            DspChunk.empty).GetFrameCount <
        (Process (run rate exclusive chunks).1 chunk).1.m_windowFrames) ∧
    ((∀ c ∈ chunks, c.GetFrameCount ≤ 1) →
      (run rate exclusive chunks).1.m_bufferFrameCount ≤
        (run rate exclusive chunks).1.m_windowFrames) := by
  obtain ⟨_, ha, hr, hw⟩ := run_fields rate exclusive chunks
  refine ⟨by rw [ha, hr, hw], Process_emitted_bound _ chunk hfloat,
    Process_held_bound _ chunk (run_buffer_nonempty rate exclusive chunks) hfloat, fun h1 => ?_⟩
  exact processAll_one_frame _ chunks h1 (by simp [Initialize]) rfl (by simp [Initialize])

/-- C5 at a run of four one-frame chunks at rate 100 followed by a fifth: the
fifth call hands a chunk back and leaves `m_windowFrames = 3` frames
buffered. -/
theorem C5_delay_bounds_witness :
    (Process (run 100 false [mono [1/2], mono [1/3], mono [1/4], mono [1/5]]).1
        (mono [1/6])).1.m_windowFrames ≤
      (Process (run 100 false [mono [1/2], mono [1/3], mono [1/4], mono [1/5]]).1
        (mono [1/6])).1.m_bufferFrameCount :=
  (C5_delay_bounds 100 false [mono [1/2], mono [1/3], mono [1/4], mono [1/5]] (mono [1/6])
    rfl).2.1 (by decide!)

/-- C5 as stated fails: at rate 100 (`m_windowFrames = 3`) one chunk of four
frames leaves `m_bufferFrameCount = 4`. -/
theorem C5_delay_counterexample :
    (run 100 false [mono [0, 0, 0, 0]]).1.m_windowFrames = 3 ∧
      (run 100 false [mono [0, 0, 0, 0]]).1.m_bufferFrameCount = 4 ∧
      ¬ ((run 100 false [mono [0, 0, 0, 0]]).1.m_bufferFrameCount ≤
        (run 100 false [mono [0, 0, 0, 0]]).1.m_windowFrames) := by
  decide!

/-! ### End of stream -/

theorem Finish_pass (s : DspLimiter) (chunk : DspChunk) (h : chunk.IsEmpty = true) :
    Finish s chunk = (s, chunk) :=
  Process_pass s chunk (Or.inl (by simpa [DspChunk.IsEmpty] using h))

theorem finishTimes_eq (s : DspLimiter) (n : Nat) : finishTimes s n = s := by
  induction n with
  | zero => rfl
  | succ n ih =>
    simp only [finishTimes]
    rw [Finish_pass s DspChunk.empty rfl]
    exact ih

theorem Finish_buffer_length (s : DspLimiter) (chunk : DspChunk) :
    s.m_buffer.length ≤ (Finish s chunk).1.m_buffer.length ∧
      (Finish s chunk).1.m_buffer.length ≤ s.m_buffer.length + 1 := by
  unfold Finish
  rcases Process_buffer s chunk with h | ⟨h, _⟩ | ⟨h, _⟩ <;> rw [h] <;> simp

/-- C3, as the code has it: `Finish` is `Process`, so an end-of-stream call
with an empty chunk changes nothing and hands the empty chunk back: however
often it is repeated the limiter stays as it was and nothing buffered comes
out.  A call of `Finish` with any chunk hands back at most one buffered chunk
and never leaves fewer chunks buffered than before. -/
theorem C3_finish_keeps_buffer (s : DspLimiter) (chunk : DspChunk) (format : DspFormat)
    (n : Nat) :
    Finish s chunk = Process s chunk ∧
    Finish s ⟨format, []⟩ = (s, ⟨format, []⟩) ∧
    finishTimes s n = s ∧
    s.m_buffer.length ≤ (Finish s chunk).1.m_buffer.length ∧
    (Finish s chunk).1.m_buffer.length ≤ s.m_buffer.length + 1 :=
  ⟨rfl, Finish_pass s _ rfl, finishTimes_eq s n, Finish_buffer_length s chunk⟩

/-- C3 as stated fails: after `Initialize(100, false)` and one chunk of one
frame the buffer holds that chunk, and no number of `Finish` calls with the
empty chunk empties it. -/
theorem C3_finish_counterexample :
    (run 100 false [mono [1/2]]).1.m_buffer = [mono [1/2]] ∧
      ¬ ∃ n, (finishTimes (run 100 false [mono [1/2]]).1 n).m_buffer = [] := by
  have h : (run 100 false [mono [1/2]]).1.m_buffer = [mono [1/2]] := by decide!
  refine ⟨h, ?_⟩
  rintro ⟨n, hn⟩
  rw [finishTimes_eq, h] at hn
  cases hn

/-! ### Audio below the ceiling -/

theorem frameSample_foldl_le (limit : ℚ) (frame : List ℚ) (acc : ℚ) (hacc : acc ≤ limit)
    (h : ∀ x ∈ frame, |x| ≤ limit) :
    frame.foldl (fun sample x => max |x| sample) acc ≤ limit := by
  induction frame generalizing acc with
  | nil => exact hacc
  | cons x rest ih =>
    simp only [List.foldl_cons]
    exact ih _ (max_le (h x (List.mem_cons_self _ _)) hacc)
      (fun y hy => h y (List.mem_cons_of_mem _ hy))

theorem frameSample_le (limit : ℚ) (frame : List ℚ) (hlimit : 0 ≤ limit)
    (h : ∀ x ∈ frame, |x| ≤ limit) : frameSample frame ≤ limit :=
  frameSample_foldl_le limit frame 0 hlimit h

theorem analyzeFrame_quiet (s : DspLimiter) (p : Nat) (frame : List ℚ)
    (h : frameSample frame ≤ s.m_limit) : analyzeFrame s p frame = s := by
  unfold analyzeFrame
  exact if_neg (not_lt.2 h)

theorem analyzeFrames_quiet (s : DspLimiter) (p : Nat) (frames : List (List ℚ))
    (h : ∀ frame ∈ frames, frameSample frame ≤ s.m_limit) : analyzeFrames s p frames = s := by
  induction frames generalizing p with
  | nil => rfl
  | cons frame rest ih =>
    simp only [analyzeFrames]
    rw [analyzeFrame_quiet s p frame (h frame (List.mem_cons_self _ _))]
    exact ih _ (fun fr hfr => h fr (List.mem_cons_of_mem _ hfr))

theorem taken_eq (s : DspLimiter) (chunk : DspChunk) :
    taken s chunk =
      analyzeFrames { s with
          m_bufferFrameCount := s.m_bufferFrameCount + chunk.GetFrameCount
          m_buffer := s.m_buffer ++ [chunk] }
        (s.m_bufferFirstFrame + s.m_bufferFrameCount) chunk.frames := by
  unfold taken AnalyzeLastChunk
  simp only [List.getLast?_concat]
  congr 1
  omega

theorem taken_quiet (s : DspLimiter) (chunk : DspChunk) (hlimit : 0 ≤ s.m_limit)
    (h : chunk.within s.m_limit) :
    taken s chunk = { s with
      m_bufferFrameCount := s.m_bufferFrameCount + chunk.GetFrameCount
      m_buffer := s.m_buffer ++ [chunk] } := by
  rw [taken_eq]
  exact analyzeFrames_quiet _ _ _ (fun frame hf => frameSample_le _ frame hlimit (h frame hf))

theorem Process_quiet (s : DspLimiter) (chunk : DspChunk) (hpeaks : s.m_peaks = [])
    (hbuf : ∀ c ∈ s.m_buffer, c.frames ≠ []) (hlimit : 0 ≤ s.m_limit)
    (hfloat : chunk.format = DspFormat.Float) (h : chunk.within s.m_limit) :
    (Process s chunk).1.m_peaks = [] ∧
      [(Process s chunk).2].filter (fun c => !c.IsEmpty) ++ (Process s chunk).1.m_buffer =
        s.m_buffer ++ [chunk].filter (fun c => !c.IsEmpty) := by
  by_cases h1 : chunk.frames = []
  · rw [Process_pass s chunk (Or.inl h1)]
    simp [hpeaks, DspChunk.IsEmpty, h1]
  · rw [Process_taken s chunk h1 hfloat, taken_quiet s chunk hlimit h]
    have hm := ModifyFirstChunk_no_peaks { s with
      m_bufferFrameCount := s.m_bufferFrameCount + chunk.GetFrameCount
      m_buffer := s.m_buffer ++ [chunk] } hpeaks
    rw [hm]
    have hne : ((s.m_buffer ++ [chunk]).headD DspChunk.empty).frames ≠ [] := by
      cases hs : s.m_buffer with
      | nil => simpa using h1
      | cons x rest => simpa using hbuf x (by simp [hs])
    have hcons : (s.m_buffer ++ [chunk]).headD DspChunk.empty :: (s.m_buffer ++ [chunk]).tail =
        s.m_buffer ++ [chunk] := by
      cases hs : s.m_buffer <;> simp
    split
    · refine ⟨hpeaks, ?_⟩
      have e1 : (!((s.m_buffer ++ [chunk]).headD DspChunk.empty).frames.isEmpty) = true := by
        simpa using hne
      have e2 : (!chunk.frames.isEmpty) = true := by simpa using h1
      simp only [List.filter_cons, List.filter_nil, DspChunk.IsEmpty, e1, e2, if_true,
        List.singleton_append, hcons]
    · refine ⟨hpeaks, ?_⟩
      simp [DspChunk.IsEmpty, DspChunk.empty, h1]

theorem processAll_quiet (s : DspLimiter) (chunks : List DspChunk) (hpeaks : s.m_peaks = [])
    (hbuf : ∀ c ∈ s.m_buffer, c.frames ≠ []) (hlimit : 0 ≤ s.m_limit)
    (h : ∀ c ∈ chunks, c.format = DspFormat.Float ∧ c.within s.m_limit) :
    (processAll s chunks).1.m_peaks = [] ∧
      (processAll s chunks).2.filter (fun c => !c.IsEmpty) ++ (processAll s chunks).1.m_buffer =
        s.m_buffer ++ chunks.filter (fun c => !c.IsEmpty) := by
  induction chunks generalizing s with
  | nil => simp [processAll, hpeaks]
  | cons chunk rest ih =>
    obtain ⟨hf, hw⟩ := h chunk (List.mem_cons_self _ _)
    obtain ⟨p1, p2⟩ := Process_quiet s chunk hpeaks hbuf hlimit hf hw
    have hl := (Process_fields s chunk).1
    obtain ⟨i1, i2⟩ := ih (Process s chunk).1 p1 (Process_buffer_nonempty s chunk hbuf)
      (by rw [hl]; exact hlimit)
      (fun c hc => by rw [hl]; exact h c (List.mem_cons_of_mem _ hc))
    refine ⟨i1, ?_⟩
    simp only [processAll]
    have e : ∀ (x : DspChunk) (xs : List DspChunk),
        (x :: xs).filter (fun c => !c.IsEmpty) =
          [x].filter (fun c => !c.IsEmpty) ++ xs.filter (fun c => !c.IsEmpty) := by
      intro x xs
      rw [← List.filter_append]; rfl
    rw [e, e chunk, List.append_assoc, i2, ← List.append_assoc, p2, List.append_assoc]

theorem Initialize_limit_nonneg (rate : Nat) (exclusive : Bool) :
    0 ≤ (Initialize rate exclusive).m_limit := by
  cases exclusive <;> norm_num [Initialize]

/-- C2: audio below the ceiling passes untouched.  When every sample of every
chunk of a run of float chunks is at most `limit` in absolute value, the
anchor deque is empty after every call, and the non-empty chunks handed back,
in call order, followed by the chunks still buffered, are exactly the
non-empty chunks submitted, in the order of submission: what comes out is the
input, chunk for chunk and sample for sample. -/
theorem C2_below_ceiling (rate : Nat) (exclusive : Bool) (chunks : List DspChunk)
    (h : ∀ c ∈ chunks, c.format = DspFormat.Float ∧ c.within (Initialize rate exclusive).m_limit) :
    (∀ k, (run rate exclusive (chunks.take k)).1.m_peaks = []) ∧
      (run rate exclusive chunks).2.filter (fun c => !c.IsEmpty) ++
          (run rate exclusive chunks).1.m_buffer =
        chunks.filter (fun c => !c.IsEmpty) := by
  constructor
  · intro k
    exact (processAll_quiet (Initialize rate exclusive) (chunks.take k) rfl (by simp [Initialize])
      (Initialize_limit_nonneg rate exclusive)
      (fun c hc => h c (List.mem_of_mem_take hc))).1
  · simpa [Initialize] using (processAll_quiet (Initialize rate exclusive) chunks rfl
      (by simp [Initialize]) (Initialize_limit_nonneg rate exclusive) h).2

/-- C2 at six one-frame chunks of amplitude at most 1/2, rate 100, shared mode
(limit 49/50). -/
theorem C2_below_ceiling_witness :
    (run 100 false [mono [1/2], mono [-1/2], mono [1/4], mono [0], mono [-1/3], mono [1/2]]).2.filter
          (fun c => !c.IsEmpty) ++
        (run 100 false [mono [1/2], mono [-1/2], mono [1/4], mono [0], mono [-1/3], mono [1/2]]).1.m_buffer =
      [mono [1/2], mono [-1/2], mono [1/4], mono [0], mono [-1/3], mono [1/2]].filter
        (fun c => !c.IsEmpty) :=
  (C2_below_ceiling 100 false [mono [1/2], mono [-1/2], mono [1/4], mono [0], mono [-1/3], mono [1/2]]
    (by
      intro c hc
      simp only [List.mem_cons, List.mem_singleton, List.not_mem_nil, or_false] at hc
      rcases hc with rfl | rfl | rfl | rfl | rfl | rfl <;>
        refine ⟨rfl, ?_⟩ <;>
        simp [DspChunk.within, mono, Initialize] <;> norm_num [abs_le])).2

/-! ### A chunk of silence that makes the front chunk due -/

theorem ModifyFirstChunk_head (s : DspLimiter) (front : Nat × ℚ) (tl : List (Nat × ℚ))
    (chunk : DspChunk) (rest : List DspChunk) (hp : s.m_peaks = front :: tl)
    (hb : s.m_buffer = chunk :: rest) :
    (ModifyFirstChunk s).m_buffer.headD DspChunk.empty =
      ⟨chunk.format,
        chunk.frames.take
            (if s.m_bufferFirstFrame > front.1 then 0 else front.1 - s.m_bufferFirstFrame) ++
          (modifyFrames s.m_limit
            (chunk.frames.drop
              (if s.m_bufferFirstFrame > front.1 then 0 else front.1 - s.m_bufferFirstFrame))
            s.m_peaks
            (s.m_bufferFirstFrame +
              (if s.m_bufferFirstFrame > front.1 then 0
                else front.1 - s.m_bufferFirstFrame))).1⟩ := by
  unfold ModifyFirstChunk
  rw [hp, hb]
  rfl

/-- A chunk of frames at most `limit` that makes the front chunk due: the
front chunk comes out rescaled by the anchors as they stand. -/
theorem Process_quiet_due (s : DspLimiter) (chunk first : DspChunk) (rest : List DspChunk)
    (front : Nat × ℚ) (tl : List (Nat × ℚ))
    (h1 : chunk.frames ≠ []) (h2 : chunk.format = DspFormat.Float)
    (hq : ∀ frame ∈ chunk.frames, frameSample frame ≤ s.m_limit)
    (hb : s.m_buffer = first :: rest) (hp : s.m_peaks = front :: tl)
    (hdue : s.m_bufferFrameCount + chunk.GetFrameCount - first.GetFrameCount ≥
      s.m_windowFrames) :
    (Process s chunk).2 =
      ⟨first.format,
        first.frames.take
            (if s.m_bufferFirstFrame > front.1 then 0 else front.1 - s.m_bufferFirstFrame) ++
          (modifyFrames s.m_limit
            (first.frames.drop
              (if s.m_bufferFirstFrame > front.1 then 0 else front.1 - s.m_bufferFirstFrame))
            s.m_peaks
            (s.m_bufferFirstFrame +
              (if s.m_bufferFirstFrame > front.1 then 0
                else front.1 - s.m_bufferFirstFrame))).1⟩ := by
  have hd : due s chunk := by
    simp only [due, hb, List.cons_append, List.headD_cons]
    exact hdue
  rw [Process_taken s chunk h1 h2, if_pos hd, taken_eq,
    analyzeFrames_quiet _ _ _ (by exact hq)]
  exact ModifyFirstChunk_head _ front tl first (rest ++ [chunk]) hp (by simp [hb])

/-! ### The ceiling -/

theorem frameSample_zero : frameSample [0] = 0 := by
  norm_num [frameSample]

theorem frameSample_two : frameSample [2] = 2 := by
  norm_num [frameSample]

theorem replicate_zero_quiet (n : Nat) (limit : ℚ) (h : 0 ≤ limit) :
    ∀ frame ∈ List.replicate n ([0] : List ℚ), frameSample frame ≤ limit := by
  intro frame hframe
  rw [(List.mem_replicate.1 hframe).2, frameSample_zero]
  exact h

theorem early_peaks_48k (quiet : List (List ℚ)) (hlen : quiet.length = 961)
    (hq : ∀ frame ∈ quiet, frameSample frame ≤ 1) :
    (Process (run 48000 true [mono [0, 2, 2]]).1 ⟨DspFormat.Float, quiet⟩).2 =
      mono [0, 1, 960 / 959] := by
  have h0 : (run 48000 true [mono [0, 2, 2]]).1 =
      ⟨1, 480, 480, 961, [mono [0, 2, 2]], 3, 0,
        [(0, 1), (1, 2), (481, 1), (2, 2), (482, 1)]⟩ := by decide!
  rw [h0, Process_quiet_due _ ⟨DspFormat.Float, quiet⟩ (mono [0, 2, 2]) [] (0, 1)
    [(1, 2), (481, 1), (2, 2), (482, 1)] (by
      intro h
      have h' : quiet = [] := h
      rw [h'] at hlen
      cases hlen) rfl hq rfl rfl (by
      show 3 + quiet.length - (mono [0, 2, 2]).GetFrameCount ≥ 961
      rw [hlen]
      decide)]
  decide!

/-- C1 fails on the code.  At rate 200 in exclusive mode (`limit = 1`,
`attackFrames = releaseFrames = 2`, `windowFrames = 5`) the chunk `0, 2, 2`
followed by five frames of silence comes out as `0, 1, 4/3`.  The second peak,
at frame 2, pokes through the release ramp of the first; `peakFrame -
m_attackFrames - m_releaseFrames` wraps around, so the release anchor `(3, 1)`
is not dropped and the anchors are out of order; frame 2 is divided by `3/2`,
the value of the first release ramp, and `assert(fabs(sample) <= m_limit)`
fails.  At 48 kHz the same chunk followed by 961 frames of silence comes out
as `0, 1, 960/959`. -/
theorem C1_output_above_limit :
    (run 200 true [mono [0, 2, 2]]).1.m_peaks = [(0, 1), (1, 2), (3, 1), (2, 2), (4, 1)] ∧
      (run 200 true [mono [0, 2, 2], mono [0, 0, 0, 0, 0]]).1.m_limit = 1 ∧
      (run 200 true [mono [0, 2, 2], mono [0, 0, 0, 0, 0]]).2 =
        [DspChunk.empty, mono [0, 1, 4 / 3]] ∧
      ¬ (|(4 / 3 : ℚ)| ≤ 1) ∧
      (run 48000 true [mono [0, 2, 2]]).1.m_peaks =
        [(0, 1), (1, 2), (481, 1), (2, 2), (482, 1)] ∧
      (run 48000 true [mono [0, 2, 2], ⟨DspFormat.Float, List.replicate 961 [0]⟩]).2 =
        [DspChunk.empty, mono [0, 1, 960 / 959]] ∧
      ¬ (|(960 / 959 : ℚ)| ≤ 1) := by
  have h48 := early_peaks_48k (List.replicate 961 [0]) (List.length_replicate _ _)
    (replicate_zero_quiet _ _ (by norm_num))
  have hfirst : (Process (Initialize 48000 true) (mono [0, 2, 2])).2 = DspChunk.empty := by
    decide!
  refine ⟨by decide!, by decide!, by decide!, by norm_num [abs_le], by decide!, ?_,
    by norm_num [abs_le]⟩
  show [(Process (Initialize 48000 true) (mono [0, 2, 2])).2,
    (Process (run 48000 true [mono [0, 2, 2]]).1
      ⟨DspFormat.Float, List.replicate 961 [0]⟩).2] = _
  rw [h48, hfirst]


/-! ### The interpolant and the dominance loop -/

theorem sub64_of_le (a b : Nat) (h : b ≤ a) : sub64 a b = a - b := if_pos h

theorem f_eq (leftPos : Nat) (leftValue : ℚ) (rightPos : Nat) (rightValue : ℚ) (pos : Nat)
    (h : leftPos ≤ pos) :
    f leftPos leftValue rightPos rightValue pos =
      leftValue + ((pos : ℚ) - leftPos) / ((rightPos : ℚ) - leftPos) * (rightValue - leftValue) := by
  unfold f
  rw [sub64_of_le pos leftPos h, Nat.cast_sub h]
  push_cast
  rfl

theorem dropDominated_suffix (a r p : Nat) (sample : ℚ) (peaks : List (Nat × ℚ)) :
    dropDominated a r p sample peaks <:+ peaks := by
  induction peaks with
  | nil => exact List.suffix_refl _
  | cons back tl ih =>
    cases tl with
    | nil => exact List.suffix_refl _
    | cons nextToBack rest =>
      simp only [dropDominated]
      split
      · exact List.IsSuffix.trans ih (List.suffix_cons _ _)
      · exact List.suffix_refl _

theorem dropDominated_ne_nil (a r p : Nat) (sample : ℚ) (peaks : List (Nat × ℚ))
    (h : peaks ≠ []) : dropDominated a r p sample peaks ≠ [] := by
  induction peaks with
  | nil => exact absurd rfl h
  | cons back tl ih =>
    cases tl with
    | nil => simp [dropDominated]
    | cons nextToBack rest =>
      simp only [dropDominated]
      split
      · exact ih (by simp)
      · simp

/-- With `f` computed exactly, a peak that pokes through the release ramp of
the last peak dominates the end of that ramp, provided
`peakFrame - attackFrames - releaseFrames` does not wrap around.  The rounded
`f` of the code need not agree: the two comparisons are of different
expressions. -/
theorem ramp_end_dominated (q r pf a : Nat) (sq sample limit : ℚ) (hq : q < pf)
    (hpf : pf ≤ q + r) (hwrap : a + r ≤ pf) (hs : limit < sample)
    (hadm : fPair (q, sq) (q + r, limit) pf < sample) :
    sample ≥ limit ∧ q ≥ sub64 (sub64 pf a) r ∧ f q sq pf sample (q + r) ≥ limit := by
  refine ⟨le_of_lt hs, ?_, ?_⟩
  · rw [sub64_of_le pf a (by omega), sub64_of_le (pf - a) r (by omega)]
    show pf - a - r ≤ q
    omega
  · unfold fPair at hadm
    simp only at hadm
    rw [f_eq q sq (q + r) limit pf (le_of_lt hq)] at hadm
    rw [f_eq q sq pf sample (q + r) (by omega)]
    have hd : (0 : ℚ) < (pf : ℚ) - q := by
      have : (q : ℚ) < pf := by exact_mod_cast hq
      linarith
    have hr : (0 : ℚ) < (r : ℚ) := by
      have : 0 < r := by omega
      exact_mod_cast this
    have e1 : ((q + r : ℕ) : ℚ) - q = r := by push_cast; ring
    rw [e1] at hadm ⊢
    have h1 : ((pf : ℚ) - q) * (limit - sq) < (sample - sq) * r := by
      have := mul_lt_mul_of_pos_right hadm hr
      have e2 : (sq + ((pf : ℚ) - q) / r * (limit - sq)) * r =
          sq * r + ((pf : ℚ) - q) * (limit - sq) := by
        field_simp
      rw [e2] at this
      linarith
    have e3 : sq + (r : ℚ) / ((pf : ℚ) - q) * (sample - sq) - limit =
        ((sample - sq) * r - ((pf : ℚ) - q) * (limit - sq)) / ((pf : ℚ) - q) := by
      field_simp
      ring
    have h2 : 0 < sq + (r : ℚ) / ((pf : ℚ) - q) * (sample - sq) - limit := by
      rw [e3]
      exact div_pos (by linarith) hd
    linarith

/-! ### The anchors after one frame -/

/-- What the analysis of one frame does to the anchors of a well-shaped deque:
nothing, or it seeds an empty deque, or it admits the peak after the dominance
loop. -/
theorem analyzeFrame_cases (s : DspLimiter) (pf : Nat) (frame : List ℚ)
    (h : anchoredAt s pf) :
    (analyzeFrame s pf frame).m_peaks = s.m_peaks ∨
    (s.m_limit < frameSample frame ∧ s.m_peaks = [] ∧
      (analyzeFrame s pf frame).m_peaks =
        [(if pf > s.m_attackFrames then pf - s.m_attackFrames else 0, s.m_limit),
         (pf, frameSample frame), (pf + s.m_releaseFrames, s.m_limit)]) ∨
    (s.m_limit < frameSample frame ∧
      ∃ pre q sq, s.m_peaks = pre ++ [(q, sq), (q + s.m_releaseFrames, s.m_limit)] ∧
        s.m_limit < sq ∧ q < pf ∧
        (pf > q + s.m_releaseFrames ∨
          fPair (q, sq) (q + s.m_releaseFrames, s.m_limit) pf < frameSample frame) ∧
        (analyzeFrame s pf frame).m_peaks =
          (dropDominated s.m_attackFrames s.m_releaseFrames pf (frameSample frame)
            ((q + s.m_releaseFrames, s.m_limit) :: (q, sq) :: pre.reverse)).reverse ++
          [(pf, frameSample frame), (pf + s.m_releaseFrames, s.m_limit)]) := by
  by_cases hs : s.m_limit < frameSample frame
  · rcases h with h | ⟨pre, q, sq, hp, hsq, hq⟩
    · right; left
      refine ⟨hs, h, ?_⟩
      unfold analyzeFrame
      simp only [gt_iff_lt, hs, if_true, h, List.reverse_nil]
    · have hrev : s.m_peaks.reverse =
          (q + s.m_releaseFrames, s.m_limit) :: (q, sq) :: pre.reverse := by
        rw [hp]; simp
      by_cases hadm : pf > q + s.m_releaseFrames ∨
          fPair (q, sq) (q + s.m_releaseFrames, s.m_limit) pf < frameSample frame
      · right; right
        refine ⟨hs, pre, q, sq, hp, hsq, hq, hadm, ?_⟩
        unfold analyzeFrame
        simp only [gt_iff_lt, hs, if_true, hrev]
        rw [if_pos hadm]
      · left
        unfold analyzeFrame
        simp only [gt_iff_lt, hs, if_true, hrev]
        rw [if_neg hadm]
  · left
    rw [analyzeFrame_quiet s pf frame (not_lt.1 hs)]

theorem analyzeFrame_fields (s : DspLimiter) (pf : Nat) (frame : List ℚ) :
    (analyzeFrame s pf frame).m_limit = s.m_limit ∧
    (analyzeFrame s pf frame).m_attackFrames = s.m_attackFrames ∧
    (analyzeFrame s pf frame).m_releaseFrames = s.m_releaseFrames := by
  have h := analyzeFrame_eq s pf frame
  generalize analyzeFrame s pf frame = t at h
  refine ⟨?_, ?_, ?_⟩ <;> rw [h]

theorem analyzeFrame_anchored (s : DspLimiter) (pf : Nat) (frame : List ℚ)
    (h : anchoredAt s pf) : anchoredAt (analyzeFrame s pf frame) (pf + 1) := by
  obtain ⟨hl, _, hr⟩ := analyzeFrame_fields s pf frame
  unfold anchoredAt
  rw [hl, hr]
  rcases analyzeFrame_cases s pf frame h with hc | ⟨hs, _, hc⟩ | ⟨hs, _, _, _, _, _, _, _, hc⟩
  · rw [hc]
    rcases h with h | ⟨pre, q, sq, hp, hsq, hq⟩
    · exact Or.inl h
    · exact Or.inr ⟨pre, q, sq, hp, hsq, Nat.lt_succ_of_lt hq⟩
  · rw [hc]
    exact Or.inr ⟨[_], pf, frameSample frame, rfl, hs, Nat.lt_succ_self _⟩
  · rw [hc]
    exact Or.inr ⟨_, pf, frameSample frame, rfl, hs, Nat.lt_succ_self _⟩

theorem analyzeFrame_above (s : DspLimiter) (pf : Nat) (frame : List ℚ)
    (h : anchoredAt s pf) (habove : ∀ x ∈ s.m_peaks, s.m_limit ≤ x.2) :
    ∀ x ∈ (analyzeFrame s pf frame).m_peaks, s.m_limit ≤ x.2 := by
  rcases analyzeFrame_cases s pf frame h with hc | ⟨hs, _, hc⟩ | ⟨hs, pre, q, sq, hp, _, _, _, hc⟩
  · rw [hc]; exact habove
  · rw [hc]
    intro x hx
    simp only [List.mem_cons, List.mem_singleton, List.not_mem_nil, or_false] at hx
    rcases hx with rfl | rfl | rfl
    · exact le_refl _
    · exact le_of_lt hs
    · exact le_refl _
  · rw [hc]
    intro x hx
    rcases List.mem_append.1 hx with hx | hx
    · apply habove
      have := (dropDominated_suffix s.m_attackFrames s.m_releaseFrames pf (frameSample frame)
        ((q + s.m_releaseFrames, s.m_limit) :: (q, sq) :: pre.reverse)).subset
          (List.mem_reverse.1 hx)
      rw [hp]
      simpa [or_comm, or_assoc, or_left_comm] using this
    · simp only [List.mem_cons, List.mem_singleton, List.not_mem_nil, or_false] at hx
      rcases hx with rfl | rfl
      · exact le_of_lt hs
      · exact le_refl _

theorem analyzeFrame_increasing (s : DspLimiter) (pf : Nat) (frame : List ℚ)
    (h : anchoredAt s pf) (hinc : increasing s.m_peaks)
    (ha : 1 ≤ s.m_attackFrames) (hr : 1 ≤ s.m_releaseFrames)
    (hloud : s.m_limit < frameSample frame → s.m_attackFrames + s.m_releaseFrames ≤ pf) :
    increasing (analyzeFrame s pf frame).m_peaks := by
  rcases analyzeFrame_cases s pf frame h with hc | ⟨hs, _, hc⟩ |
    ⟨hs, pre, q, sq, hp, hsq, hq, hadm, hc⟩
  · rw [hc]; exact hinc
  · rw [hc]
    have hpf := hloud hs
    rw [if_pos (by omega)]
    simp only [increasing, List.pairwise_cons, List.mem_cons, List.mem_singleton,
      List.not_mem_nil, or_false, forall_eq_or_imp, forall_eq, IsEmpty.forall_iff, implies_true,
      List.Pairwise.nil, and_true]
    omega
  · rw [hc]
    have hpf := hloud hs
    unfold increasing at hinc ⊢
    rw [hp, List.pairwise_append] at hinc
    obtain ⟨hpre, _, hcross⟩ := hinc
    -- every anchor lies at or before the end of the last release ramp
    have hall : ∀ x ∈ (q + s.m_releaseFrames, s.m_limit) :: (q, sq) :: pre.reverse,
        x.1 ≤ q + s.m_releaseFrames := by
      intro x hx
      simp only [List.mem_cons, List.mem_reverse] at hx
      rcases hx with rfl | rfl | hx
      · exact le_refl _
      · exact Nat.le_add_right _ _
      · exact le_of_lt (hcross x hx (q + s.m_releaseFrames, s.m_limit) (by simp))
    have hmost : ∀ x ∈ (q, sq) :: pre.reverse, x.1 ≤ q := by
      intro x hx
      simp only [List.mem_cons, List.mem_reverse] at hx
      rcases hx with rfl | hx
      · exact le_refl _
      · exact le_of_lt (hcross x hx (q, sq) (by simp))
    have hsorted : List.Pairwise (fun left right : Nat × ℚ => left.1 < right.1)
        (pre ++ [(q, sq), (q + s.m_releaseFrames, s.m_limit)]) := by
      rw [List.pairwise_append]
      refine ⟨hpre, ?_, hcross⟩
      simp only [List.pairwise_cons, List.mem_singleton, forall_eq, List.not_mem_nil,
        IsEmpty.forall_iff, implies_true, List.Pairwise.nil, and_true]
      omega
    have hsuf := dropDominated_suffix s.m_attackFrames s.m_releaseFrames pf (frameSample frame)
      ((q + s.m_releaseFrames, s.m_limit) :: (q, sq) :: pre.reverse)
    have hprefix : (dropDominated s.m_attackFrames s.m_releaseFrames pf (frameSample frame)
        ((q + s.m_releaseFrames, s.m_limit) :: (q, sq) :: pre.reverse)).reverse <+:
        pre ++ [(q, sq), (q + s.m_releaseFrames, s.m_limit)] := by
      have := List.reverse_prefix.2 hsuf
      simpa using this
    rw [List.pairwise_append]
    refine ⟨hsorted.sublist hprefix.sublist, ?_, ?_⟩
    · simp only [List.pairwise_cons, List.mem_singleton, forall_eq, List.not_mem_nil,
        IsEmpty.forall_iff, implies_true, List.Pairwise.nil, and_true]
      omega
    · intro x hx y hy
      have hx' := List.mem_reverse.1 hx
      have hxpf : x.1 < pf := by
        by_cases hfar : pf > q + s.m_releaseFrames
        · exact lt_of_le_of_lt (hall x (hsuf.subset hx')) hfar
        · have hramp : fPair (q, sq) (q + s.m_releaseFrames, s.m_limit) pf < frameSample frame := by
            rcases hadm with h1 | h1
            · exact absurd h1 hfar
            · exact h1
          have hdom := ramp_end_dominated q s.m_releaseFrames pf s.m_attackFrames sq
            (frameSample frame) s.m_limit hq (by omega) hpf hs hramp
          have hstep : dropDominated s.m_attackFrames s.m_releaseFrames pf (frameSample frame)
              ((q + s.m_releaseFrames, s.m_limit) :: (q, sq) :: pre.reverse) =
              dropDominated s.m_attackFrames s.m_releaseFrames pf (frameSample frame)
                ((q, sq) :: pre.reverse) := by
            rw [dropDominated, if_pos hdom]
          rw [hstep] at hx'
          exact lt_of_le_of_lt
            (hmost x ((dropDominated_suffix _ _ _ _ _).subset hx')) hq
      simp only [List.mem_cons, List.mem_singleton, List.not_mem_nil, or_false] at hy
      rcases hy with rfl | rfl
      · exact hxpf
      · exact lt_of_lt_of_le hxpf (Nat.le_add_right _ _)

/-! ### The anchors after a chunk -/

theorem analyzeFrames_fields (s : DspLimiter) (n : Nat) (frames : List (List ℚ)) :
    (analyzeFrames s n frames).m_limit = s.m_limit ∧
    (analyzeFrames s n frames).m_attackFrames = s.m_attackFrames ∧
    (analyzeFrames s n frames).m_releaseFrames = s.m_releaseFrames := by
  have h := analyzeFrames_eq s n frames
  generalize analyzeFrames s n frames = t at h
  refine ⟨?_, ?_, ?_⟩ <;> rw [h]

theorem analyzeFrames_anchored (s : DspLimiter) (n : Nat) (frames : List (List ℚ))
    (h : anchoredAt s n) (habove : ∀ x ∈ s.m_peaks, s.m_limit ≤ x.2) :
    anchoredAt (analyzeFrames s n frames) (n + frames.length) ∧
      ∀ x ∈ (analyzeFrames s n frames).m_peaks, s.m_limit ≤ x.2 := by
  induction frames generalizing s n with
  | nil => exact ⟨h, habove⟩
  | cons frame rest ih =>
    simp only [analyzeFrames, List.length_cons]
    have hl := (analyzeFrame_fields s n frame).1
    have := ih (analyzeFrame s n frame) (n + 1) (analyzeFrame_anchored s n frame h)
      (by rw [hl]; exact analyzeFrame_above s n frame h habove)
    rw [hl] at this
    rw [show n + (rest.length + 1) = n + 1 + rest.length by omega]
    exact this

theorem analyzeFrames_increasing (s : DspLimiter) (n k : Nat) (frames : List (List ℚ))
    (h : anchoredAt s n) (hinc : increasing s.m_peaks)
    (ha : 1 ≤ s.m_attackFrames) (hr : 1 ≤ s.m_releaseFrames)
    (hquiet : quietFor s.m_limit k frames)
    (hk : s.m_attackFrames + s.m_releaseFrames ≤ n + k) :
    increasing (analyzeFrames s n frames).m_peaks := by
  induction frames generalizing s n k with
  | nil => exact hinc
  | cons frame rest ih =>
    simp only [analyzeFrames]
    obtain ⟨hl, hat, hrel⟩ := analyzeFrame_fields s n frame
    have hloud : s.m_limit < frameSample frame → s.m_attackFrames + s.m_releaseFrames ≤ n := by
      intro hs
      cases k with
      | zero => simpa using hk
      | succ k' =>
        exfalso
        have := hquiet frame (by simp)
        exact absurd hs (not_lt.2 this)
    apply ih (analyzeFrame s n frame) (n + 1) (k - 1) (analyzeFrame_anchored s n frame h)
      (analyzeFrame_increasing s n frame h hinc ha hr hloud) (by rw [hat]; exact ha)
      (by rw [hrel]; exact hr)
    · rw [hl]
      intro fr hfr
      cases k with
      | zero => simp at hfr
      | succ k' =>
        apply hquiet fr
        simp only [Nat.add_sub_cancel] at hfr
        simp [hfr]
    · rw [hat, hrel]; omega

/-- The anchors `ModifyFirstChunk` leaves: none, or the deque without some of
its front anchors, at least two staying. -/
theorem modifyFrames_peaks (limit : ℚ) (frames : List (List ℚ)) (peaks : List (Nat × ℚ))
    (a : Nat) (h : 2 ≤ peaks.length) :
    (modifyFrames limit frames peaks a).2 = [] ∨
      ∃ k, k + 2 ≤ peaks.length ∧ (modifyFrames limit frames peaks a).2 = peaks.drop k := by
  induction frames generalizing peaks a with
  | nil => exact Or.inr ⟨0, by simpa using h, rfl⟩
  | cons frame rest ih =>
    match peaks, h with
    | left :: right :: tail, _ =>
      simp only [modifyFrames]
      split
      · split
        · exact Or.inl rfl
        · rename_i hlen
          have h2 : 2 ≤ (right :: tail).length := by
            simp only [List.length_cons] at hlen ⊢
            omega
          rcases ih (right :: tail) (a + 1) h2 with h0 | ⟨k, hk, hd⟩
          · exact Or.inl h0
          · refine Or.inr ⟨k + 1, ?_, ?_⟩
            · simp only [List.length_cons] at hk ⊢
              omega
            · simpa using hd
      · exact ih (left :: right :: tail) (a + 1) (by simp)

theorem ModifyFirstChunk_peaks (s : DspLimiter) (h : s.m_peaks = [] ∨ 2 ≤ s.m_peaks.length) :
    (ModifyFirstChunk s).m_peaks = [] ∨
      ∃ k, k + 2 ≤ s.m_peaks.length ∧ (ModifyFirstChunk s).m_peaks = s.m_peaks.drop k := by
  rcases h with h | h
  · rw [ModifyFirstChunk_no_peaks s h]; exact Or.inl h
  · unfold ModifyFirstChunk
    split
    · exact modifyFrames_peaks _ _ _ _ h
    · exact Or.inr ⟨0, by simpa using h, rfl⟩

/-! ### The anchors after a call -/

theorem anchoredAt_length (s : DspLimiter) (n : Nat) (h : anchoredAt s n) :
    s.m_peaks = [] ∨ 2 ≤ s.m_peaks.length := by
  rcases h with h | ⟨pre, q, sq, hp, _, _⟩
  · exact Or.inl h
  · right; rw [hp]; simp

theorem anchoredAt_drop (s t : DspLimiter) (n : Nat) (h : anchoredAt s n)
    (hl : t.m_limit = s.m_limit) (hr : t.m_releaseFrames = s.m_releaseFrames)
    (hp : t.m_peaks = [] ∨ ∃ k, k + 2 ≤ s.m_peaks.length ∧ t.m_peaks = s.m_peaks.drop k) :
    anchoredAt t n := by
  rcases hp with hp | ⟨k, hk, hp⟩
  · exact Or.inl hp
  · rcases h with h | ⟨pre, q, sq, hs, hsq, hq⟩
    · rw [h] at hk; simp at hk
    · right
      refine ⟨pre.drop k, q, sq, ?_, by rw [hl]; exact hsq, hq⟩
      rw [hp, hs, hl, hr]
      rw [hs] at hk
      simp only [List.length_append, List.length_cons, List.length_nil] at hk
      exact List.drop_append_of_le_length (by omega)

theorem front_le_total (s : DspLimiter) (chunk : DspChunk)
    (hinv : s.m_bufferFrameCount = frameTotal s.m_buffer) :
    ((s.m_buffer ++ [chunk]).headD DspChunk.empty).GetFrameCount ≤
      s.m_bufferFrameCount + chunk.GetFrameCount := by
  have hsum := frameTotal_head_tail (s.m_buffer ++ [chunk])
  rw [frameTotal_append] at hsum
  have hone : frameTotal [chunk] = chunk.GetFrameCount := by simp [frameTotal]
  omega

theorem taken_anchored (s : DspLimiter) (chunk : DspChunk)
    (h : anchoredAt s (s.m_bufferFirstFrame + s.m_bufferFrameCount))
    (habove : ∀ x ∈ s.m_peaks, s.m_limit ≤ x.2) :
    anchoredAt (taken s chunk)
        (s.m_bufferFirstFrame + s.m_bufferFrameCount + chunk.GetFrameCount) ∧
      ∀ x ∈ (taken s chunk).m_peaks, s.m_limit ≤ x.2 := by
  rw [taken_eq]
  exact analyzeFrames_anchored { s with
      m_bufferFrameCount := s.m_bufferFrameCount + chunk.GetFrameCount
      m_buffer := s.m_buffer ++ [chunk] }
    (s.m_bufferFirstFrame + s.m_bufferFrameCount) chunk.frames h habove

/-- The shape of the anchor deque is kept by every `Process` call. -/
theorem Process_anchored (s : DspLimiter) (chunk : DspChunk)
    (hinv : s.m_bufferFrameCount = frameTotal s.m_buffer)
    (h : anchoredAt s (s.m_bufferFirstFrame + s.m_bufferFrameCount))
    (habove : ∀ x ∈ s.m_peaks, s.m_limit ≤ x.2) :
    anchoredAt (Process s chunk).1
        ((Process s chunk).1.m_bufferFirstFrame + (Process s chunk).1.m_bufferFrameCount) ∧
      ∀ x ∈ (Process s chunk).1.m_peaks, s.m_limit ≤ x.2 := by
  by_cases hacc : chunk.frames ≠ [] ∧ chunk.format = DspFormat.Float
  · obtain ⟨hT, hTa⟩ := taken_anchored s chunk h habove
    obtain ⟨tl, _, tr, _, tc, tf, _⟩ := taken_fields s chunk
    obtain ⟨ml, _, mr, _, _⟩ := ModifyFirstChunk_fields (taken s chunk)
    have hfront := front_le_total s chunk hinv
    rw [Process_taken s chunk hacc.1 hacc.2]
    split
    · have hM := ModifyFirstChunk_peaks (taken s chunk) (anchoredAt_length _ _ hT)
      have hMa : anchoredAt (ModifyFirstChunk (taken s chunk))
          (s.m_bufferFirstFrame + s.m_bufferFrameCount + chunk.GetFrameCount) :=
        anchoredAt_drop _ _ _ hT ml mr hM
      constructor
      · have e : s.m_bufferFirstFrame +
            ((s.m_buffer ++ [chunk]).headD DspChunk.empty).GetFrameCount +
            (s.m_bufferFrameCount + chunk.GetFrameCount -
              ((s.m_buffer ++ [chunk]).headD DspChunk.empty).GetFrameCount) =
            s.m_bufferFirstFrame + s.m_bufferFrameCount + chunk.GetFrameCount := by omega
        show anchoredAt _ (s.m_bufferFirstFrame +
            ((s.m_buffer ++ [chunk]).headD DspChunk.empty).GetFrameCount +
            (s.m_bufferFrameCount + chunk.GetFrameCount -
              ((s.m_buffer ++ [chunk]).headD DspChunk.empty).GetFrameCount))
        rw [e]
        exact hMa
      · intro x hx
        have hx' : x ∈ (ModifyFirstChunk (taken s chunk)).m_peaks := hx
        rcases hM with hM | ⟨k, _, hM⟩
        · rw [hM] at hx'; cases hx'
        · rw [hM] at hx'
          exact hTa x (List.mem_of_mem_drop hx')
    · refine ⟨?_, hTa⟩
      show anchoredAt (taken s chunk)
        ((taken s chunk).m_bufferFirstFrame + (taken s chunk).m_bufferFrameCount)
      rw [tf, tc, ← Nat.add_assoc]
      exact hT
  · rw [Process_pass s chunk (by tauto)]
    exact ⟨h, habove⟩

theorem processAll_anchored (s : DspLimiter) (chunks : List DspChunk)
    (hinv : s.m_bufferFrameCount = frameTotal s.m_buffer)
    (h : anchoredAt s (s.m_bufferFirstFrame + s.m_bufferFrameCount))
    (habove : ∀ x ∈ s.m_peaks, s.m_limit ≤ x.2) :
    anchoredAt (processAll s chunks).1
        ((processAll s chunks).1.m_bufferFirstFrame + (processAll s chunks).1.m_bufferFrameCount) ∧
      ∀ x ∈ (processAll s chunks).1.m_peaks, s.m_limit ≤ x.2 := by
  induction chunks generalizing s with
  | nil => exact ⟨h, habove⟩
  | cons chunk rest ih =>
    obtain ⟨p1, p2⟩ := Process_anchored s chunk hinv h habove
    have hl := (Process_fields s chunk).1
    have := ih (Process s chunk).1 (Process_frames s chunk hinv).2.1 p1 (by rw [hl]; exact p2)
    rw [hl] at this
    exact this

theorem Process_increasing (s : DspLimiter) (chunk : DspChunk) (k : Nat)
    (h : anchoredAt s (s.m_bufferFirstFrame + s.m_bufferFrameCount))
    (habove : ∀ x ∈ s.m_peaks, s.m_limit ≤ x.2)
    (hinc : increasing s.m_peaks)
    (ha : 1 ≤ s.m_attackFrames) (hr : 1 ≤ s.m_releaseFrames)
    (hquiet : quietFor s.m_limit k chunk.frames)
    (hk : s.m_attackFrames + s.m_releaseFrames ≤ s.m_bufferFirstFrame + s.m_bufferFrameCount + k) :
    increasing (Process s chunk).1.m_peaks := by
  by_cases hacc : chunk.frames ≠ [] ∧ chunk.format = DspFormat.Float
  · have hT : increasing (taken s chunk).m_peaks := by
      rw [taken_eq]
      exact analyzeFrames_increasing { s with
          m_bufferFrameCount := s.m_bufferFrameCount + chunk.GetFrameCount
          m_buffer := s.m_buffer ++ [chunk] }
        (s.m_bufferFirstFrame + s.m_bufferFrameCount) k chunk.frames h hinc ha hr hquiet hk
    rw [Process_taken s chunk hacc.1 hacc.2]
    split
    · have hM := ModifyFirstChunk_peaks (taken s chunk)
        (anchoredAt_length _ _ (taken_anchored s chunk h habove).1)
      show increasing (ModifyFirstChunk (taken s chunk)).m_peaks
      rcases hM with hM | ⟨j, _, hM⟩
      · rw [hM]; exact List.Pairwise.nil
      · rw [hM]; exact List.Pairwise.sublist (List.drop_sublist _ _) hT
    · exact hT
  · rw [Process_pass s chunk (by tauto)]
    exact hinc

theorem Process_next (s : DspLimiter) (chunk : DspChunk)
    (hinv : s.m_bufferFrameCount = frameTotal s.m_buffer)
    (hfloat : chunk.format = DspFormat.Float) :
    (Process s chunk).1.m_bufferFirstFrame + (Process s chunk).1.m_bufferFrameCount =
      s.m_bufferFirstFrame + s.m_bufferFrameCount + chunk.GetFrameCount := by
  obtain ⟨h1, _, h3⟩ := Process_frames s chunk hinv
  rw [h3 hfloat]
  omega

theorem quietFor_append (limit : ℚ) (k : Nat) (xs ys : List (List ℚ))
    (h : quietFor limit k (xs ++ ys)) :
    quietFor limit k xs ∧ quietFor limit (k - xs.length) ys := by
  unfold quietFor at h ⊢
  rw [List.take_append_eq_append_take] at h
  exact ⟨fun fr hfr => h fr (List.mem_append_left _ hfr),
    fun fr hfr => h fr (List.mem_append_right _ hfr)⟩

theorem processAll_increasing (s : DspLimiter) (chunks : List DspChunk) (k : Nat)
    (hinv : s.m_bufferFrameCount = frameTotal s.m_buffer)
    (h : anchoredAt s (s.m_bufferFirstFrame + s.m_bufferFrameCount))
    (habove : ∀ x ∈ s.m_peaks, s.m_limit ≤ x.2)
    (hinc : increasing s.m_peaks)
    (ha : 1 ≤ s.m_attackFrames) (hr : 1 ≤ s.m_releaseFrames)
    (hquiet : quietFor s.m_limit k (floatFrames chunks))
    (hk : s.m_attackFrames + s.m_releaseFrames ≤ s.m_bufferFirstFrame + s.m_bufferFrameCount + k) :
    increasing (processAll s chunks).1.m_peaks := by
  induction chunks generalizing s k with
  | nil => exact hinc
  | cons chunk rest ih =>
    obtain ⟨hl, hat, hrel, _⟩ := Process_fields s chunk
    obtain ⟨p1, p2⟩ := Process_anchored s chunk hinv h habove
    have hinv' := (Process_frames s chunk hinv).2.1
    by_cases hfloat : chunk.format = DspFormat.Float
    · have hq : quietFor s.m_limit k (chunk.frames ++ floatFrames rest) := by
        simpa [floatFrames, hfloat] using hquiet
      obtain ⟨q1, q2⟩ := quietFor_append _ _ _ _ hq
      have hnext := Process_next s chunk hinv hfloat
      exact ih (Process s chunk).1 (k - chunk.frames.length) hinv' p1 (by rw [hl]; exact p2)
        (Process_increasing s chunk k h habove hinc ha hr q1 hk)
        (by rw [hat]; exact ha) (by rw [hrel]; exact hr) (by rw [hl]; exact q2)
        (by rw [hat, hrel, hnext]; simp only [DspChunk.GetFrameCount]; omega)
    · have hq : quietFor s.m_limit k (floatFrames rest) := by
        simpa [floatFrames, hfloat] using hquiet
      have hpass := Process_pass s chunk (Or.inr hfloat)
      simp only [processAll]
      rw [hpass]
      exact ih s k hinv h habove hinc ha hr hq hk

/-! ### The limiter whatever the rounding: what each step leaves alone -/

theorem analyzeFrameWith_eq (t : Arithmetic) (s : DspLimiter) (p : Nat) (fr : List ℚ) :
    analyzeFrameWith t s p fr = { s with m_peaks := (analyzeFrameWith t s p fr).m_peaks } := by
  unfold analyzeFrameWith
  dsimp only
  split
  · split
    · rfl
    · rfl
    · split <;> rfl
  · rfl

theorem analyzeFramesWith_eq (t : Arithmetic) (s : DspLimiter) (p : Nat) (frs : List (List ℚ)) :
    analyzeFramesWith t s p frs = { s with m_peaks := (analyzeFramesWith t s p frs).m_peaks } := by
  induction frs generalizing s p with
  | nil => rfl
  | cons fr rest ih =>
    simp only [analyzeFramesWith]
    rw [ih, analyzeFrameWith_eq t s p fr]

theorem AnalyzeLastChunkWith_eq (t : Arithmetic) (s : DspLimiter) :
    AnalyzeLastChunkWith t s = { s with m_peaks := (AnalyzeLastChunkWith t s).m_peaks } := by
  unfold AnalyzeLastChunkWith
  split
  · rfl
  · exact analyzeFramesWith_eq _ _ _ _

theorem analyzeFrameWith_fields (t : Arithmetic) (s : DspLimiter) (pf : Nat) (frame : List ℚ) :
    (analyzeFrameWith t s pf frame).m_limit = s.m_limit ∧
    (analyzeFrameWith t s pf frame).m_attackFrames = s.m_attackFrames ∧
    (analyzeFrameWith t s pf frame).m_releaseFrames = s.m_releaseFrames := by
  have h := analyzeFrameWith_eq t s pf frame
  generalize analyzeFrameWith t s pf frame = u at h
  refine ⟨?_, ?_, ?_⟩ <;> rw [h]

theorem AnalyzeLastChunkWith_fields (t : Arithmetic) (s : DspLimiter) :
    (AnalyzeLastChunkWith t s).m_limit = s.m_limit ∧
    (AnalyzeLastChunkWith t s).m_attackFrames = s.m_attackFrames ∧
    (AnalyzeLastChunkWith t s).m_releaseFrames = s.m_releaseFrames ∧
    (AnalyzeLastChunkWith t s).m_windowFrames = s.m_windowFrames ∧
    (AnalyzeLastChunkWith t s).m_bufferFrameCount = s.m_bufferFrameCount ∧
    (AnalyzeLastChunkWith t s).m_bufferFirstFrame = s.m_bufferFirstFrame ∧
    (AnalyzeLastChunkWith t s).m_buffer = s.m_buffer := by
  have h := AnalyzeLastChunkWith_eq t s
  generalize AnalyzeLastChunkWith t s = u at h
  refine ⟨?_, ?_, ?_, ?_, ?_, ?_, ?_⟩ <;> rw [h]

theorem modifyFramesWith_length (t : Arithmetic) (limit : ℚ) (frs : List (List ℚ))
    (peaks : List (Nat × ℚ)) (a : Nat) :
    (modifyFramesWith t limit frs peaks a).1.length = frs.length := by
  induction frs generalizing peaks a with
  | nil => rfl
  | cons fr rest ih =>
    simp only [modifyFramesWith]
    split
    · split
      · split
        · simp
        · simp [ih]
      · simp [ih]
    · rfl

/-- The anchors the frame loop of `ModifyFirstChunk` leaves do not depend on
the arithmetic: the loop pops anchors by their frames alone. -/
theorem modifyFramesWith_peaks (t : Arithmetic) (limit : ℚ) (frs : List (List ℚ))
    (peaks : List (Nat × ℚ)) (a : Nat) :
    (modifyFramesWith t limit frs peaks a).2 = (modifyFrames limit frs peaks a).2 := by
  induction frs generalizing peaks a with
  | nil => rfl
  | cons fr rest ih =>
    simp only [modifyFramesWith, modifyFrames]
    split
    · split
      · split
        · rfl
        · exact ih _ _
      · exact ih _ _
    · rfl

theorem ModifyFirstChunkWith_fields (t : Arithmetic) (s : DspLimiter) :
    (ModifyFirstChunkWith t s).m_limit = s.m_limit ∧
    (ModifyFirstChunkWith t s).m_attackFrames = s.m_attackFrames ∧
    (ModifyFirstChunkWith t s).m_releaseFrames = s.m_releaseFrames ∧
    (ModifyFirstChunkWith t s).m_windowFrames = s.m_windowFrames ∧
    (ModifyFirstChunkWith t s).m_bufferFrameCount = s.m_bufferFrameCount ∧
    (ModifyFirstChunkWith t s).m_bufferFirstFrame = s.m_bufferFirstFrame ∧
    (ModifyFirstChunkWith t s).m_buffer.tail = s.m_buffer.tail ∧
    (ModifyFirstChunkWith t s).m_buffer.map DspChunk.GetFrameCount =
      s.m_buffer.map DspChunk.GetFrameCount := by
  unfold ModifyFirstChunkWith
  split
  · rename_i front tl chunk rest hp hb
    simp only [hb, DspChunk.GetFrameCount, modifyFramesWith_length, List.tail_cons, List.map_cons,
      List.length_append, List.length_take, List.length_drop, true_and, List.cons.injEq, and_true]
    omega
  · simp

theorem ModifyFirstChunkWith_peaks (t : Arithmetic) (s : DspLimiter) :
    (ModifyFirstChunkWith t s).m_peaks = (ModifyFirstChunk s).m_peaks := by
  unfold ModifyFirstChunkWith ModifyFirstChunk
  split
  · exact modifyFramesWith_peaks _ _ _ _ _
  · rfl

theorem ProcessWith_pass (t : Arithmetic) (s : DspLimiter) (chunk : DspChunk)
    (h : chunk.frames = [] ∨ chunk.format ≠ DspFormat.Float) :
    ProcessWith t s chunk = (s, chunk) := by
  unfold ProcessWith
  rw [if_neg]
  rcases h with h | h
  · simp [DspChunk.IsEmpty, h]
  · simp [DspChunk.GetFormat, h]

theorem takenWith_eq (t : Arithmetic) (s : DspLimiter) (chunk : DspChunk) :
    takenWith t s chunk =
      analyzeFramesWith t { s with
          m_bufferFrameCount := s.m_bufferFrameCount + chunk.GetFrameCount
          m_buffer := s.m_buffer ++ [chunk] }
        (s.m_bufferFirstFrame + s.m_bufferFrameCount) chunk.frames := by
  unfold takenWith AnalyzeLastChunkWith
  simp only [List.getLast?_concat]
  congr 1
  omega

theorem takenWith_fields (t : Arithmetic) (s : DspLimiter) (chunk : DspChunk) :
    (takenWith t s chunk).m_limit = s.m_limit ∧
    (takenWith t s chunk).m_attackFrames = s.m_attackFrames ∧
    (takenWith t s chunk).m_releaseFrames = s.m_releaseFrames ∧
    (takenWith t s chunk).m_windowFrames = s.m_windowFrames ∧
    (takenWith t s chunk).m_bufferFrameCount = s.m_bufferFrameCount + chunk.GetFrameCount ∧
    (takenWith t s chunk).m_bufferFirstFrame = s.m_bufferFirstFrame ∧
    (takenWith t s chunk).m_buffer = s.m_buffer ++ [chunk] :=
  AnalyzeLastChunkWith_fields t _

theorem ProcessWith_taken (t : Arithmetic) (s : DspLimiter) (chunk : DspChunk)
    (h1 : chunk.frames ≠ []) (h2 : chunk.format = DspFormat.Float) :
    ProcessWith t s chunk =
      if due s chunk then
        ({ ModifyFirstChunkWith t (takenWith t s chunk) with
          m_bufferFrameCount := s.m_bufferFrameCount + chunk.GetFrameCount -
            ((s.m_buffer ++ [chunk]).headD DspChunk.empty).GetFrameCount
          m_bufferFirstFrame := s.m_bufferFirstFrame +
            ((s.m_buffer ++ [chunk]).headD DspChunk.empty).GetFrameCount
          m_buffer := (s.m_buffer ++ [chunk]).tail },
        (ModifyFirstChunkWith t (takenWith t s chunk)).m_buffer.headD DspChunk.empty)
      else (takenWith t s chunk, DspChunk.empty) := by
  unfold ProcessWith
  rw [if_pos (by simp [DspChunk.IsEmpty, DspChunk.GetFormat, h1, h2])]
  obtain ⟨_, _, _, hw, hc, hf, hb⟩ := takenWith_fields t s chunk
  obtain ⟨_, _, _, _, hc', hf', ht', _⟩ := ModifyFirstChunkWith_fields t (takenWith t s chunk)
  show (if (takenWith t s chunk).m_bufferFrameCount -
      ((takenWith t s chunk).m_buffer.headD DspChunk.empty).GetFrameCount ≥
        (takenWith t s chunk).m_windowFrames
    then ({ ModifyFirstChunkWith t (takenWith t s chunk) with
          m_bufferFrameCount := (ModifyFirstChunkWith t (takenWith t s chunk)).m_bufferFrameCount -
            ((takenWith t s chunk).m_buffer.headD DspChunk.empty).GetFrameCount
          m_bufferFirstFrame := (ModifyFirstChunkWith t (takenWith t s chunk)).m_bufferFirstFrame +
            ((takenWith t s chunk).m_buffer.headD DspChunk.empty).GetFrameCount
          m_buffer := (ModifyFirstChunkWith t (takenWith t s chunk)).m_buffer.tail },
        (ModifyFirstChunkWith t (takenWith t s chunk)).m_buffer.headD DspChunk.empty)
    else (takenWith t s chunk, DspChunk.empty)) = _
  rw [hc', hf', ht', hw, hc, hf, hb]

theorem ProcessWith_fields (t : Arithmetic) (s : DspLimiter) (chunk : DspChunk) :
    (ProcessWith t s chunk).1.m_limit = s.m_limit ∧
    (ProcessWith t s chunk).1.m_attackFrames = s.m_attackFrames ∧
    (ProcessWith t s chunk).1.m_releaseFrames = s.m_releaseFrames := by
  by_cases hacc : chunk.frames ≠ [] ∧ chunk.format = DspFormat.Float
  · obtain ⟨tl, ta, tr, _⟩ := takenWith_fields t s chunk
    obtain ⟨ml, ma, mr, _⟩ := ModifyFirstChunkWith_fields t (takenWith t s chunk)
    rw [ProcessWith_taken t s chunk hacc.1 hacc.2]
    split
    · exact ⟨ml.trans tl, ma.trans ta, mr.trans tr⟩
    · exact ⟨tl, ta, tr⟩
  · rw [ProcessWith_pass t s chunk (by tauto)]
    exact ⟨rfl, rfl, rfl⟩

theorem processAllWith_fields (t : Arithmetic) (s : DspLimiter) (chunks : List DspChunk) :
    (processAllWith t s chunks).1.m_limit = s.m_limit ∧
    (processAllWith t s chunks).1.m_attackFrames = s.m_attackFrames ∧
    (processAllWith t s chunks).1.m_releaseFrames = s.m_releaseFrames := by
  induction chunks generalizing s with
  | nil => exact ⟨rfl, rfl, rfl⟩
  | cons chunk rest ih =>
    obtain ⟨h1, h2, h3⟩ := ProcessWith_fields t s chunk
    obtain ⟨i1, i2, i3⟩ := ih (ProcessWith t s chunk).1
    exact ⟨i1.trans h1, i2.trans h2, i3.trans h3⟩

/-- One `Process` call on a state whose `m_bufferFrameCount` is the number of
buffered frames: the count stays right, and the next frame to analyse advances
by the frames of a float chunk. -/
theorem ProcessWith_frames (t : Arithmetic) (s : DspLimiter) (chunk : DspChunk)
    (hinv : s.m_bufferFrameCount = frameTotal s.m_buffer) :
    (ProcessWith t s chunk).1.m_bufferFrameCount = frameTotal (ProcessWith t s chunk).1.m_buffer ∧
      (chunk.frames ≠ [] → chunk.format = DspFormat.Float →
        (ProcessWith t s chunk).1.m_bufferFirstFrame + (ProcessWith t s chunk).1.m_bufferFrameCount =
          s.m_bufferFirstFrame + s.m_bufferFrameCount + chunk.GetFrameCount) := by
  by_cases h1 : chunk.frames = []
  · rw [ProcessWith_pass t s chunk (Or.inl h1)]
    exact ⟨hinv, fun h => absurd h1 h⟩
  by_cases h2 : chunk.format = DspFormat.Float
  · rw [ProcessWith_taken t s chunk h1 h2]
    obtain ⟨_, _, _, _, hc, hf, hb⟩ := takenWith_fields t s chunk
    have hsum := frameTotal_head_tail (s.m_buffer ++ [chunk])
    rw [frameTotal_append] at hsum
    have hone : frameTotal [chunk] = chunk.GetFrameCount := by simp [frameTotal]
    split
    · refine ⟨?_, fun _ _ => ?_⟩
      · show s.m_bufferFrameCount + chunk.GetFrameCount -
            ((s.m_buffer ++ [chunk]).headD DspChunk.empty).GetFrameCount =
          frameTotal (s.m_buffer ++ [chunk]).tail
        omega
      · show s.m_bufferFirstFrame + ((s.m_buffer ++ [chunk]).headD DspChunk.empty).GetFrameCount +
            (s.m_bufferFrameCount + chunk.GetFrameCount -
              ((s.m_buffer ++ [chunk]).headD DspChunk.empty).GetFrameCount) = _
        omega
    · refine ⟨?_, fun _ _ => ?_⟩
      · show (takenWith t s chunk).m_bufferFrameCount = frameTotal (takenWith t s chunk).m_buffer
        rw [hc, hb, frameTotal_append]; omega
      · show (takenWith t s chunk).m_bufferFirstFrame + (takenWith t s chunk).m_bufferFrameCount = _
        rw [hc, hf]; omega
  · rw [ProcessWith_pass t s chunk (Or.inr h2)]
    exact ⟨hinv, fun _ h => absurd h h2⟩

/-! ### The limiter whatever the rounding: the shape of the anchor deque -/

theorem dropDominatedWith_suffix (t : Arithmetic) (a r p : Nat) (sample : ℚ)
    (peaks : List (Nat × ℚ)) : dropDominatedWith t a r p sample peaks <:+ peaks := by
  induction peaks with
  | nil => exact List.suffix_refl _
  | cons back tl ih =>
    cases tl with
    | nil => exact List.suffix_refl _
    | cons nextToBack rest =>
      simp only [dropDominatedWith]
      split
      · exact List.IsSuffix.trans ih (List.suffix_cons _ _)
      · exact List.suffix_refl _

/-- What the analysis of one frame does to the anchors, whatever the
arithmetic decides: nothing, or it appends the peak and the end of its release
ramp to the start of an attack ramp (empty deque) or to a front part of the
deque (after the dominance loop). -/
theorem analyzeFrameWith_cases (t : Arithmetic) (s : DspLimiter) (pf : Nat) (frame : List ℚ) :
    (analyzeFrameWith t s pf frame).m_peaks = s.m_peaks ∨
    (s.m_limit < frameSample frame ∧
      ∃ kept, (kept <+: s.m_peaks ∨ ∃ start, kept = [(start, s.m_limit)]) ∧
        (analyzeFrameWith t s pf frame).m_peaks =
          kept ++ [(pf, frameSample frame), (pf + s.m_releaseFrames, s.m_limit)]) := by
  by_cases hs : s.m_limit < frameSample frame
  · unfold analyzeFrameWith
    simp only [gt_iff_lt, hs, if_true]
    split
    · exact Or.inr ⟨trivial, [_], Or.inr ⟨_, rfl⟩, rfl⟩
    · exact Or.inl rfl
    · rename_i back nextToBack rest hrev
      split
      · refine Or.inr ⟨trivial, _, Or.inl ?_, rfl⟩
        have hsuf := dropDominatedWith_suffix t s.m_attackFrames s.m_releaseFrames pf
          (frameSample frame) (back :: nextToBack :: rest)
        have hpk : s.m_peaks = (back :: nextToBack :: rest).reverse := by
          rw [← hrev, List.reverse_reverse]
        have := List.reverse_prefix.2 hsuf
        rw [← hpk] at this
        exact this
      · exact Or.inl rfl
  · left
    unfold analyzeFrameWith
    simp only [gt_iff_lt, hs, if_false]

theorem peakAnchors_append (limit : ℚ) (xs ys : List (Nat × ℚ)) :
    peakAnchors limit (xs ++ ys) = peakAnchors limit xs ++ peakAnchors limit ys := by
  simp [peakAnchors]

theorem peakAnchors_sublist (limit : ℚ) (xs ys : List (Nat × ℚ)) (h : xs.Sublist ys) :
    (peakAnchors limit xs).Sublist (peakAnchors limit ys) :=
  List.Sublist.filter _ h

theorem peakAnchors_new (limit sample : ℚ) (pf last : Nat) (h : limit < sample) :
    peakAnchors limit [(pf, sample), (last, limit)] = [(pf, sample)] := by
  simp [peakAnchors, h]

theorem peakAnchors_start (limit : ℚ) (start : Nat) :
    peakAnchors limit [(start, limit)] = [] := by
  simp [peakAnchors]

theorem analyzeFrameWith_shaped (t : Arithmetic) (s : DspLimiter) (pf : Nat) (frame : List ℚ)
    (h : shapedAt s pf) : shapedAt (analyzeFrameWith t s pf frame) (pf + 1) := by
  obtain ⟨hl, _, hr⟩ := analyzeFrameWith_fields t s pf frame
  obtain ⟨hshape, habove, hbefore, hinc⟩ := h
  unfold shapedAt
  rw [hl, hr]
  rcases analyzeFrameWith_cases t s pf frame with hc | ⟨hs, kept, hkept, hc⟩
  · rw [hc]
    exact ⟨hshape, habove, fun x hx => Nat.lt_succ_of_lt (hbefore x hx), hinc⟩
  · rw [hc]
    have hkabove : ∀ anchor ∈ kept, s.m_limit ≤ anchor.2 := by
      intro x hx
      rcases hkept with hk | ⟨start, hk⟩
      · exact habove x (hk.subset hx)
      · rw [hk] at hx
        simp only [List.mem_singleton] at hx
        rw [hx]
    have hksub : (peakAnchors s.m_limit kept).Sublist (peakAnchors s.m_limit s.m_peaks) := by
      rcases hkept with hk | ⟨start, hk⟩
      · exact peakAnchors_sublist _ _ _ hk.sublist
      · rw [hk, peakAnchors_start]
        exact List.nil_sublist _
    refine ⟨Or.inr ⟨kept, pf, frameSample frame, rfl, hs⟩, ?_, ?_, ?_⟩
    · intro x hx
      rcases List.mem_append.1 hx with hx | hx
      · exact hkabove x hx
      · simp only [List.mem_cons, List.mem_singleton, List.not_mem_nil, or_false] at hx
        rcases hx with rfl | rfl
        · exact le_of_lt hs
        · exact le_refl _
    · intro x hx
      rw [peakAnchors_append, peakAnchors_new _ _ _ _ hs] at hx
      rcases List.mem_append.1 hx with hx | hx
      · exact Nat.lt_succ_of_lt (hbefore x (hksub.subset hx))
      · simp only [List.mem_singleton] at hx
        rw [hx]
        exact Nat.lt_succ_self _
    · unfold increasing at hinc ⊢
      rw [peakAnchors_append, peakAnchors_new _ _ _ _ hs, List.pairwise_append]
      refine ⟨hinc.sublist hksub, List.pairwise_singleton _ _, ?_⟩
      intro x hx y hy
      simp only [List.mem_singleton] at hy
      rw [hy]
      exact hbefore x (hksub.subset hx)

theorem analyzeFramesWith_fields (t : Arithmetic) (s : DspLimiter) (n : Nat)
    (frames : List (List ℚ)) :
    (analyzeFramesWith t s n frames).m_limit = s.m_limit ∧
    (analyzeFramesWith t s n frames).m_attackFrames = s.m_attackFrames ∧
    (analyzeFramesWith t s n frames).m_releaseFrames = s.m_releaseFrames := by
  have h := analyzeFramesWith_eq t s n frames
  generalize analyzeFramesWith t s n frames = u at h
  refine ⟨?_, ?_, ?_⟩ <;> rw [h]

theorem analyzeFramesWith_shaped (t : Arithmetic) (s : DspLimiter) (n : Nat)
    (frames : List (List ℚ)) (h : shapedAt s n) :
    shapedAt (analyzeFramesWith t s n frames) (n + frames.length) := by
  induction frames generalizing s n with
  | nil => exact h
  | cons frame rest ih =>
    simp only [analyzeFramesWith, List.length_cons]
    rw [show n + (rest.length + 1) = n + 1 + rest.length by omega]
    exact ih (analyzeFrameWith t s n frame) (n + 1) (analyzeFrameWith_shaped t s n frame h)

theorem shapedAt_length (s : DspLimiter) (n : Nat) (h : shapedAt s n) :
    s.m_peaks = [] ∨ 2 ≤ s.m_peaks.length := by
  rcases h.1 with h | ⟨pre, q, sq, hp, _⟩
  · exact Or.inl h
  · right; rw [hp]; simp

/-- The shape is kept when anchors are popped from the front, two at least
staying, or when the deque is cleared. -/
theorem shapedAt_drop (s u : DspLimiter) (n : Nat) (h : shapedAt s n)
    (hl : u.m_limit = s.m_limit) (hr : u.m_releaseFrames = s.m_releaseFrames)
    (hp : u.m_peaks = [] ∨ ∃ k, k + 2 ≤ s.m_peaks.length ∧ u.m_peaks = s.m_peaks.drop k) :
    shapedAt u n := by
  obtain ⟨hshape, habove, hbefore, hinc⟩ := h
  unfold shapedAt
  rw [hl, hr]
  rcases hp with hp | ⟨k, hk, hp⟩
  · rw [hp]
    exact ⟨Or.inl rfl, by simp, by simp [peakAnchors], by simp [peakAnchors, increasing]⟩
  · have hsub : (peakAnchors s.m_limit (s.m_peaks.drop k)).Sublist
        (peakAnchors s.m_limit s.m_peaks) :=
      peakAnchors_sublist _ _ _ (List.drop_sublist _ _)
    rw [hp]
    refine ⟨?_, fun x hx => habove x (List.mem_of_mem_drop hx),
      fun x hx => hbefore x (hsub.subset hx), hinc.sublist hsub⟩
    rcases hshape with h0 | ⟨pre, q, sq, hs, hsq⟩
    · rw [h0] at hk; simp at hk
    · right
      refine ⟨pre.drop k, q, sq, ?_, hsq⟩
      rw [hs]
      rw [hs] at hk
      simp only [List.length_append, List.length_cons, List.length_nil] at hk
      exact List.drop_append_of_le_length (by omega)

theorem takenWith_shaped (t : Arithmetic) (s : DspLimiter) (chunk : DspChunk)
    (h : shapedAt s (s.m_bufferFirstFrame + s.m_bufferFrameCount)) :
    shapedAt (takenWith t s chunk)
      (s.m_bufferFirstFrame + s.m_bufferFrameCount + chunk.GetFrameCount) := by
  rw [takenWith_eq]
  exact analyzeFramesWith_shaped t { s with
      m_bufferFrameCount := s.m_bufferFrameCount + chunk.GetFrameCount
      m_buffer := s.m_buffer ++ [chunk] }
    (s.m_bufferFirstFrame + s.m_bufferFrameCount) chunk.frames h

/-- The shape of the anchor deque is kept by every `Process` call, whatever
the arithmetic decides. -/
theorem ProcessWith_shaped (t : Arithmetic) (s : DspLimiter) (chunk : DspChunk)
    (hinv : s.m_bufferFrameCount = frameTotal s.m_buffer)
    (h : shapedAt s (s.m_bufferFirstFrame + s.m_bufferFrameCount)) :
    shapedAt (ProcessWith t s chunk).1
      ((ProcessWith t s chunk).1.m_bufferFirstFrame +
        (ProcessWith t s chunk).1.m_bufferFrameCount) := by
  by_cases hacc : chunk.frames ≠ [] ∧ chunk.format = DspFormat.Float
  · have hT := takenWith_shaped t s chunk h
    rw [(ProcessWith_frames t s chunk hinv).2 hacc.1 hacc.2]
    obtain ⟨ml, _, mr, _⟩ := ModifyFirstChunkWith_fields t (takenWith t s chunk)
    rw [ProcessWith_taken t s chunk hacc.1 hacc.2]
    split
    · have hM := ModifyFirstChunk_peaks (takenWith t s chunk) (shapedAt_length _ _ hT)
      rw [← ModifyFirstChunkWith_peaks t] at hM
      exact shapedAt_drop (takenWith t s chunk) _ _ hT ml mr hM
    · exact hT
  · rw [ProcessWith_pass t s chunk (by tauto)]
    exact h

theorem processAllWith_shaped (t : Arithmetic) (s : DspLimiter) (chunks : List DspChunk)
    (hinv : s.m_bufferFrameCount = frameTotal s.m_buffer)
    (h : shapedAt s (s.m_bufferFirstFrame + s.m_bufferFrameCount)) :
    shapedAt (processAllWith t s chunks).1
      ((processAllWith t s chunks).1.m_bufferFirstFrame +
        (processAllWith t s chunks).1.m_bufferFrameCount) := by
  induction chunks generalizing s with
  | nil => exact h
  | cons chunk rest ih =>
    exact ih (ProcessWith t s chunk).1 (ProcessWith_frames t s chunk hinv).1
      (ProcessWith_shaped t s chunk hinv h)

theorem InitializeWith_shaped (t : Arithmetic) (rate : Nat) (exclusive : Bool) :
    shapedAt (InitializeWith t rate exclusive) 0 :=
  ⟨Or.inl rfl, by simp [InitializeWith], by simp [InitializeWith, peakAnchors],
    by simp [InitializeWith, peakAnchors, increasing]⟩

/-! ### The limiter whatever the rounding: exact arithmetic -/

theorem dropDominatedWith_exact (a r p : Nat) (sample : ℚ) (peaks : List (Nat × ℚ)) :
    dropDominatedWith exactArithmetic a r p sample peaks = dropDominated a r p sample peaks := by
  induction peaks with
  | nil => rfl
  | cons back tl ih =>
    cases tl with
    | nil => rfl
    | cons nextToBack rest =>
      simp only [dropDominatedWith, dropDominated, exactArithmetic, decide_eq_true_eq]
      split
      · exact ih
      · rfl

theorem analyzeFrameWith_exact (s : DspLimiter) (pf : Nat) (frame : List ℚ) :
    analyzeFrameWith exactArithmetic s pf frame = analyzeFrame s pf frame := by
  unfold analyzeFrameWith analyzeFrame
  simp only [dropDominatedWith_exact]
  simp only [exactArithmetic, decide_eq_true_eq]

theorem analyzeFramesWith_exact (s : DspLimiter) (n : Nat) (frames : List (List ℚ)) :
    analyzeFramesWith exactArithmetic s n frames = analyzeFrames s n frames := by
  induction frames generalizing s n with
  | nil => rfl
  | cons frame rest ih =>
    simp only [analyzeFramesWith, analyzeFrames, analyzeFrameWith_exact, ih]

theorem AnalyzeLastChunkWith_exact (s : DspLimiter) :
    AnalyzeLastChunkWith exactArithmetic s = AnalyzeLastChunk s := by
  unfold AnalyzeLastChunkWith AnalyzeLastChunk
  simp only [analyzeFramesWith_exact]

theorem modifyFramesWith_exact (limit : ℚ) (frames : List (List ℚ)) (peaks : List (Nat × ℚ))
    (a : Nat) :
    modifyFramesWith exactArithmetic limit frames peaks a = modifyFrames limit frames peaks a := by
  induction frames generalizing peaks a with
  | nil => rfl
  | cons frame rest ih =>
    simp only [modifyFramesWith, modifyFrames, ih]
    rfl

theorem ModifyFirstChunkWith_exact (s : DspLimiter) :
    ModifyFirstChunkWith exactArithmetic s = ModifyFirstChunk s := by
  unfold ModifyFirstChunkWith ModifyFirstChunk
  simp only [modifyFramesWith_exact]

/-- With the exact outcomes the parametrised `Process` is the exact one. -/
theorem ProcessWith_exact (s : DspLimiter) (chunk : DspChunk) :
    ProcessWith exactArithmetic s chunk = Process s chunk := by
  unfold ProcessWith Process
  simp only [AnalyzeLastChunkWith_exact, ModifyFirstChunkWith_exact]

theorem processAllWith_exact (s : DspLimiter) (chunks : List DspChunk) :
    processAllWith exactArithmetic s chunks = processAll s chunks := by
  induction chunks generalizing s with
  | nil => rfl
  | cons chunk rest ih =>
    simp only [processAllWith, processAll, ProcessWith_exact, ih]

theorem InitializeWith_exact (rate : Nat) (exclusive : Bool) :
    InitializeWith exactArithmetic rate exclusive = Initialize rate exclusive := rfl

/-- With the exact outcomes the parametrised run of the limiter is the exact
one. -/
theorem runWith_exact (rate : Nat) (exclusive : Bool) (chunks : List DspChunk) :
    runWith exactArithmetic rate exclusive chunks = run rate exclusive chunks := by
  unfold runWith run
  rw [InitializeWith_exact, processAllWith_exact]

/-- C9, as the code has it, whatever the rounding of its float arithmetic.
After every `Process` call since `Initialize` the anchor deque is empty or ends
with a peak anchor of value above `limit` followed by the end of its release
ramp, `releaseFrames` later and of value `limit`; so it is empty or holds at
least two anchors, and its last anchor has value `limit`.  Every anchor has a
value of at least `limit`, and the anchors above `limit`, the peaks, lie at
strictly increasing frames.  The exact `run` is the case `exactArithmetic`
(`runWith_exact`). -/
theorem C9_anchor_invariant (t : Arithmetic) (rate : Nat) (exclusive : Bool)
    (chunks : List DspChunk) :
    ((runWith t rate exclusive chunks).1.m_peaks = [] ∨
      ∃ pre q sq, (runWith t rate exclusive chunks).1.m_peaks =
          pre ++ [(q, sq), (q + (runWith t rate exclusive chunks).1.m_releaseFrames,
            (runWith t rate exclusive chunks).1.m_limit)] ∧
        (runWith t rate exclusive chunks).1.m_limit < sq) ∧
    ((runWith t rate exclusive chunks).1.m_peaks = [] ∨
      2 ≤ (runWith t rate exclusive chunks).1.m_peaks.length) ∧
    (∀ last ∈ (runWith t rate exclusive chunks).1.m_peaks.getLast?,
      last.2 = (runWith t rate exclusive chunks).1.m_limit) ∧
    (∀ anchor ∈ (runWith t rate exclusive chunks).1.m_peaks,
      (runWith t rate exclusive chunks).1.m_limit ≤ anchor.2) ∧
    increasing (peakAnchors (runWith t rate exclusive chunks).1.m_limit
      (runWith t rate exclusive chunks).1.m_peaks) := by
  have h := processAllWith_shaped t (InitializeWith t rate exclusive) chunks rfl
    (InitializeWith_shaped t rate exclusive)
  refine ⟨h.1, shapedAt_length _ _ h, ?_, h.2.1, h.2.2.2⟩
  intro last hlast
  rcases h.1 with h0 | ⟨pre, q, sq, hp, _⟩
  · unfold runWith at hlast
    rw [h0] at hlast
    simp at hlast
  · unfold runWith at hlast ⊢
    rw [hp] at hlast
    have e : pre ++ [(q, sq),
        (q + (processAllWith t (InitializeWith t rate exclusive) chunks).1.m_releaseFrames,
          (processAllWith t (InitializeWith t rate exclusive) chunks).1.m_limit)] =
        (pre ++ [(q, sq)]) ++
          [(q + (processAllWith t (InitializeWith t rate exclusive) chunks).1.m_releaseFrames,
            (processAllWith t (InitializeWith t rate exclusive) chunks).1.m_limit)] := by
      simp
    rw [e, List.getLast?_concat] at hlast
    simp only [Option.mem_def, Option.some.injEq] at hlast
    rw [← hlast]

/-- C9 as stated fails: at rate 100 in exclusive mode (`limit = 1`), after six
one-frame chunks with the one peak, of value 2, at frame 2, the deque holds the
two anchors `(2, 2)` and `(3, 1)`: fewer than three, the first of value 2. -/
theorem C9_anchor_counterexample :
    (run 100 true [mono [0], mono [0], mono [2], mono [0], mono [0], mono [0]]).1.m_peaks =
        [(2, 2), (3, 1)] ∧
      (run 100 true [mono [0], mono [0], mono [2], mono [0], mono [0], mono [0]]).1.m_limit = 1 ∧
      ¬ ((run 100 true [mono [0], mono [0], mono [2], mono [0], mono [0], mono [0]]).1.m_peaks = [] ∨
        3 ≤ (run 100 true
          [mono [0], mono [0], mono [2], mono [0], mono [0], mono [0]]).1.m_peaks.length) := by
  decide!

/-! ### Two peaks in one release ramp -/

theorem analyzeFrames_append (s : DspLimiter) (n : Nat) (xs ys : List (List ℚ)) :
    analyzeFrames s n (xs ++ ys) = analyzeFrames (analyzeFrames s n xs) (n + xs.length) ys := by
  induction xs generalizing s n with
  | nil => rfl
  | cons x rest ih =>
    show analyzeFrames (analyzeFrame s n x) (n + 1) (rest ++ ys) =
      analyzeFrames (analyzeFrames (analyzeFrame s n x) (n + 1) rest) (n + (rest.length + 1)) ys
    rw [ih, show n + 1 + rest.length = n + (rest.length + 1) by omega]

theorem analyzeFrames_quiet_of (s : DspLimiter) (p : Nat) (frames : List (List ℚ)) (limit : ℚ)
    (hl : s.m_limit = limit) (h : ∀ frame ∈ frames, frameSample frame ≤ limit) :
    analyzeFrames s p frames = s :=
  analyzeFrames_quiet s p frames (by rw [hl]; exact h)

theorem analyzeFrame_seed (s : DspLimiter) (pf : Nat) (frame : List ℚ)
    (hs : s.m_limit < frameSample frame) (hp : s.m_peaks = []) :
    analyzeFrame s pf frame = { s with m_peaks :=
      [(if pf > s.m_attackFrames then pf - s.m_attackFrames else 0, s.m_limit),
       (pf, frameSample frame), (pf + s.m_releaseFrames, s.m_limit)] } := by
  unfold analyzeFrame
  simp only [gt_iff_lt, hs, if_true, hp, List.reverse_nil]

theorem analyzeFrame_admitted (s : DspLimiter) (pf : Nat) (frame : List ℚ)
    (back nextToBack : Nat × ℚ) (rest : List (Nat × ℚ))
    (hs : s.m_limit < frameSample frame) (hp : s.m_peaks.reverse = back :: nextToBack :: rest)
    (hadm : pf > back.1 ∨ fPair nextToBack back pf < frameSample frame) :
    analyzeFrame s pf frame = { s with m_peaks :=
      (dropDominated s.m_attackFrames s.m_releaseFrames pf (frameSample frame)
        (back :: nextToBack :: rest)).reverse ++
      [(pf, frameSample frame), (pf + s.m_releaseFrames, s.m_limit)] } := by
  unfold analyzeFrame
  simp only [gt_iff_lt, hs, if_true, hp]
  rw [if_pos hadm]

/-- With `f` computed exactly: a second peak `(p2, s2)`, at least as tall as
the last one `(p, s1)` and within its release ramp, on the deque a first peak
leaves: the end of the release ramp is dropped; the first peak is dropped as
well exactly when it lies on or under the straight line from the start of its
attack ramp to the second peak. -/
theorem analyzeFrames_second_peak (t : DspLimiter) (p s0 : Nat) (s1 : ℚ)
    (q2 q3 : List (List ℚ)) (fr2 : List ℚ)
    (hp : t.m_peaks = [(s0, t.m_limit), (p, s1), (p + t.m_releaseFrames, t.m_limit)])
    (hs0 : s0 = p - t.m_attackFrames)
    (hq2 : ∀ frame ∈ q2, frameSample frame ≤ t.m_limit)
    (hq3 : ∀ frame ∈ q3, frameSample frame ≤ t.m_limit)
    (h1 : t.m_limit < s1) (h2 : s1 ≤ frameSample fr2)
    (hin : q2.length + 1 ≤ t.m_releaseFrames)
    (hwrap : t.m_attackFrames + t.m_releaseFrames ≤ p + 1 + q2.length) :
    (analyzeFrames t (p + 1) (q2 ++ [fr2] ++ q3)).m_peaks =
      if s1 ≤ f s0 t.m_limit (p + 1 + q2.length) (frameSample fr2) p then
        [(s0, t.m_limit), (p + 1 + q2.length, frameSample fr2),
         (p + 1 + q2.length + t.m_releaseFrames, t.m_limit)]
      else
        [(s0, t.m_limit), (p, s1), (p + 1 + q2.length, frameSample fr2),
         (p + 1 + q2.length + t.m_releaseFrames, t.m_limit)] := by
  rw [analyzeFrames_append, analyzeFrames_append, analyzeFrames_quiet t _ q2 hq2]
  simp only [analyzeFrames, List.length_append, List.length_singleton, ← Nat.add_assoc]
  have hs2 : t.m_limit < frameSample fr2 := lt_of_lt_of_le h1 h2
  have hramp : fPair (p, s1) (p + t.m_releaseFrames, t.m_limit) (p + 1 + q2.length) <
      frameSample fr2 := by
    unfold fPair
    simp only
    rw [f_eq _ _ _ _ _ (by omega)]
    have e1 : ((p + t.m_releaseFrames : ℕ) : ℚ) - ((p : ℕ) : ℚ) = t.m_releaseFrames := by
      push_cast; ring
    have e2 : ((p + 1 + q2.length : ℕ) : ℚ) - ((p : ℕ) : ℚ) = q2.length + 1 := by
      push_cast; ring
    rw [e1, e2]
    have hr : (0 : ℚ) < (t.m_releaseFrames : ℚ) := by
      have : 0 < t.m_releaseFrames := by omega
      exact_mod_cast this
    have hd : (0 : ℚ) < ((q2.length : ℚ) + 1) / t.m_releaseFrames := by positivity
    have : ((q2.length : ℚ) + 1) / t.m_releaseFrames * (t.m_limit - s1) < 0 :=
      mul_neg_of_pos_of_neg hd (by linarith)
    linarith
  have hrev : t.m_peaks.reverse =
      [(p + t.m_releaseFrames, t.m_limit), (p, s1), (s0, t.m_limit)] := by
    rw [hp]; rfl
  rw [analyzeFrame_admitted t (p + 1 + q2.length) fr2 _ _ _ hs2 hrev (Or.inr hramp)]
  have hl : ({ t with m_peaks :=
      (dropDominated t.m_attackFrames t.m_releaseFrames (p + 1 + q2.length) (frameSample fr2)
        [(p + t.m_releaseFrames, t.m_limit), (p, s1), (s0, t.m_limit)]).reverse ++
      [(p + 1 + q2.length, frameSample fr2),
        (p + 1 + q2.length + t.m_releaseFrames, t.m_limit)] } : DspLimiter).m_limit =
      t.m_limit := rfl
  rw [analyzeFrames_quiet _ _ q3 (by rw [hl]; exact hq3)]
  have hdom := ramp_end_dominated p t.m_releaseFrames (p + 1 + q2.length) t.m_attackFrames s1
    (frameSample fr2) t.m_limit (by omega) (by omega) hwrap hs2 hramp
  have hsecond : s0 ≥ sub64 (sub64 (p + 1 + q2.length) t.m_attackFrames) t.m_releaseFrames := by
    rw [sub64_of_le (p + 1 + q2.length) t.m_attackFrames (by omega),
      sub64_of_le (p + 1 + q2.length - t.m_attackFrames) t.m_releaseFrames (by omega), hs0]
    show p + 1 + q2.length - t.m_attackFrames - t.m_releaseFrames ≤ p - t.m_attackFrames
    omega
  simp only
  rw [dropDominated, if_pos hdom, dropDominated]
  by_cases hline : s1 ≤ f s0 t.m_limit (p + 1 + q2.length) (frameSample fr2) p
  · rw [if_pos ⟨h2, hsecond, hline⟩, if_pos hline]
    rfl
  · rw [if_neg (fun h => hline h.2.2), if_neg hline]
    rfl

/-- With `f` computed exactly: the anchors after a first peak on an empty deque
and a second peak, at least as tall, within its release ramp, all other frames
being at most `limit`. -/
theorem analyzeFrames_two_peaks (s : DspLimiter) (n : Nat) (q1 q2 q3 : List (List ℚ))
    (fr1 fr2 : List ℚ) (hp : s.m_peaks = [])
    (hq1 : ∀ frame ∈ q1, frameSample frame ≤ s.m_limit)
    (hq2 : ∀ frame ∈ q2, frameSample frame ≤ s.m_limit)
    (hq3 : ∀ frame ∈ q3, frameSample frame ≤ s.m_limit)
    (h1 : s.m_limit < frameSample fr1) (h2 : frameSample fr1 ≤ frameSample fr2)
    (ha : s.m_attackFrames < n + q1.length) (hin : q2.length + 1 ≤ s.m_releaseFrames)
    (hwrap : s.m_attackFrames + s.m_releaseFrames ≤ n + q1.length + 1 + q2.length) :
    (analyzeFrames s n (q1 ++ ([fr1] ++ (q2 ++ [fr2] ++ q3)))).m_peaks =
      if frameSample fr1 ≤ f (n + q1.length - s.m_attackFrames) s.m_limit
          (n + q1.length + 1 + q2.length) (frameSample fr2) (n + q1.length) then
        [(n + q1.length - s.m_attackFrames, s.m_limit),
         (n + q1.length + 1 + q2.length, frameSample fr2),
         (n + q1.length + 1 + q2.length + s.m_releaseFrames, s.m_limit)]
      else
        [(n + q1.length - s.m_attackFrames, s.m_limit),
         (n + q1.length, frameSample fr1),
         (n + q1.length + 1 + q2.length, frameSample fr2),
         (n + q1.length + 1 + q2.length + s.m_releaseFrames, s.m_limit)] := by
  rw [analyzeFrames_append, analyzeFrames_quiet s n q1 hq1]
  show (analyzeFrames (analyzeFrame s (n + q1.length) fr1) (n + q1.length + 1)
    (q2 ++ [fr2] ++ q3)).m_peaks = _
  rw [analyzeFrame_seed s (n + q1.length) fr1 h1 hp, if_pos ha]
  exact analyzeFrames_second_peak { s with m_peaks :=
      [(n + q1.length - s.m_attackFrames, s.m_limit), (n + q1.length, frameSample fr1),
        (n + q1.length + s.m_releaseFrames, s.m_limit)] }
    (n + q1.length) (n + q1.length - s.m_attackFrames) (frameSample fr1) q2 q3 fr2 rfl rfl
    hq2 hq3 h1 h2 hin hwrap

theorem Process_first_chunk (rate : Nat) (exclusive : Bool) (chunk : DspChunk)
    (h1 : chunk.frames ≠ []) (h2 : chunk.format = DspFormat.Float) :
    (Process (Initialize rate exclusive) chunk).1 =
      analyzeFrames { Initialize rate exclusive with
          m_bufferFrameCount := chunk.GetFrameCount
          m_buffer := [chunk] } 0 chunk.frames := by
  rw [Process_taken _ chunk h1 h2, if_neg, taken_eq]
  · simp [Initialize]
  · simp [due, Initialize]

theorem Process_two_peaks (rate : Nat) (exclusive : Bool) (q1 q2 q3 : List (List ℚ))
    (fr1 fr2 : List ℚ)
    (hq1 : ∀ frame ∈ q1, frameSample frame ≤ (Initialize rate exclusive).m_limit)
    (hq2 : ∀ frame ∈ q2, frameSample frame ≤ (Initialize rate exclusive).m_limit)
    (hq3 : ∀ frame ∈ q3, frameSample frame ≤ (Initialize rate exclusive).m_limit)
    (h1 : (Initialize rate exclusive).m_limit < frameSample fr1)
    (h2 : frameSample fr1 ≤ frameSample fr2)
    (ha : rate / 100 < q1.length) (hin : q2.length + 1 ≤ rate / 100)
    (hwrap : rate / 100 + rate / 100 ≤ q1.length + 1 + q2.length) :
    (Process (Initialize rate exclusive)
        ⟨DspFormat.Float, q1 ++ [fr1] ++ q2 ++ [fr2] ++ q3⟩).1.m_peaks =
      if frameSample fr1 ≤ f (q1.length - rate / 100) (Initialize rate exclusive).m_limit
          (q1.length + 1 + q2.length) (frameSample fr2) q1.length then
        [(q1.length - rate / 100, (Initialize rate exclusive).m_limit),
         (q1.length + 1 + q2.length, frameSample fr2),
         (q1.length + 1 + q2.length + rate / 100, (Initialize rate exclusive).m_limit)]
      else
        [(q1.length - rate / 100, (Initialize rate exclusive).m_limit),
         (q1.length, frameSample fr1),
         (q1.length + 1 + q2.length, frameSample fr2),
         (q1.length + 1 + q2.length + rate / 100, (Initialize rate exclusive).m_limit)] := by
  rw [Process_first_chunk rate exclusive _ (by simp) rfl]
  have e : q1 ++ [fr1] ++ q2 ++ [fr2] ++ q3 = q1 ++ ([fr1] ++ (q2 ++ [fr2] ++ q3)) := by
    simp only [List.append_assoc]
  simp only [e]
  have := analyzeFrames_two_peaks { Initialize rate exclusive with
      m_bufferFrameCount := (⟨DspFormat.Float, q1 ++ ([fr1] ++ (q2 ++ [fr2] ++ q3))⟩ :
        DspChunk).GetFrameCount
      m_buffer := [⟨DspFormat.Float, q1 ++ ([fr1] ++ (q2 ++ [fr2] ++ q3))⟩] } 0 q1 q2 q3 fr1 fr2
    rfl hq1 hq2 hq3 h1 h2 (by simpa [Initialize] using ha) (by simpa [Initialize] using hin)
    (by simpa [Initialize] using hwrap)
  simpa [Initialize] using this

/-! ### The limiter whatever the rounding: two peaks in one release ramp -/

theorem analyzeFramesWith_append (t : Arithmetic) (s : DspLimiter) (n : Nat)
    (xs ys : List (List ℚ)) :
    analyzeFramesWith t s n (xs ++ ys) =
      analyzeFramesWith t (analyzeFramesWith t s n xs) (n + xs.length) ys := by
  induction xs generalizing s n with
  | nil => rfl
  | cons x rest ih =>
    show analyzeFramesWith t (analyzeFrameWith t s n x) (n + 1) (rest ++ ys) =
      analyzeFramesWith t (analyzeFramesWith t (analyzeFrameWith t s n x) (n + 1) rest)
        (n + (rest.length + 1)) ys
    rw [ih, show n + 1 + rest.length = n + (rest.length + 1) by omega]

theorem analyzeFrameWith_quiet (t : Arithmetic) (s : DspLimiter) (p : Nat) (frame : List ℚ)
    (h : frameSample frame ≤ s.m_limit) : analyzeFrameWith t s p frame = s := by
  unfold analyzeFrameWith
  simp only [gt_iff_lt, not_lt.2 h, if_false]

theorem analyzeFramesWith_quiet (t : Arithmetic) (s : DspLimiter) (p : Nat)
    (frames : List (List ℚ)) (limit : ℚ) (hl : s.m_limit = limit)
    (h : ∀ frame ∈ frames, frameSample frame ≤ limit) :
    analyzeFramesWith t s p frames = s := by
  induction frames generalizing p with
  | nil => rfl
  | cons frame rest ih =>
    simp only [analyzeFramesWith]
    rw [analyzeFrameWith_quiet t s p frame (by rw [hl]; exact h frame (by simp))]
    exact ih (p + 1) (fun fr hfr => h fr (List.mem_cons_of_mem _ hfr))

theorem analyzeFrameWith_seed (t : Arithmetic) (s : DspLimiter) (pf : Nat) (frame : List ℚ)
    (hs : s.m_limit < frameSample frame) (hp : s.m_peaks = []) :
    analyzeFrameWith t s pf frame = { s with m_peaks :=
      [(if pf > s.m_attackFrames then pf - s.m_attackFrames else 0, s.m_limit),
       (pf, frameSample frame), (pf + s.m_releaseFrames, s.m_limit)] } := by
  unfold analyzeFrameWith
  simp only [gt_iff_lt, hs, if_true, hp, List.reverse_nil]

/-- The analysis of a peak `(p2, s2)` on the deque a first peak `(p, s1)` has
left, `p2` within the release ramp of the first peak and `s2 ≥ s1`: what
becomes of the anchors hangs on three comparisons of the arithmetic. -/
theorem analyzeFrameWith_second_peak (t : Arithmetic) (u : DspLimiter) (p p2 : Nat) (s1 : ℚ)
    (fr2 : List ℚ)
    (hp : u.m_peaks = [(p - u.m_attackFrames, u.m_limit), (p, s1),
      (p + u.m_releaseFrames, u.m_limit)])
    (h1 : u.m_limit < s1) (h2 : s1 ≤ frameSample fr2)
    (hin : p2 ≤ p + u.m_releaseFrames)
    (hwrap : u.m_attackFrames + u.m_releaseFrames ≤ p2) :
    (analyzeFrameWith t u p2 fr2).m_peaks =
      if t.below (p, s1) (p + u.m_releaseFrames, u.m_limit) p2 (frameSample fr2) = true then
        if t.covers (p, s1) p2 (frameSample fr2) (p + u.m_releaseFrames, u.m_limit) = true then
          if t.covers (p - u.m_attackFrames, u.m_limit) p2 (frameSample fr2) (p, s1) = true then
            [(p - u.m_attackFrames, u.m_limit), (p2, frameSample fr2),
             (p2 + u.m_releaseFrames, u.m_limit)]
          else
            [(p - u.m_attackFrames, u.m_limit), (p, s1), (p2, frameSample fr2),
             (p2 + u.m_releaseFrames, u.m_limit)]
        else
          [(p - u.m_attackFrames, u.m_limit), (p, s1), (p + u.m_releaseFrames, u.m_limit),
           (p2, frameSample fr2), (p2 + u.m_releaseFrames, u.m_limit)]
      else
        [(p - u.m_attackFrames, u.m_limit), (p, s1), (p + u.m_releaseFrames, u.m_limit)] := by
  have hs2 : u.m_limit < frameSample fr2 := lt_of_lt_of_le h1 h2
  have hrev : u.m_peaks.reverse =
      [(p + u.m_releaseFrames, u.m_limit), (p, s1), (p - u.m_attackFrames, u.m_limit)] := by
    rw [hp]; rfl
  have hnear : ¬ p2 > p + u.m_releaseFrames := by omega
  have hfirst : p ≥ sub64 (sub64 p2 u.m_attackFrames) u.m_releaseFrames := by
    rw [sub64_of_le p2 u.m_attackFrames (by omega),
      sub64_of_le (p2 - u.m_attackFrames) u.m_releaseFrames (by omega)]
    show p2 - u.m_attackFrames - u.m_releaseFrames ≤ p
    omega
  have hsecond : p - u.m_attackFrames ≥ sub64 (sub64 p2 u.m_attackFrames) u.m_releaseFrames := by
    rw [sub64_of_le p2 u.m_attackFrames (by omega),
      sub64_of_le (p2 - u.m_attackFrames) u.m_releaseFrames (by omega)]
    show p2 - u.m_attackFrames - u.m_releaseFrames ≤ p - u.m_attackFrames
    omega
  unfold analyzeFrameWith
  simp only [gt_iff_lt, hs2, if_true, hrev]
  by_cases hb : t.below (p, s1) (p + u.m_releaseFrames, u.m_limit) p2 (frameSample fr2) = true
  · rw [if_pos (Or.inr hb), if_pos hb]
    by_cases hc1 : t.covers (p, s1) p2 (frameSample fr2) (p + u.m_releaseFrames, u.m_limit) = true
    · rw [if_pos hc1, dropDominatedWith, if_pos ⟨le_of_lt hs2, hfirst, hc1⟩]
      by_cases hc2 : t.covers (p - u.m_attackFrames, u.m_limit) p2 (frameSample fr2) (p, s1) = true
      · rw [if_pos hc2, dropDominatedWith, if_pos ⟨h2, hsecond, hc2⟩]
        rfl
      · rw [if_neg hc2, dropDominatedWith, if_neg (fun h => hc2 h.2.2)]
        rfl
    · rw [if_neg hc1, dropDominatedWith, if_neg (fun h => hc1 h.2.2)]
      rfl
  · rw [if_neg (fun h => h.elim hnear hb), if_neg hb]
    exact hp

/-- The anchors after a first peak on an empty deque and a second peak, at
least as tall, within its release ramp, all other frames being at most
`limit`, whatever the arithmetic decides. -/
theorem analyzeFramesWith_two_peaks (t : Arithmetic) (s : DspLimiter) (n : Nat)
    (q1 q2 q3 : List (List ℚ)) (fr1 fr2 : List ℚ) (hp : s.m_peaks = [])
    (hq1 : ∀ frame ∈ q1, frameSample frame ≤ s.m_limit)
    (hq2 : ∀ frame ∈ q2, frameSample frame ≤ s.m_limit)
    (hq3 : ∀ frame ∈ q3, frameSample frame ≤ s.m_limit)
    (h1 : s.m_limit < frameSample fr1) (h2 : frameSample fr1 ≤ frameSample fr2)
    (ha : s.m_attackFrames < n + q1.length) (hin : q2.length + 1 ≤ s.m_releaseFrames)
    (hwrap : s.m_attackFrames + s.m_releaseFrames ≤ n + q1.length + 1 + q2.length) :
    (analyzeFramesWith t s n (q1 ++ [fr1] ++ q2 ++ [fr2] ++ q3)).m_peaks =
      if t.below (n + q1.length, frameSample fr1)
          (n + q1.length + s.m_releaseFrames, s.m_limit)
          (n + q1.length + 1 + q2.length) (frameSample fr2) = true then
        if t.covers (n + q1.length, frameSample fr1) (n + q1.length + 1 + q2.length)
            (frameSample fr2) (n + q1.length + s.m_releaseFrames, s.m_limit) = true then
          if t.covers (n + q1.length - s.m_attackFrames, s.m_limit)
              (n + q1.length + 1 + q2.length) (frameSample fr2)
              (n + q1.length, frameSample fr1) = true then
            [(n + q1.length - s.m_attackFrames, s.m_limit),
             (n + q1.length + 1 + q2.length, frameSample fr2),
             (n + q1.length + 1 + q2.length + s.m_releaseFrames, s.m_limit)]
          else
            [(n + q1.length - s.m_attackFrames, s.m_limit),
             (n + q1.length, frameSample fr1),
             (n + q1.length + 1 + q2.length, frameSample fr2),
             (n + q1.length + 1 + q2.length + s.m_releaseFrames, s.m_limit)]
        else
          [(n + q1.length - s.m_attackFrames, s.m_limit),
           (n + q1.length, frameSample fr1),
           (n + q1.length + s.m_releaseFrames, s.m_limit),
           (n + q1.length + 1 + q2.length, frameSample fr2),
           (n + q1.length + 1 + q2.length + s.m_releaseFrames, s.m_limit)]
      else
        [(n + q1.length - s.m_attackFrames, s.m_limit),
         (n + q1.length, frameSample fr1),
         (n + q1.length + s.m_releaseFrames, s.m_limit)] := by
  have e : q1 ++ [fr1] ++ q2 ++ [fr2] ++ q3 = q1 ++ (fr1 :: (q2 ++ (fr2 :: q3))) := by
    simp
  have hquiet : ∀ (u : DspLimiter) (k : Nat) (q : List (List ℚ)), u.m_limit = s.m_limit →
      (∀ frame ∈ q, frameSample frame ≤ s.m_limit) → analyzeFramesWith t u k q = u :=
    fun u k q hu hq => analyzeFramesWith_quiet t u k q s.m_limit hu hq
  rw [e, analyzeFramesWith_append, hquiet s n q1 rfl hq1]
  simp only [analyzeFramesWith]
  rw [analyzeFrameWith_seed t s (n + q1.length) fr1 h1 hp, if_pos ha,
    analyzeFramesWith_append, hquiet _ _ q2 ?hl2 hq2]
  case hl2 => rfl
  simp only [analyzeFramesWith]
  rw [hquiet _ _ q3 ?hl3 hq3]
  case hl3 => exact (analyzeFrameWith_fields t _ _ _).1
  exact analyzeFrameWith_second_peak t { s with m_peaks :=
      [(n + q1.length - s.m_attackFrames, s.m_limit), (n + q1.length, frameSample fr1),
        (n + q1.length + s.m_releaseFrames, s.m_limit)] }
    (n + q1.length) (n + q1.length + 1 + q2.length) (frameSample fr1) fr2 rfl h1 h2
    (by show n + q1.length + 1 + q2.length ≤ n + q1.length + s.m_releaseFrames; omega) hwrap

/-- C10, as the code has it, whatever the rounding of its float arithmetic.
`AnalyzeLastChunk` on an empty deque and a chunk, the last of the buffer, of
first frame `m_bufferFirstFrame + m_bufferFrameCount - GetFrameCount()`, that
holds a first peak `(p, s1)`, `p > attackFrames`, and a second peak `(p2, s2)`,
at least as tall, within the first peak's release ramp
(`p < p2 ≤ p + releaseFrames`, `p2 ≥ attackFrames + releaseFrames`), all other
frames being at most `limit`.
The anchors afterwards hang on three float comparisons.  If
`f((p, s1), (p + releaseFrames, limit), p2) < s2` (line 95) fails, the second
peak is consumed and the anchors are `(p - attackFrames, limit)`, `(p, s1)`,
`(p + releaseFrames, limit)`.  Otherwise `(p2, s2)` and
`(p2 + releaseFrames, limit)` are appended, after the dominance loop has popped
the end `(p + releaseFrames, limit)` of the first release ramp if
`f(p, s1, p2, s2, p + releaseFrames) >= limit` (line 101) and, that one popped,
the first peak `(p, s1)` if `f(p - attackFrames, limit, p2, s2, p) >= s1`.  A
single attack ramp up to `(p2, s2)` is left only when all three hold, and it
starts at `p - attackFrames`.  The exact `AnalyzeLastChunk` is the case
`exactArithmetic` (`AnalyzeLastChunkWith_exact`). -/
theorem C10_coalesced_peaks (t : Arithmetic) (s : DspLimiter) (chunk : DspChunk)
    (q1 q2 q3 : List (List ℚ)) (fr1 fr2 : List ℚ) (chunkFirstFrame p p2 : Nat)
    (hlast : s.m_buffer.getLast? = some chunk)
    (hframes : chunk.frames = q1 ++ [fr1] ++ q2 ++ [fr2] ++ q3)
    (hfirst : chunkFirstFrame + chunk.GetFrameCount =
      s.m_bufferFirstFrame + s.m_bufferFrameCount)
    (hp : p = chunkFirstFrame + q1.length) (hp2 : p2 = p + 1 + q2.length)
    (hempty : s.m_peaks = [])
    (hq1 : ∀ frame ∈ q1, frameSample frame ≤ s.m_limit)
    (hq2 : ∀ frame ∈ q2, frameSample frame ≤ s.m_limit)
    (hq3 : ∀ frame ∈ q3, frameSample frame ≤ s.m_limit)
    (h1 : s.m_limit < frameSample fr1) (h2 : frameSample fr1 ≤ frameSample fr2)
    (ha : s.m_attackFrames < p) (hin : p2 ≤ p + s.m_releaseFrames)
    (hwrap : s.m_attackFrames + s.m_releaseFrames ≤ p2) :
    (AnalyzeLastChunkWith t s).m_peaks =
      if t.below (p, frameSample fr1) (p + s.m_releaseFrames, s.m_limit) p2
          (frameSample fr2) = true then
        if t.covers (p, frameSample fr1) p2 (frameSample fr2)
            (p + s.m_releaseFrames, s.m_limit) = true then
          if t.covers (p - s.m_attackFrames, s.m_limit) p2 (frameSample fr2)
              (p, frameSample fr1) = true then
            [(p - s.m_attackFrames, s.m_limit), (p2, frameSample fr2),
             (p2 + s.m_releaseFrames, s.m_limit)]
          else
            [(p - s.m_attackFrames, s.m_limit), (p, frameSample fr1), (p2, frameSample fr2),
             (p2 + s.m_releaseFrames, s.m_limit)]
        else
          [(p - s.m_attackFrames, s.m_limit), (p, frameSample fr1),
           (p + s.m_releaseFrames, s.m_limit), (p2, frameSample fr2),
           (p2 + s.m_releaseFrames, s.m_limit)]
      else
        [(p - s.m_attackFrames, s.m_limit), (p, frameSample fr1),
         (p + s.m_releaseFrames, s.m_limit)] := by
  have hn : s.m_bufferFirstFrame + s.m_bufferFrameCount - chunk.GetFrameCount =
      chunkFirstFrame := by omega
  unfold AnalyzeLastChunkWith
  rw [hlast]
  simp only
  rw [hframes, hn, hp2, hp]
  exact analyzeFramesWith_two_peaks t s chunkFirstFrame q1 q2 q3 fr1 fr2 hempty
    hq1 hq2 hq3 h1 h2 (by omega) (by omega) (by omega)

theorem Initialize_exclusive_limit (rate : Nat) : (Initialize rate true).m_limit = 1 := rfl

theorem two_peaks_anchors (q1 q2 q3 : List (List ℚ)) (hl1 : q1.length = 1000)
    (hl2 : q2.length = 19)
    (hq1 : ∀ frame ∈ q1, frameSample frame ≤ (Initialize 48000 true).m_limit)
    (hq2 : ∀ frame ∈ q2, frameSample frame ≤ (Initialize 48000 true).m_limit)
    (hq3 : ∀ frame ∈ q3, frameSample frame ≤ (Initialize 48000 true).m_limit) :
    (Process (Initialize 48000 true)
        ⟨DspFormat.Float, q1 ++ [[2]] ++ q2 ++ [[2]] ++ q3⟩).1.m_peaks =
      [(520, 1), (1000, 2), (1020, 2), (1500, 1)] := by
  have h := Process_two_peaks 48000 true q1 q2 q3 [2] [2] hq1 hq2 hq3
    (by rw [frameSample_two, Initialize_exclusive_limit]; norm_num) (le_refl _)
    (by rw [hl1]; norm_num) (by rw [hl2]; norm_num) (by rw [hl1, hl2]; norm_num)
  rw [hl1, hl2, frameSample_two, Initialize_exclusive_limit] at h
  rw [if_neg (by norm_num [f, sub64])] at h
  exact h

theorem twoPeaks_anchors :
    (Process (Initialize 48000 true) twoPeaks).1.m_peaks =
      [(520, 1), (1000, 2), (1020, 2), (1500, 1)] := by
  unfold twoPeaks
  exact two_peaks_anchors (List.replicate 1000 [0]) (List.replicate 19 [0]) (List.replicate 10 [0])
    (List.length_replicate _ _) (List.length_replicate _ _)
    (replicate_zero_quiet _ _ (Initialize_limit_nonneg _ _))
    (replicate_zero_quiet _ _ (Initialize_limit_nonneg _ _))
    (replicate_zero_quiet _ _ (Initialize_limit_nonneg _ _))

/-- C10 at the scenario of the specification, the comparisons carried out
exactly: value 2 at frames 1000 and 1020 at 48 kHz in exclusive mode.  The
second peak pokes through the release ramp of the first (`47/24 < 2`) and the
end of that ramp is popped (`2 ≥ 1`), but the first peak lies above the line
from `(520, 1)` to `(1020, 2)` (`49/25 < 2`), so its anchor stays. -/
theorem C10_coalesced_peaks_witness :
    (AnalyzeLastChunkWith exactArithmetic twoPeaksTaken).m_peaks =
      [(520, 1), (1000, 2), (1020, 2), (1500, 1)] := by
  have key : ∀ q1 q2 q3 : List (List ℚ), q1.length = 1000 → q2.length = 19 → q3.length = 10 →
      (∀ frame ∈ q1, frameSample frame ≤ 1) → (∀ frame ∈ q2, frameSample frame ≤ 1) →
      (∀ frame ∈ q3, frameSample frame ≤ 1) →
      (AnalyzeLastChunkWith exactArithmetic { Initialize 48000 true with
          m_bufferFrameCount := 1031
          m_buffer := [⟨DspFormat.Float, q1 ++ [[2]] ++ q2 ++ [[2]] ++ q3⟩] }).m_peaks =
        [(520, 1), (1000, 2), (1020, 2), (1500, 1)] := by
    intro q1 q2 q3 hl1 hl2 hl3 hq1 hq2 hq3
    have h := C10_coalesced_peaks exactArithmetic { Initialize 48000 true with
          m_bufferFrameCount := 1031
          m_buffer := [⟨DspFormat.Float, q1 ++ [[2]] ++ q2 ++ [[2]] ++ q3⟩] }
      ⟨DspFormat.Float, q1 ++ [[2]] ++ q2 ++ [[2]] ++ q3⟩ q1 q2 q3 [2] [2] 0 1000 1020 rfl rfl
      (by simp [Initialize, DspChunk.GetFrameCount, hl1, hl2, hl3]) (by rw [hl1]) (by rw [hl2]) rfl
      hq1 hq2 hq3 (by rw [frameSample_two]; norm_num [Initialize]) (le_refl _)
      (by norm_num [Initialize]) (by norm_num [Initialize]) (by norm_num [Initialize])
    rw [h, frameSample_two]
    norm_num [Initialize, exactArithmetic, fPair, f, sub64]
  exact key (List.replicate 1000 [0]) (List.replicate 19 [0]) (List.replicate 10 [0])
    (List.length_replicate _ _) (List.length_replicate _ _) (List.length_replicate _ _)
    (replicate_zero_quiet _ _ (by norm_num)) (replicate_zero_quiet _ _ (by norm_num))
    (replicate_zero_quiet _ _ (by norm_num))

/-- C10 as stated fails at its own scenario: after the analysis of value 2 at
frames 1000 and 1020 (48 kHz, exclusive mode) the anchors are `(520, 1)`,
`(1000, 2)`, `(1020, 2)`, `(1500, 1)`, not `(540, 1)`, `(1020, 2)`,
`(1500, 1)`: the anchor at frame 1000 is still there. -/
theorem C10_coalesced_counterexample :
    (Process (Initialize 48000 true) twoPeaks).1.m_peaks =
        [(520, 1), (1000, 2), (1020, 2), (1500, 1)] ∧
      (Process (Initialize 48000 true) twoPeaks).1.m_peaks ≠
        [(1020 - (Initialize 48000 true).m_attackFrames, (Initialize 48000 true).m_limit),
         (1020, 2),
         (1020 + (Initialize 48000 true).m_releaseFrames, (Initialize 48000 true).m_limit)] ∧
      ((1000, 2) : Nat × ℚ) ∈ (Process (Initialize 48000 true) twoPeaks).1.m_peaks := by
  rw [twoPeaks_anchors]
  refine ⟨rfl, ?_, ?_⟩
  · intro h
    have h3 := congrArg List.length h
    simp at h3
  · simp

/-! ### The assertions of the frame loop of ModifyFirstChunk -/

theorem ProcessAsserts_pass (s : DspLimiter) (chunk : DspChunk)
    (h : chunk.frames = [] ∨ chunk.format ≠ DspFormat.Float) : ProcessAsserts s chunk = true := by
  unfold ProcessAsserts
  rw [if_neg]
  rcases h with h | h
  · simp [DspChunk.IsEmpty, h]
  · simp [DspChunk.GetFormat, h]

theorem ProcessAsserts_taken (s : DspLimiter) (chunk : DspChunk) (h1 : chunk.frames ≠ [])
    (h2 : chunk.format = DspFormat.Float) :
    ProcessAsserts s chunk =
      if due s chunk then ModifyFirstChunkAsserts (taken s chunk) else true := by
  unfold ProcessAsserts
  rw [if_pos (by simp [DspChunk.IsEmpty, DspChunk.GetFormat, h1, h2])]
  obtain ⟨_, _, _, hw, hc, hf, hb⟩ := taken_fields s chunk
  show (if (taken s chunk).m_bufferFrameCount -
      ((taken s chunk).m_buffer.headD DspChunk.empty).GetFrameCount ≥ (taken s chunk).m_windowFrames
    then ModifyFirstChunkAsserts (taken s chunk) else true) = _
  rw [hw, hc, hb]

/-- A chunk of frames at most `limit` that makes the front chunk due: the
assertions are those of the frame loop over the front chunk with the anchors as
they stand. -/
theorem ProcessAsserts_quiet_due (s : DspLimiter) (chunk first : DspChunk)
    (rest : List DspChunk) (front : Nat × ℚ) (tl : List (Nat × ℚ))
    (h1 : chunk.frames ≠ []) (h2 : chunk.format = DspFormat.Float)
    (hq : ∀ frame ∈ chunk.frames, frameSample frame ≤ s.m_limit)
    (hb : s.m_buffer = first :: rest) (hp : s.m_peaks = front :: tl)
    (hdue : s.m_bufferFrameCount + chunk.GetFrameCount - first.GetFrameCount ≥
      s.m_windowFrames) :
    ProcessAsserts s chunk =
      modifyAsserts
        (first.frames.drop
          (if s.m_bufferFirstFrame > front.1 then 0 else front.1 - s.m_bufferFirstFrame))
        s.m_peaks
        (s.m_bufferFirstFrame +
          (if s.m_bufferFirstFrame > front.1 then 0 else front.1 - s.m_bufferFirstFrame)) := by
  have hd : due s chunk := by
    simp only [due, hb, List.cons_append, List.headD_cons]
    exact hdue
  rw [ProcessAsserts_taken s chunk h1 h2, if_pos hd, taken_eq,
    analyzeFrames_quiet _ _ _ (by exact hq)]
  unfold ModifyFirstChunkAsserts
  simp only [hp, hb, List.cons_append]

theorem first_frame_peak_48k (quiet : List (List ℚ)) (hlen : quiet.length = 961)
    (hq : ∀ frame ∈ quiet, frameSample frame ≤ 1) :
    ProcessAsserts (run 48000 true [mono [2]]).1 ⟨DspFormat.Float, quiet⟩ = false := by
  have h0 : (run 48000 true [mono [2]]).1 =
      ⟨1, 480, 480, 961, [mono [2]], 1, 0, [(0, 1), (0, 2), (480, 1)]⟩ := by decide!
  rw [h0, ProcessAsserts_quiet_due _ ⟨DspFormat.Float, quiet⟩ (mono [2]) [] (0, 1)
    [(0, 2), (480, 1)] (by
      intro h
      have h' : quiet = [] := h
      rw [h'] at hlen
      cases hlen) rfl hq rfl rfl (by
      show 1 + quiet.length - (mono [2]).GetFrameCount ≥ 961
      rw [hlen]
      decide)]
  decide!

/-- C11 fails on the code: the assertions of the frame loop of
`ModifyFirstChunk` do fail.  A frame above `limit` at absolute frame 0 (48 kHz,
exclusive mode, the one-frame chunk `2` followed by 961 frames of silence)
seeds the anchors `(0, 1)`, `(0, 2)`, `(480, 1)`: the start of the attack ramp
is clamped to frame 0, the frame of the peak, so at frame 0
`assert(right.first > left.first)` fails and `f` divides by `0 - 0`.  Peaks
within the first `attackFrames + releaseFrames` frames (rate 200, the chunk
`0, 2, 2` followed by two chunks of five frames of silence) leave the anchors
`(3, 1)`, `(2, 2)` next to each other, since `peakFrame - m_attackFrames -
m_releaseFrames` wraps around: the same assertion fails at frame 4.  At a rate
below 100, where `attackFrames = releaseFrames = 0`, every peak has its three
anchors at one frame. -/
theorem C11_assertions_fail :
    (run 48000 true [mono [2]]).1.m_peaks = [(0, 1), (0, 2), (480, 1)] ∧
      runAsserts 48000 true [mono [2], ⟨DspFormat.Float, List.replicate 961 [0]⟩] = false ∧
      (run 200 true [mono [0, 2, 2], mono [0, 0, 0, 0, 0]]).1.m_peaks =
        [(1, 2), (3, 1), (2, 2), (4, 1)] ∧
      runAsserts 200 true [mono [0, 2, 2], mono [0, 0, 0, 0, 0], mono [0, 0, 0, 0, 0]] =
        false ∧
      (run 50 true [mono [0, 0, 0, 0, 0, 2]]).1.m_peaks = [(5, 1), (5, 2), (5, 1)] ∧
      runAsserts 50 true [mono [0, 0, 0, 0, 0, 2], mono [0]] = false := by
  have h48 := first_frame_peak_48k (List.replicate 961 [0]) (List.length_replicate _ _)
    (replicate_zero_quiet _ _ (by norm_num))
  refine ⟨by decide!, ?_, by decide!, by decide!, by decide!, by decide!⟩
  show (ProcessAsserts (Initialize 48000 true) (mono [2]) &&
    (ProcessAsserts (run 48000 true [mono [2]]).1 ⟨DspFormat.Float, List.replicate 961 [0]⟩ &&
      true)) = false
  rw [h48]
  simp

/-! ### The assertions away from the start of the stream -/

theorem modifyAsserts_of_increasing (frames : List (List ℚ)) (peaks : List (Nat × ℚ))
    (absFrame : Nat) (hinc : increasing peaks) (hlen : 2 ≤ peaks.length)
    (hahead : ∀ left right tail, peaks = left :: right :: tail → absFrame ≤ right.1) :
    modifyAsserts frames peaks absFrame = true := by
  induction frames generalizing peaks absFrame with
  | nil => rfl
  | cons frame rest ih =>
    match peaks, hlen with
    | left :: right :: tail, _ =>
      have hr := hahead left right tail rfl
      have hlr : left.1 < right.1 := by
        have := List.rel_of_pairwise_cons hinc (List.mem_cons_self right tail)
        exact this
      have hinc' : increasing (right :: tail) := List.Pairwise.of_cons hinc
      simp only [modifyAsserts, gt_iff_lt, hlr, decide_True, Bool.true_and]
      by_cases h : right.1 ≤ absFrame
      · have he : right.1 = absFrame := le_antisymm h hr
        rw [if_pos h]
        simp only [he, decide_True, Bool.true_and]
        by_cases h1 : tail.length + 1 = 1
        · rw [if_pos h1]
        · rw [if_neg h1]
          apply ih (right :: tail) (absFrame + 1) hinc'
          · simp only [List.length_cons]; omega
          · intro l r t hp
            cases hp
            have := List.rel_of_pairwise_cons hinc' (List.mem_cons_self r t)
            omega
      · rw [if_neg h]
        apply ih (left :: right :: tail) (absFrame + 1) hinc (by simp)
        intro l r t hp
        cases hp
        omega

theorem modifyFrames_ahead (limit : ℚ) (frames : List (List ℚ)) (peaks : List (Nat × ℚ))
    (absFrame : Nat) (hinc : increasing peaks) (hlen : 2 ≤ peaks.length)
    (hahead : ∀ left right tail, peaks = left :: right :: tail → absFrame ≤ right.1) :
    ∀ left right tail, (modifyFrames limit frames peaks absFrame).2 = left :: right :: tail →
      absFrame + frames.length ≤ right.1 := by
  induction frames generalizing peaks absFrame with
  | nil =>
    intro l r t hp
    exact hahead l r t hp
  | cons frame rest ih =>
    match peaks, hlen with
    | left :: right :: tail, _ =>
      have hr := hahead left right tail rfl
      have hinc' : increasing (right :: tail) := List.Pairwise.of_cons hinc
      simp only [modifyFrames, List.length_cons]
      by_cases h : right.1 ≤ absFrame
      · have he : right.1 = absFrame := le_antisymm h hr
        rw [if_pos h]
        by_cases h1 : tail.length + 1 = 1
        · rw [if_pos h1]
          intro l r t hp
          cases hp
        · rw [if_neg h1]
          intro l r t hp
          have := ih (right :: tail) (absFrame + 1) hinc'
            (by simp only [List.length_cons]; omega)
            (by
              intro l' r' t' hp'
              cases hp'
              have := List.rel_of_pairwise_cons hinc' (List.mem_cons_self r' t')
              omega) l r t hp
          omega
      · rw [if_neg h]
        intro l r t hp
        have := ih (left :: right :: tail) (absFrame + 1) hinc (by simp)
          (by
            intro l' r' t' hp'
            cases hp'
            omega) l r t hp
        omega

theorem ModifyFirstChunkAsserts_of_increasing (s : DspLimiter)
    (hlen : s.m_peaks = [] ∨ 2 ≤ s.m_peaks.length) (hinc : increasing s.m_peaks)
    (hahead : ahead s) : ModifyFirstChunkAsserts s = true := by
  unfold ModifyFirstChunkAsserts
  split
  · rename_i front tl chunk rest hp hb
    have hlen2 : 2 ≤ s.m_peaks.length := by
      rcases hlen with h | h
      · rw [h] at hp; cases hp
      · exact h
    apply modifyAsserts_of_increasing _ _ _ hinc hlen2
    intro l r t hlrt
    have h1 := hahead l r t hlrt
    have hfl : front = l := by
      rw [hp] at hlrt
      exact (List.cons.inj hlrt).1
    have h2 : l.1 < r.1 := by
      have hinc' := hinc
      rw [hlrt] at hinc'
      exact List.rel_of_pairwise_cons hinc' (List.mem_cons_self r t)
    rw [hfl]
    split <;> omega
  · rfl

theorem ModifyFirstChunk_ahead (s : DspLimiter)
    (hlen : s.m_peaks = [] ∨ 2 ≤ s.m_peaks.length) (hinc : increasing s.m_peaks)
    (hahead : ahead s) :
    ∀ left right tail, (ModifyFirstChunk s).m_peaks = left :: right :: tail →
      s.m_bufferFirstFrame + (s.m_buffer.headD DspChunk.empty).GetFrameCount ≤ right.1 := by
  unfold ModifyFirstChunk
  split
  · rename_i front tl chunk rest hp hb
    have hlen2 : 2 ≤ s.m_peaks.length := by
      rcases hlen with h | h
      · rw [h] at hp; cases hp
      · exact h
    intro l r t hlrt
    have key := modifyFrames_ahead s.m_limit
      (chunk.frames.drop
        (if s.m_bufferFirstFrame > front.1 then 0 else front.1 - s.m_bufferFirstFrame))
      s.m_peaks
      (s.m_bufferFirstFrame +
        (if s.m_bufferFirstFrame > front.1 then 0 else front.1 - s.m_bufferFirstFrame))
      hinc hlen2
      (by
        intro l' r' t' hlrt'
        have h1 := hahead l' r' t' hlrt'
        have hfl : front = l' := by
          rw [hp] at hlrt'
          exact (List.cons.inj hlrt').1
        have h2 : l'.1 < r'.1 := by
          have hinc' := hinc
          rw [hlrt'] at hinc'
          exact List.rel_of_pairwise_cons hinc' (List.mem_cons_self r' t')
        rw [hfl]
        split <;> omega) l r t hlrt
    rw [hb]
    simp only [List.headD_cons, DspChunk.GetFrameCount, List.length_drop] at key ⊢
    split at key <;> omega
  · intro l r t hlrt
    have h1 := hahead l r t hlrt
    rename_i hne
    cases hb : s.m_buffer with
    | nil => simpa [DspChunk.empty, DspChunk.GetFrameCount] using h1
    | cons chunk rest =>
      cases hp : s.m_peaks with
      | nil =>
        have hlrt' : s.m_peaks = l :: r :: t := hlrt
        rw [hp] at hlrt'
        cases hlrt'
      | cons front tl => exact absurd hb (hne front tl chunk rest hp)

theorem analyzeFrame_first (s : DspLimiter) (pf : Nat) (frame : List ℚ) :
    (analyzeFrame s pf frame).m_bufferFirstFrame = s.m_bufferFirstFrame := by
  have h := analyzeFrame_eq s pf frame
  generalize analyzeFrame s pf frame = t at h
  rw [h]

theorem analyzeFrame_ahead (s : DspLimiter) (pf : Nat) (frame : List ℚ)
    (h : anchoredAt s pf) (hahead : ahead s) (hpf : s.m_bufferFirstFrame ≤ pf) :
    ahead (analyzeFrame s pf frame) := by
  unfold ahead
  rw [analyzeFrame_first]
  rcases analyzeFrame_cases s pf frame h with hc | ⟨_, _, hc⟩ | ⟨_, pre, q, sq, hp, _, _, _, hc⟩
  · rw [hc]; exact hahead
  · rw [hc]
    intro l r t hlrt
    cases hlrt
    exact hpf
  · rw [hc]
    have hsuf := dropDominated_suffix s.m_attackFrames s.m_releaseFrames pf (frameSample frame)
      ((q + s.m_releaseFrames, s.m_limit) :: (q, sq) :: pre.reverse)
    have hprefix : (dropDominated s.m_attackFrames s.m_releaseFrames pf (frameSample frame)
        ((q + s.m_releaseFrames, s.m_limit) :: (q, sq) :: pre.reverse)).reverse <+:
        s.m_peaks := by
      have := List.reverse_prefix.2 hsuf
      rw [hp]
      simpa using this
    generalize (dropDominated s.m_attackFrames s.m_releaseFrames pf (frameSample frame)
      ((q + s.m_releaseFrames, s.m_limit) :: (q, sq) :: pre.reverse)).reverse = kept
      at hprefix
    intro l r t hlrt
    match kept, hprefix with
    | [], _ =>
      cases hlrt
      exact Nat.le_trans hpf (Nat.le_add_right _ _)
    | [x], _ =>
      cases hlrt
      exact hpf
    | x :: y :: z, hpre =>
      cases hlrt
      obtain ⟨w, hw⟩ := hpre
      exact hahead l r (z ++ w) (by rw [← hw]; simp)

theorem analyzeFrames_first (s : DspLimiter) (n : Nat) (frames : List (List ℚ)) :
    (analyzeFrames s n frames).m_bufferFirstFrame = s.m_bufferFirstFrame := by
  have h := analyzeFrames_eq s n frames
  generalize analyzeFrames s n frames = t at h
  rw [h]

theorem analyzeFrames_ahead (s : DspLimiter) (n : Nat) (frames : List (List ℚ))
    (h : anchoredAt s n) (hahead : ahead s) (hn : s.m_bufferFirstFrame ≤ n) :
    ahead (analyzeFrames s n frames) := by
  induction frames generalizing s n with
  | nil => exact hahead
  | cons frame rest ih =>
    simp only [analyzeFrames]
    exact ih (analyzeFrame s n frame) (n + 1) (analyzeFrame_anchored s n frame h)
      (analyzeFrame_ahead s n frame h hahead hn)
      (by rw [analyzeFrame_first]; exact Nat.le_succ_of_le hn)

theorem taken_ahead (s : DspLimiter) (chunk : DspChunk)
    (h : anchoredAt s (s.m_bufferFirstFrame + s.m_bufferFrameCount)) (hahead : ahead s) :
    ahead (taken s chunk) := by
  rw [taken_eq]
  exact analyzeFrames_ahead { s with
      m_bufferFrameCount := s.m_bufferFrameCount + chunk.GetFrameCount
      m_buffer := s.m_buffer ++ [chunk] }
    (s.m_bufferFirstFrame + s.m_bufferFrameCount) chunk.frames h hahead (Nat.le_add_right _ _)

theorem taken_increasing (s : DspLimiter) (chunk : DspChunk) (k : Nat)
    (h : anchoredAt s (s.m_bufferFirstFrame + s.m_bufferFrameCount))
    (hinc : increasing s.m_peaks)
    (ha : 1 ≤ s.m_attackFrames) (hr : 1 ≤ s.m_releaseFrames)
    (hquiet : quietFor s.m_limit k chunk.frames)
    (hk : s.m_attackFrames + s.m_releaseFrames ≤ s.m_bufferFirstFrame + s.m_bufferFrameCount + k) :
    increasing (taken s chunk).m_peaks := by
  rw [taken_eq]
  exact analyzeFrames_increasing { s with
      m_bufferFrameCount := s.m_bufferFrameCount + chunk.GetFrameCount
      m_buffer := s.m_buffer ++ [chunk] }
    (s.m_bufferFirstFrame + s.m_bufferFrameCount) k chunk.frames h hinc ha hr hquiet hk

/-- With `f` computed exactly, one `Process` call away from the start of the
stream: no assertion of the frame loop of `ModifyFirstChunk` fails, and the
second anchor stays ahead of the front of the buffer. -/
theorem Process_asserts (s : DspLimiter) (chunk : DspChunk) (k : Nat)
    (h : anchoredAt s (s.m_bufferFirstFrame + s.m_bufferFrameCount))
    (habove : ∀ x ∈ s.m_peaks, s.m_limit ≤ x.2)
    (hinc : increasing s.m_peaks) (hahead : ahead s)
    (ha : 1 ≤ s.m_attackFrames) (hr : 1 ≤ s.m_releaseFrames)
    (hquiet : quietFor s.m_limit k chunk.frames)
    (hk : s.m_attackFrames + s.m_releaseFrames ≤ s.m_bufferFirstFrame + s.m_bufferFrameCount + k) :
    ProcessAsserts s chunk = true ∧ ahead (Process s chunk).1 := by
  by_cases hacc : chunk.frames ≠ [] ∧ chunk.format = DspFormat.Float
  · have hTlen := anchoredAt_length _ _ (taken_anchored s chunk h habove).1
    have hTinc := taken_increasing s chunk k h hinc ha hr hquiet hk
    have hTahead := taken_ahead s chunk h hahead
    obtain ⟨_, _, _, _, _, tf, tb⟩ := taken_fields s chunk
    rw [ProcessAsserts_taken s chunk hacc.1 hacc.2, Process_taken s chunk hacc.1 hacc.2]
    split
    · refine ⟨ModifyFirstChunkAsserts_of_increasing _ hTlen hTinc hTahead, ?_⟩
      have key := ModifyFirstChunk_ahead (taken s chunk) hTlen hTinc hTahead
      rw [tf, tb] at key
      exact key
    · exact ⟨rfl, hTahead⟩
  · rw [ProcessAsserts_pass s chunk (by tauto), Process_pass s chunk (by tauto)]
    exact ⟨rfl, hahead⟩

theorem assertsAll_of_quiet_start (s : DspLimiter) (chunks : List DspChunk) (k : Nat)
    (hinv : s.m_bufferFrameCount = frameTotal s.m_buffer)
    (h : anchoredAt s (s.m_bufferFirstFrame + s.m_bufferFrameCount))
    (habove : ∀ x ∈ s.m_peaks, s.m_limit ≤ x.2)
    (hinc : increasing s.m_peaks) (hahead : ahead s)
    (ha : 1 ≤ s.m_attackFrames) (hr : 1 ≤ s.m_releaseFrames)
    (hquiet : quietFor s.m_limit k (floatFrames chunks))
    (hk : s.m_attackFrames + s.m_releaseFrames ≤ s.m_bufferFirstFrame + s.m_bufferFrameCount + k) :
    assertsAll s chunks = true := by
  induction chunks generalizing s k with
  | nil => rfl
  | cons chunk rest ih =>
    obtain ⟨hl, hat, hrel, _⟩ := Process_fields s chunk
    obtain ⟨p1, p2⟩ := Process_anchored s chunk hinv h habove
    have hinv' := (Process_frames s chunk hinv).2.1
    simp only [assertsAll, Bool.and_eq_true]
    by_cases hfloat : chunk.format = DspFormat.Float
    · have hq : quietFor s.m_limit k (chunk.frames ++ floatFrames rest) := by
        simpa [floatFrames, hfloat] using hquiet
      obtain ⟨q1, q2⟩ := quietFor_append _ _ _ _ hq
      have hnext := Process_next s chunk hinv hfloat
      obtain ⟨a1, a2⟩ := Process_asserts s chunk k h habove hinc hahead ha hr q1 hk
      refine ⟨a1, ?_⟩
      exact ih (Process s chunk).1 (k - chunk.frames.length) hinv' p1 (by rw [hl]; exact p2)
        (Process_increasing s chunk k h habove hinc ha hr q1 hk) a2
        (by rw [hat]; exact ha) (by rw [hrel]; exact hr) (by rw [hl]; exact q2)
        (by rw [hat, hrel, hnext]; simp only [DspChunk.GetFrameCount]; omega)
    · have hq : quietFor s.m_limit k (floatFrames rest) := by
        simpa [floatFrames, hfloat] using hquiet
      have hpass := Process_pass s chunk (Or.inr hfloat)
      refine ⟨ProcessAsserts_pass s chunk (Or.inr hfloat), ?_⟩
      rw [hpass]
      exact ih s k hinv h habove hinc hahead ha hr hq hk

/-- With `f` computed exactly, the assertions hold away from the start of the
stream: when `rate ≥ 100` and none of the first `attackFrames + releaseFrames`
frames exceeds `limit`, no assertion of the frame loop of `ModifyFirstChunk`
fails in any `Process` call of the run, so every interpolation is between two
anchors at different frames and an anchor is dropped at the very frame of the
next one.  This rests on `ramp_end_dominated` and says nothing of a run in
which the rounded `f` of the code decides a comparison the other way. -/
theorem runAsserts_of_quiet_start (rate : Nat) (exclusive : Bool) (chunks : List DspChunk)
    (hrate : 100 ≤ rate)
    (hquiet : quietFor (Initialize rate exclusive).m_limit (rate / 100 + rate / 100)
      (floatFrames chunks)) :
    runAsserts rate exclusive chunks = true := by
  have h100 : 1 ≤ rate / 100 := (Nat.one_le_div_iff (by norm_num)).2 hrate
  exact assertsAll_of_quiet_start (Initialize rate exclusive) chunks (rate / 100 + rate / 100)
    rfl (Or.inl rfl) (by simp [Initialize]) List.Pairwise.nil
    (by intro l r t hp; cases hp) h100 h100 hquiet (by simp [Initialize])

end DspLimiter

/-! ## Properties of the renderer -/

namespace AudioRenderer

/-! ### EndFlush -/

theorem EndFlush_live (r : AudioRenderer) (h : r.m_live = true) :
    EndFlush r = { r with m_flush := false } := by
  unfold EndFlush
  simp [h]

theorem EndFlush_no_device (r : AudioRenderer) (h : r.m_device = none) :
    EndFlush r = { r with m_flush := false } := by
  unfold EndFlush
  cases hl : r.m_live <;> simp [h, hl]

theorem EndFlush_device (r : AudioRenderer) (device : AudioDevice) (hl : r.m_live = false)
    (h : r.m_device = some device) :
    EndFlush r = { r with
      calls := r.calls ++ [Call.DeviceReset, Call.NewDeviceBuffer]
      m_flush := false } := by
  unfold EndFlush
  simp [h, hl]

theorem eq_of_flush_clear (r : AudioRenderer) (h : r.m_flush = false) :
    { r with m_flush := false } = r := by
  cases r
  simp_all

/-- C6, as the code has it.  `EndFlush` on a clear flush event leaves the
renderer as it is when the source is live or there is no device.  With a
device and a source that is not live it does what every `EndFlush` does: it
resets the device and tells the sample correction of the new device buffer;
nothing else changes. -/
theorem C6_endflush_without_beginflush (r : AudioRenderer) (hflush : r.m_flush = false) :
    (r.m_live = true ∨ r.m_device = none → EndFlush r = r) ∧
    (r.m_live = false → r.m_device ≠ none →
      EndFlush r = { r with calls := r.calls ++ [Call.DeviceReset, Call.NewDeviceBuffer] } ∧
      EndFlush r ≠ r) := by
  constructor
  · rintro (h | h)
    · rw [EndFlush_live r h, eq_of_flush_clear r hflush]
    · rw [EndFlush_no_device r h, eq_of_flush_clear r hflush]
  · intro hl hd
    obtain ⟨device, hdev⟩ := Option.ne_none_iff_exists'.1 hd
    rw [EndFlush_device r device hl hdev]
    constructor
    · cases r
      simp_all
    · intro h
      have := congrArg (fun x => x.calls.length) h
      simp at this

/-- C6 at a running renderer of a live source with a device. -/
theorem C6_endflush_without_beginflush_witness : EndFlush liveRenderer = liveRenderer :=
  (C6_endflush_without_beginflush liveRenderer rfl).1 (Or.inl rfl)

/-- C6 as stated fails: a paused renderer of a source that is not live, with a
device and the flush event clear, has its device reset and its sample
correction notified by `EndFlush`. -/
theorem C6_endflush_counterexample :
    pausedRenderer.m_flush = false ∧
      (EndFlush pausedRenderer).calls = [Call.DeviceReset, Call.NewDeviceBuffer] ∧
      EndFlush pausedRenderer ≠ pausedRenderer := by
  refine ⟨rfl, rfl, ?_⟩
  intro h
  have := congrArg (fun x => x.calls.length) h
  simp [EndFlush, pausedRenderer] at this

/-! ### Live sources -/

theorem filter_steers_append (xs ys : List Call) (h : ∀ c ∈ ys, steersClock c = false) :
    (xs ++ ys).filter steersClock = xs.filter steersClock := by
  have hy : ys.filter steersClock = [] :=
    List.filter_eq_nil_iff.2 (fun c hc => by simp [h c hc])
  rw [List.filter_append, hy, List.append_nil]

theorem ClearDevice_quiet (r : AudioRenderer) :
    (ClearDevice r).m_live = r.m_live ∧
      (ClearDevice r).calls.filter steersClock = r.calls.filter steersClock ∧
      (ClearDevice r).m_dspLimiter = r.m_dspLimiter := by
  unfold ClearDevice
  split
  · refine ⟨rfl, ?_, rfl⟩
    exact filter_steers_append _ _ (by simp [steersClock])
  · exact ⟨rfl, rfl, rfl⟩

theorem CheckDeviceSettings_cases (r : AudioRenderer) (settings : Settings) :
    CheckDeviceSettings r settings = r ∨
      CheckDeviceSettings r settings = ClearDevice r ∨
      CheckDeviceSettings r settings =
        { r with m_deviceSettingsSerial := settings.GetSerial } := by
  unfold CheckDeviceSettings
  cases hd : r.m_device with
  | none => exact Or.inl rfl
  | some device =>
    by_cases hs : r.m_deviceSettingsSerial = settings.GetSerial
    · left; simp [hs]
    · cases ho : settings.GetOuputDevice with
      | none => left; simp [hs]
      | some out =>
        obtain ⟨pDeviceName, exclusive, buffer⟩ := out
        cases hm : settingsDiffer device pDeviceName exclusive buffer
        · right; right; simp [hs, hm]
        · right; left; simp [hs, hm]

theorem CheckDeviceSettings_quiet (r : AudioRenderer) (settings : Settings) :
    (CheckDeviceSettings r settings).m_live = r.m_live ∧
      (CheckDeviceSettings r settings).calls.filter steersClock = r.calls.filter steersClock ∧
      (CheckDeviceSettings r settings).m_dspLimiter = r.m_dspLimiter := by
  rcases CheckDeviceSettings_cases r settings with h | h | h <;> rw [h]
  · exact ⟨rfl, rfl, rfl⟩
  · exact ClearDevice_quiet r
  · exact ⟨rfl, rfl, rfl⟩

theorem StartDevice_quiet (r : AudioRenderer) (h : r.m_live = true) :
    (StartDevice r).m_live = true ∧
      (StartDevice r).calls.filter steersClock = r.calls.filter steersClock := by
  unfold StartDevice
  split
  · simp only [h, Bool.not_true, Bool.false_eq_true, if_false]
    exact ⟨trivial, filter_steers_append _ _ (by simp [steersClock])⟩
  · exact ⟨h, rfl⟩

theorem InitializeProcessors_quiet (r : AudioRenderer) :
    (InitializeProcessors r).m_live = r.m_live ∧
      (InitializeProcessors r).calls = r.calls ∧
      (InitializeProcessors r).m_state = r.m_state ∧
      (InitializeProcessors r).m_device = r.m_device := by
  unfold InitializeProcessors
  split
  · split <;> exact ⟨rfl, rfl, rfl, rfl⟩
  · exact ⟨rfl, rfl, rfl, rfl⟩

theorem CreateDevice_quiet (r : AudioRenderer) (settings : Settings)
    (created : Option (Option AudioDevice)) (lastSampleEnd : Int) (h : r.m_live = true) :
    (CreateDevice r settings created lastSampleEnd).1.m_live = true ∧
      (CreateDevice r settings created lastSampleEnd).1.calls.filter steersClock =
        r.calls.filter steersClock := by
  unfold CreateDevice
  split
  · exact ⟨h, rfl⟩
  · exact ⟨h, rfl⟩
  · rename_i device
    obtain ⟨il, ic, _, _⟩ := InitializeProcessors_quiet
      { r with
        m_deviceSettingsSerial := settings.GetSerial
        m_device := some device
        calls := r.calls ++ [Call.NewDeviceBuffer] }
    have hbase : ({ InitializeProcessors
        { r with
          m_deviceSettingsSerial := settings.GetSerial
          m_device := some device
          calls := r.calls ++ [Call.NewDeviceBuffer] } with
        m_startClockOffset := lastSampleEnd } : AudioRenderer).calls.filter steersClock =
        r.calls.filter steersClock := by
      show (InitializeProcessors _).calls.filter steersClock = _
      rw [ic]
      exact filter_steers_append _ _ (by simp [steersClock])
    have hlive : ({ InitializeProcessors
        { r with
          m_deviceSettingsSerial := settings.GetSerial
          m_device := some device
          calls := r.calls ++ [Call.NewDeviceBuffer] } with
        m_startClockOffset := lastSampleEnd } : AudioRenderer).m_live = true := by
      show (InitializeProcessors _).m_live = true
      rw [il]
      exact h
    dsimp only
    split
    · obtain ⟨s1, s2⟩ := StartDevice_quiet _ hlive
      exact ⟨s1, s2.trans hbase⟩
    · exact ⟨hlive, hbase⟩

theorem enqueueTry_quiet (r : AudioRenderer) (env : EnqueueEnv) (h : r.m_live = true) :
    (enqueueTry r env).1.m_live = true ∧
      (enqueueTry r env).1.calls.filter steersClock = r.calls.filter steersClock := by
  obtain ⟨c1, c2, _⟩ := CheckDeviceSettings_quiet r env.settings
  have hl1 : (CheckDeviceSettings r env.settings).m_live = true := c1.trans h
  -- the state after device creation
  have h2 : ∀ r2 : AudioRenderer × Bool,
      r2 = (if (CheckDeviceSettings r env.settings).m_device.isNone then
          CreateDevice (CheckDeviceSettings r env.settings) env.settings env.created
            env.lastSampleEnd
        else (CheckDeviceSettings r env.settings, true)) →
      r2.1.m_live = true ∧ r2.1.calls.filter steersClock = r.calls.filter steersClock := by
    intro r2 hr2
    rw [hr2]
    split
    · obtain ⟨d1, d2⟩ := CreateDevice_quiet (CheckDeviceSettings r env.settings) env.settings
        env.created env.lastSampleEnd hl1
      exact ⟨d1, d2.trans c2⟩
    · exact ⟨hl1, c2⟩
  unfold enqueueTry
  dsimp only
  generalize (if (CheckDeviceSettings r env.settings).m_device.isNone then
      CreateDevice (CheckDeviceSettings r env.settings) env.settings env.created
        env.lastSampleEnd
    else (CheckDeviceSettings r env.settings, true)) = r2 at h2
  obtain ⟨l2, f2⟩ := h2 r2 rfl
  have f3 : (r2.1.calls ++ [Call.ProcessSample]).filter steersClock =
      r.calls.filter steersClock :=
    (filter_steers_append _ _ (by simp [steersClock])).trans f2
  split
  · exact ⟨l2, f2⟩
  · split
    · exact ⟨l2, f3⟩
    · simp only [l2, Bool.not_true, Bool.false_eq_true, false_and, if_false]
      split
      · split
        · split
          · exact ⟨rfl, f3⟩
          · exact ⟨rfl, f3⟩
        · exact ⟨rfl, f3⟩
      · exact ⟨rfl, f3⟩

theorem enqueueLocked_quiet (r : AudioRenderer) (env : EnqueueEnv) (h : r.m_live = true) :
    (enqueueLocked r env).1.m_live = true ∧
      (enqueueLocked r env).1.calls.filter steersClock = r.calls.filter steersClock := by
  obtain ⟨t1, t2⟩ := enqueueTry_quiet r env h
  unfold enqueueLocked
  dsimp only
  split
  · exact ⟨t1, t2⟩
  · obtain ⟨c1, c2, _⟩ := ClearDevice_quiet (enqueueTry r env).1
    exact ⟨c1.trans t1, c2.trans t2⟩

theorem Push_quiet (r : AudioRenderer) (chunk : DspChunk) (filledEvent : Bool)
    (lastSampleEnd : Int) (firstIteration : Bool) (steps : List PushStep) :
    (Push r chunk filledEvent lastSampleEnd firstIteration steps).1.m_live = r.m_live ∧
      (Push r chunk filledEvent lastSampleEnd firstIteration steps).1.calls.filter steersClock =
        r.calls.filter steersClock ∧
      (Push r chunk filledEvent lastSampleEnd firstIteration steps).1.m_dspLimiter =
        r.m_dspLimiter := by
  induction steps generalizing r chunk firstIteration with
  | nil => exact ⟨rfl, rfl, rfl⟩
  | cons step rest ih =>
    unfold Push
    split
    · exact ⟨rfl, rfl, rfl⟩
    · have hr1 : ∀ r1 : AudioRenderer,
          r1 = (if step.flushed then { r with m_flush := true } else r) →
          r1.m_live = r.m_live ∧ r1.calls = r.calls ∧ r1.m_dspLimiter = r.m_dspLimiter := by
        intro r1 h1
        rw [h1]
        split <;> exact ⟨rfl, rfl, rfl⟩
      dsimp only
      generalize (if step.flushed then { r with m_flush := true } else r) = r1 at hr1
      obtain ⟨l1, k1, m1⟩ := hr1 r1 rfl
      split
      · exact ⟨l1, by rw [k1], m1⟩
      · split
        · split
          · obtain ⟨i1, i2, i3⟩ := ih { r1 with calls := r1.calls ++ [Call.DevicePush] }
              (by assumption) false
            refine ⟨i1.trans l1, i2.trans ?_, i3.trans m1⟩
            rw [← k1]
            exact filter_steers_append _ _ (by simp [steersClock])
          · obtain ⟨i1, i2, i3⟩ := ih
              (ClearDevice { r1 with calls := r1.calls ++ [Call.DevicePush] }) chunk false
            obtain ⟨c1, c2, c3⟩ := ClearDevice_quiet
              { r1 with calls := r1.calls ++ [Call.DevicePush] }
            refine ⟨(i1.trans c1).trans l1, (i2.trans c2).trans ?_, (i3.trans c3).trans m1⟩
            rw [← k1]
            exact filter_steers_append _ _ (by simp [steersClock])
        · have hr2 : ∀ r2 : AudioRenderer,
              r2 = (if filledEvent then
                  { r1 with calls := r1.calls ++ [Call.FilledEventSet] } else r1) →
              r2.m_live = r.m_live ∧
                r2.calls.filter steersClock = r.calls.filter steersClock ∧
                r2.m_dspLimiter = r.m_dspLimiter := by
            intro r2 h2
            rw [h2]
            split
            · refine ⟨l1, ?_, m1⟩
              rw [← k1]
              exact filter_steers_append _ _ (by simp [steersClock])
            · exact ⟨l1, by rw [k1], m1⟩
          generalize (if filledEvent then
              { r1 with calls := r1.calls ++ [Call.FilledEventSet] } else r1) = r2 at hr2
          obtain ⟨l2, k2, m2⟩ := hr2 r2 rfl
          split
          · exact ⟨l2, k2, m2⟩
          · obtain ⟨i1, i2, i3⟩ := ih r2 chunk false
            exact ⟨i1.trans l2, i2.trans k2, i3.trans m2⟩

theorem Enqueue_quiet (r : AudioRenderer) (env : EnqueueEnv) (h : r.m_live = true) :
    (Enqueue r env).1.m_live = true ∧
      (Enqueue r env).1.calls.filter steersClock = r.calls.filter steersClock := by
  obtain ⟨l1, l2⟩ := enqueueLocked_quiet r env h
  obtain ⟨p1, p2, _⟩ := Push_quiet (enqueueLocked r env).1 (enqueueLocked r env).2
    env.filledEvent env.lastSampleEnd true env.push
  exact ⟨p1.trans l1, p2.trans l2⟩

theorem Play_quiet (r : AudioRenderer) (startTime : Int) (h : r.m_live = true) :
    (Play r startTime).m_live = true ∧
      (Play r startTime).calls.filter steersClock = r.calls.filter steersClock :=
  StartDevice_quiet { r with m_state := FilterState.State_Running, m_startTime := startTime } h

theorem NewSegment_quiet (r : AudioRenderer) (rate : ℚ) (h : r.m_live = true) :
    (NewSegment r rate).m_live = true ∧
      (NewSegment r rate).calls.filter steersClock = r.calls.filter steersClock := by
  unfold NewSegment
  dsimp only
  split
  · obtain ⟨i1, i2, _⟩ := InitializeProcessors_quiet { r with
      m_startClockOffset := 0
      m_rate := rate
      calls := r.calls ++ [Call.NewSegment] }
    rw [i1, i2]
    exact ⟨h, filter_steers_append _ _ (by simp [steersClock])⟩
  · exact ⟨h, filter_steers_append _ _ (by simp [steersClock])⟩

theorem Pause_quiet (r : AudioRenderer) (h : r.m_live = true) :
    (Pause r).m_live = true ∧
      (Pause r).calls.filter steersClock = r.calls.filter steersClock := by
  unfold Pause
  dsimp only
  split
  · exact ⟨h, filter_steers_append _ _ (by simp [steersClock])⟩
  · exact ⟨h, rfl⟩

theorem step_quiet (r : AudioRenderer) (op : Op) (h : r.m_live = true) (hop : op.keepsLive) :
    (step r op).m_live = true ∧
      (step r op).calls.filter steersClock = r.calls.filter steersClock := by
  cases op with
  | SetFormat inputFormat live =>
    have hl : live = true := hop
    obtain ⟨c1, c2, _⟩ := ClearDevice_quiet { r with
      m_inputFormat := some inputFormat
      m_live := live
      calls := r.calls ++ [Call.NewFormat] }
    exact ⟨c1.trans hl, c2.trans (filter_steers_append _ _ (by simp [steersClock]))⟩
  | NewSegment rate => exact NewSegment_quiet r rate h
  | Play startTime => exact Play_quiet r startTime h
  | Pause => exact Pause_quiet r h
  | Stop =>
    obtain ⟨c1, c2, _⟩ := ClearDevice_quiet { r with m_state := FilterState.State_Stopped }
    exact ⟨c1.trans h, c2⟩
  | Enqueue env => exact Enqueue_quiet r env h
  | BeginFlush => exact ⟨h, rfl⟩
  | EndFlush =>
    show (EndFlush r).m_live = true ∧
      (EndFlush r).calls.filter steersClock = r.calls.filter steersClock
    rw [EndFlush_live r h]
    exact ⟨h, rfl⟩

theorem steps_quiet (r : AudioRenderer) (ops : List Op) (h : r.m_live = true)
    (hops : ∀ op ∈ ops, op.keepsLive) :
    (steps r ops).m_live = true ∧
      (steps r ops).calls.filter steersClock = r.calls.filter steersClock := by
  induction ops generalizing r with
  | nil => exact ⟨h, rfl⟩
  | cons op rest ih =>
    obtain ⟨s1, s2⟩ := step_quiet r op h (hops op (List.mem_cons_self _ _))
    obtain ⟨i1, i2⟩ := ih (step r op) s1 (fun o ho => hops o (List.mem_cons_of_mem _ ho))
    exact ⟨i1, i2.trans s2⟩

/-- C7: a live source is never steered.  Start from any renderer whose source
is live and apply any operations that keep it live (`SetFormat` to a live
source, `NewSegment`, `Play`, `Pause`, `Stop`, `Enqueue`, `BeginFlush`,
`EndFlush`).  The source is still live, and no call of `SlaveClockToAudio` or
`OffsetSlavedClock` has been added to the record of calls; in the state
reached neither `Play`, nor device creation, nor `Enqueue` adds one, and
`EndFlush` changes nothing but the flush event, which it clears: no device
reset, no notification of the sample correction. -/
theorem C7_live_source_not_steered (r : AudioRenderer) (ops : List Op)
    (hlive : r.m_live = true) (hops : ∀ op ∈ ops, op.keepsLive)
    (startTime lastSampleEnd : Int) (settings : Settings)
    (created : Option (Option AudioDevice)) (env : EnqueueEnv) :
    (steps r ops).m_live = true ∧
    (steps r ops).calls.filter steersClock = r.calls.filter steersClock ∧
    (Play (steps r ops) startTime).calls.filter steersClock =
      (steps r ops).calls.filter steersClock ∧
    (CreateDevice (steps r ops) settings created lastSampleEnd).1.calls.filter steersClock =
      (steps r ops).calls.filter steersClock ∧
    (Enqueue (steps r ops) env).1.calls.filter steersClock =
      (steps r ops).calls.filter steersClock ∧
    EndFlush (steps r ops) = { steps r ops with m_flush := false } := by
  obtain ⟨h1, h2⟩ := steps_quiet r ops hlive hops
  exact ⟨h1, h2, (Play_quiet _ startTime h1).2,
    (CreateDevice_quiet _ settings created lastSampleEnd h1).2, (Enqueue_quiet _ env h1).2,
    EndFlush_live _ h1⟩

/-- C7 at a running renderer of a live source with a device, after `Pause`,
`Play`, an `Enqueue` and `EndFlush`: no call steering the clock was made. -/
theorem C7_live_source_not_steered_witness :
    (steps liveRenderer
        [Op.Pause, Op.Play 0, Op.Enqueue (exclusiveEnv none), Op.EndFlush]).calls.filter
        steersClock =
      liveRenderer.calls.filter steersClock :=
  (C7_live_source_not_steered liveRenderer
    [Op.Pause, Op.Play 0, Op.Enqueue (exclusiveEnv none), Op.EndFlush] rfl
    (by
      intro op hop
      simp only [List.mem_cons, List.mem_singleton, List.not_mem_nil, or_false] at hop
      rcases hop with rfl | rfl | rfl | rfl <;> trivial)
    0 0 exclusiveSettings none (exclusiveEnv none)).2.1

/-! ### Device settings -/

theorem settingsDiffer_iff (device : AudioDevice) (pDeviceName : Option String)
    (exclusive : Bool) (buffer : Nat) :
    settingsDiffer device pDeviceName exclusive buffer = true ↔
      (device.IsExclusive ≠ exclusive ∨
        device.GetBufferDuration ≠ buffer ∨
        (∃ name, pDeviceName = some name ∧ name ≠ "" ∧ name ≠ device.GetFriendlyName) ∨
        ((pDeviceName = none ∨ pDeviceName = some "") ∧ device.IsDefault = false)) := by
  unfold settingsDiffer
  cases pDeviceName with
  | none => simp [or_assoc]
  | some name =>
    by_cases hn : name = ""
    · simp [hn, or_assoc]
    · simp [hn, or_assoc]

theorem ClearDevice_device (r : AudioRenderer) : (ClearDevice r).m_device = none := by
  unfold ClearDevice
  split
  · rfl
  · rename_i h; exact h

theorem CheckDeviceSettings_spec (r : AudioRenderer) (settings : Settings) (device : AudioDevice)
    (pDeviceName : Option String) (exclusive : Bool) (buffer : Nat)
    (hd : r.m_device = some device)
    (ho : settings.GetOuputDevice = some (pDeviceName, exclusive, buffer)) :
    ((CheckDeviceSettings r settings).m_device = none ↔
      (r.m_deviceSettingsSerial ≠ settings.GetSerial ∧
        settingsDiffer device pDeviceName exclusive buffer = true)) ∧
    (r.m_deviceSettingsSerial ≠ settings.GetSerial →
      settingsDiffer device pDeviceName exclusive buffer = false →
      CheckDeviceSettings r settings =
        { r with m_deviceSettingsSerial := settings.GetSerial }) ∧
    (r.m_deviceSettingsSerial = settings.GetSerial → CheckDeviceSettings r settings = r) := by
  by_cases hs : r.m_deviceSettingsSerial = settings.GetSerial
  · have e : CheckDeviceSettings r settings = r := by
      unfold CheckDeviceSettings
      simp [hd, hs]
    rw [e]
    refine ⟨⟨fun h => ?_, fun h => absurd hs h.1⟩, fun h => absurd hs h, fun _ => rfl⟩
    rw [hd] at h
    cases h
  · cases hm : settingsDiffer device pDeviceName exclusive buffer
    · have e : CheckDeviceSettings r settings =
          { r with m_deviceSettingsSerial := settings.GetSerial } := by
        unfold CheckDeviceSettings
        simp [hd, hs, ho, hm]
      rw [e]
      refine ⟨⟨fun h => ?_, fun h => ?_⟩, fun _ _ => rfl, fun h => absurd h hs⟩
      · have h' : r.m_device = none := h
        rw [hd] at h'
        cases h'
      · cases h.2
    · have e : CheckDeviceSettings r settings = ClearDevice r := by
        unfold CheckDeviceSettings
        simp [hd, hs, ho, hm]
      rw [e]
      refine ⟨⟨fun _ => ⟨hs, rfl⟩, fun _ => ClearDevice_device r⟩, fun _ h => ?_,
        fun h => absurd h hs⟩
      cases h

theorem StartDevice_fields (r : AudioRenderer) :
    (StartDevice r).m_device = r.m_device ∧
      (StartDevice r).m_dspLimiter = r.m_dspLimiter ∧
      (StartDevice r).m_deviceSettingsSerial = r.m_deviceSettingsSerial ∧
      (StartDevice r).m_live = r.m_live ∧
      (StartDevice r).m_state = r.m_state ∧
      ∀ c ∈ r.calls, c ∈ (StartDevice r).calls := by
  unfold StartDevice
  split
  · dsimp only
    split
    · refine ⟨rfl, rfl, rfl, rfl, rfl, fun c hc => ?_⟩
      simp [hc]
    · refine ⟨rfl, rfl, rfl, rfl, rfl, fun c hc => ?_⟩
      simp [hc]
  · exact ⟨rfl, rfl, rfl, rfl, rfl, fun c hc => hc⟩

/-- `CreateDevice` when the device manager returns a device that is not a
bitstream device: the device is installed, the cached serial is the current
one, the sample correction is notified and the limiter is initialised with the
rate and the exclusive flag of the device. -/
theorem CreateDevice_created (r : AudioRenderer) (settings : Settings) (device : AudioDevice)
    (lastSampleEnd : Int) (hbit : device.IsBitstream = false) :
    (CreateDevice r settings (some (some device)) lastSampleEnd).2 = true ∧
      (CreateDevice r settings (some (some device)) lastSampleEnd).1.m_device = some device ∧
      (CreateDevice r settings (some (some device)) lastSampleEnd).1.m_dspLimiter =
        DspLimiter.Initialize device.rate device.IsExclusive ∧
      (CreateDevice r settings (some (some device)) lastSampleEnd).1.m_deviceSettingsSerial =
        settings.GetSerial ∧
      Call.NewDeviceBuffer ∈
        (CreateDevice r settings (some (some device)) lastSampleEnd).1.calls := by
  have hi : InitializeProcessors { r with
        m_deviceSettingsSerial := settings.GetSerial
        m_device := some device
        calls := r.calls ++ [Call.NewDeviceBuffer] } =
      { r with
        m_deviceSettingsSerial := settings.GetSerial
        m_device := some device
        calls := r.calls ++ [Call.NewDeviceBuffer]
        m_dspLimiter := DspLimiter.Initialize device.rate device.IsExclusive } := by
    unfold InitializeProcessors
    simp [hbit]
  unfold CreateDevice
  dsimp only
  rw [hi]
  split
  · obtain ⟨s1, s2, s3, _, _, s6⟩ := StartDevice_fields
      { r with
        m_deviceSettingsSerial := settings.GetSerial
        m_device := some device
        calls := r.calls ++ [Call.NewDeviceBuffer]
        m_dspLimiter := DspLimiter.Initialize device.rate device.IsExclusive
        m_startClockOffset := lastSampleEnd }
    exact ⟨rfl, s1, s2, s3, s6 _ (by simp)⟩
  · exact ⟨rfl, rfl, rfl, rfl, by simp⟩

theorem ApplyClockCorrection_fields (r : AudioRenderer) (timingsError slavedClockOffset : Int) :
    (ApplyClockCorrection r timingsError slavedClockOffset).m_device = r.m_device ∧
      (ApplyClockCorrection r timingsError slavedClockOffset).m_dspLimiter = r.m_dspLimiter ∧
      (ApplyClockCorrection r timingsError slavedClockOffset).m_deviceSettingsSerial =
        r.m_deviceSettingsSerial ∧
      ∀ c ∈ r.calls, c ∈ (ApplyClockCorrection r timingsError slavedClockOffset).calls := by
  unfold ApplyClockCorrection
  dsimp only
  split
  · refine ⟨rfl, rfl, rfl, fun c hc => ?_⟩
    simp [hc]
  · exact ⟨rfl, rfl, rfl, fun c hc => hc⟩

/-- The `try` block of an `Enqueue` whose `CheckDeviceSettings` leaves no
device and whose device manager returns a device that is not a bitstream
device. -/
theorem enqueueTry_created (r : AudioRenderer) (env : EnqueueEnv) (device : AudioDevice)
    (hclear : (CheckDeviceSettings r env.settings).m_device = none)
    (hcreated : env.created = some (some device)) (hbit : device.IsBitstream = false) :
    (∃ chunks, chunks.length ≤ 1 ∧
      (enqueueTry r env).1.m_dspLimiter =
        (DspLimiter.run device.rate device.IsExclusive chunks).1) ∧
    (enqueueTry r env).1.m_device = some device ∧
    (enqueueTry r env).1.m_deviceSettingsSerial = env.settings.GetSerial ∧
    Call.NewDeviceBuffer ∈ (enqueueTry r env).1.calls := by
  obtain ⟨k1, k2, k3, k4, k5⟩ := CreateDevice_created (CheckDeviceSettings r env.settings)
    env.settings device env.lastSampleEnd hbit
  unfold enqueueTry
  dsimp only
  rw [hclear, hcreated]
  simp only [Option.isNone_none, if_true, k1, Bool.not_true, Bool.false_eq_true, if_false]
  generalize (CreateDevice (CheckDeviceSettings r env.settings) env.settings (some (some device))
    env.lastSampleEnd).1 = r2 at k2 k3 k4 k5
  have hrun0 : DspLimiter.Initialize device.rate device.IsExclusive =
      (DspLimiter.run device.rate device.IsExclusive []).1 := rfl
  cases hc : env.corrected with
  | none =>
    dsimp only
    exact ⟨⟨[], by simp, by rw [← hrun0]; exact k3⟩, k2, k4, by simp [k5]⟩
  | some chunk =>
    dsimp only
    have hr4 : ∀ r4 : AudioRenderer,
        r4 = (if (!r2.m_live) = true ∧ r2.m_device.isSome = true ∧
              r2.m_state = FilterState.State_Running then
            ApplyClockCorrection { r2 with calls := r2.calls ++ [Call.ProcessSample] }
              env.timingsError env.slavedClockOffset
          else { r2 with calls := r2.calls ++ [Call.ProcessSample] }) →
        r4.m_device = some device ∧
          r4.m_dspLimiter = DspLimiter.Initialize device.rate device.IsExclusive ∧
          r4.m_deviceSettingsSerial = env.settings.GetSerial ∧
          Call.NewDeviceBuffer ∈ r4.calls := by
      intro r4 h4
      rw [h4]
      split
      · obtain ⟨a1, a2, a3, a4⟩ := ApplyClockCorrection_fields
          { r2 with calls := r2.calls ++ [Call.ProcessSample] } env.timingsError
          env.slavedClockOffset
        exact ⟨a1.trans k2, a2.trans k3, a3.trans k4, a4 _ (by simp [k5])⟩
      · exact ⟨k2, k3, k4, by simp [k5]⟩
    generalize (if (!r2.m_live) = true ∧ r2.m_device.isSome = true ∧
          r2.m_state = FilterState.State_Running then
        ApplyClockCorrection { r2 with calls := r2.calls ++ [Call.ProcessSample] }
          env.timingsError env.slavedClockOffset
      else { r2 with calls := r2.calls ++ [Call.ProcessSample] }) = r4 at hr4
    obtain ⟨q1, q2, q3, q4⟩ := hr4 r4 rfl
    rw [q1]
    simp only [hbit, Bool.not_false, if_true]
    cases hu : env.upstream chunk with
    | none =>
      dsimp only
      exact ⟨⟨[], by simp, by rw [← hrun0]; exact q2⟩, q1, q3, q4⟩
    | some chunk1 =>
      dsimp only
      refine ⟨⟨[chunk1], by simp, ?_⟩, rfl, q3, q4⟩
      show (r4.m_dspLimiter.Process chunk1).1 = _
      rw [q2]
      rfl

theorem enqueueLocked_limiter (r : AudioRenderer) (env : EnqueueEnv) :
    (enqueueLocked r env).1.m_dspLimiter = (enqueueTry r env).1.m_dspLimiter := by
  unfold enqueueLocked
  dsimp only
  split
  · rfl
  · exact (ClearDevice_quiet _).2.2

theorem Enqueue_limiter (r : AudioRenderer) (env : EnqueueEnv) :
    (Enqueue r env).1.m_dspLimiter = (enqueueTry r env).1.m_dspLimiter :=
  (Push_quiet _ _ _ _ _ _).2.2.trans (enqueueLocked_limiter r env)

/-- `CreateDevice` when the device manager throws, returns no device or
returns a bitstream device: the limiter is left as it was. -/
theorem CreateDevice_not_initialised (r : AudioRenderer) (settings : Settings)
    (created : Option (Option AudioDevice)) (lastSampleEnd : Int) (hnone : r.m_device = none)
    (hbit : ∀ device, created = some (some device) → device.IsBitstream = true) :
    (CreateDevice r settings created lastSampleEnd).1.m_dspLimiter = r.m_dspLimiter ∧
      ∀ device, (CreateDevice r settings created lastSampleEnd).1.m_device = some device →
        device.IsBitstream = true := by
  unfold CreateDevice
  dsimp only
  split
  · refine ⟨rfl, fun d hd => ?_⟩
    have hd' : r.m_device = some d := hd
    rw [hnone] at hd'
    cases hd'
  · exact ⟨rfl, fun d hd => by cases hd⟩
  · rename_i device
    have hb := hbit device rfl
    have hi : InitializeProcessors { r with
          m_deviceSettingsSerial := settings.GetSerial
          m_device := some device
          calls := r.calls ++ [Call.NewDeviceBuffer] } =
        { r with
          m_deviceSettingsSerial := settings.GetSerial
          m_device := some device
          calls := r.calls ++ [Call.NewDeviceBuffer] } := by
      unfold InitializeProcessors
      simp [hb]
    rw [hi]
    split
    · obtain ⟨s1, s2, _⟩ := StartDevice_fields
        { r with
          m_deviceSettingsSerial := settings.GetSerial
          m_device := some device
          calls := r.calls ++ [Call.NewDeviceBuffer]
          m_startClockOffset := lastSampleEnd }
      refine ⟨s2, fun d hd => ?_⟩
      rw [s1] at hd
      cases hd
      exact hb
    · refine ⟨rfl, fun d hd => ?_⟩
      cases hd
      exact hb

theorem enqueueTry_not_initialised (r : AudioRenderer) (env : EnqueueEnv)
    (hclear : (CheckDeviceSettings r env.settings).m_device = none)
    (hbit : ∀ device, env.created = some (some device) → device.IsBitstream = true) :
    (enqueueTry r env).1.m_dspLimiter = r.m_dspLimiter := by
  obtain ⟨k1, k2⟩ := CreateDevice_not_initialised (CheckDeviceSettings r env.settings)
    env.settings env.created env.lastSampleEnd hclear hbit
  rw [(CheckDeviceSettings_quiet r env.settings).2.2] at k1
  unfold enqueueTry
  dsimp only
  rw [hclear]
  simp only [Option.isNone_none, if_true]
  generalize (CreateDevice (CheckDeviceSettings r env.settings) env.settings env.created
    env.lastSampleEnd) = r2 at k1 k2
  split
  · exact k1
  · split
    · exact k1
    · have hr4 : ∀ r4 : AudioRenderer,
          r4 = (if (!r2.1.m_live) = true ∧ r2.1.m_device.isSome = true ∧
                r2.1.m_state = FilterState.State_Running then
              ApplyClockCorrection { r2.1 with calls := r2.1.calls ++ [Call.ProcessSample] }
                env.timingsError env.slavedClockOffset
            else { r2.1 with calls := r2.1.calls ++ [Call.ProcessSample] }) →
          r4.m_dspLimiter = r.m_dspLimiter ∧
            ∀ device, r4.m_device = some device → device.IsBitstream = true := by
        intro r4 h4
        rw [h4]
        split
        · obtain ⟨a1, a2, _⟩ := ApplyClockCorrection_fields
            { r2.1 with calls := r2.1.calls ++ [Call.ProcessSample] } env.timingsError
            env.slavedClockOffset
          exact ⟨a2.trans k1, fun d hd => k2 d (a1.symm.trans hd)⟩
        · exact ⟨k1, k2⟩
      generalize (if (!r2.1.m_live) = true ∧ r2.1.m_device.isSome = true ∧
            r2.1.m_state = FilterState.State_Running then
          ApplyClockCorrection { r2.1 with calls := r2.1.calls ++ [Call.ProcessSample] }
            env.timingsError env.slavedClockOffset
        else { r2.1 with calls := r2.1.calls ++ [Call.ProcessSample] }) = r4 at hr4
      obtain ⟨q1, q2⟩ := hr4 r4 rfl
      split
      · rename_i device hdev
        have hb := q2 device hdev
        simp only [hb, Bool.not_true, Bool.false_eq_true, if_false]
        exact q1
      · exact q1

/-- C8, as the code has it.  For a renderer that holds a device and settings
whose output device can be read, `CheckDeviceSettings` clears the device
exactly when the serial differs from the cached one and the exclusive flag
differs from the device's, or the buffer duration differs, or a non-empty
configured name differs from the device's friendly name, or no name is
configured and the device is not the default one; when the serial changed
without such a difference the device is kept and the cached serial becomes the
new serial.  After a clear the same `Enqueue` asks the device manager for a
device.  When that returns a device that is not a bitstream device, the `try`
block installs it, notifies the sample correction and caches the current
serial, and the limiter after the `Enqueue` is the one initialised with the
rate and the exclusive flag of the new device and fed at most this call's
chunk: its limit is 1 for an exclusive device and 49/50 otherwise.  When the
device manager throws, returns no device or returns a bitstream device, the
limiter is left as it was. -/
theorem C8_device_rebuild (r : AudioRenderer) (env : EnqueueEnv) (device : AudioDevice)
    (pDeviceName : Option String) (exclusive : Bool) (buffer : Nat)
    (hd : r.m_device = some device)
    (ho : env.settings.GetOuputDevice = some (pDeviceName, exclusive, buffer)) :
    ((CheckDeviceSettings r env.settings).m_device = none ↔
      (r.m_deviceSettingsSerial ≠ env.settings.GetSerial ∧
        (device.IsExclusive ≠ exclusive ∨
          device.GetBufferDuration ≠ buffer ∨
          (∃ name, pDeviceName = some name ∧ name ≠ "" ∧ name ≠ device.GetFriendlyName) ∨
          ((pDeviceName = none ∨ pDeviceName = some "") ∧ device.IsDefault = false)))) ∧
    (r.m_deviceSettingsSerial ≠ env.settings.GetSerial →
      ¬ (device.IsExclusive ≠ exclusive ∨
          device.GetBufferDuration ≠ buffer ∨
          (∃ name, pDeviceName = some name ∧ name ≠ "" ∧ name ≠ device.GetFriendlyName) ∨
          ((pDeviceName = none ∨ pDeviceName = some "") ∧ device.IsDefault = false)) →
      CheckDeviceSettings r env.settings =
        { r with m_deviceSettingsSerial := env.settings.GetSerial }) ∧
    ((CheckDeviceSettings r env.settings).m_device = none →
      (∀ created, env.created = some (some created) → created.IsBitstream = false →
        (enqueueTry r env).1.m_device = some created ∧
        (enqueueTry r env).1.m_deviceSettingsSerial = env.settings.GetSerial ∧
        Call.NewDeviceBuffer ∈ (enqueueTry r env).1.calls ∧
        (∃ chunks, chunks.length ≤ 1 ∧
          (Enqueue r env).1.m_dspLimiter =
            (DspLimiter.run created.rate created.IsExclusive chunks).1) ∧
        (Enqueue r env).1.m_dspLimiter.m_limit = (if created.IsExclusive then 1 else 49 / 50)) ∧
      ((∀ created, env.created = some (some created) → created.IsBitstream = true) →
        (Enqueue r env).1.m_dspLimiter = r.m_dspLimiter)) := by
  obtain ⟨s1, s2, _⟩ := CheckDeviceSettings_spec r env.settings device pDeviceName exclusive
    buffer hd ho
  have hiff := settingsDiffer_iff device pDeviceName exclusive buffer
  refine ⟨?_, ?_, ?_⟩
  · rw [s1, hiff]
  · intro hs hm
    apply s2 hs
    cases hsd : settingsDiffer device pDeviceName exclusive buffer
    · rfl
    · exact absurd (hiff.1 hsd) hm
  · intro hclear
    refine ⟨fun created hc hb => ?_, fun hb => ?_⟩
    · obtain ⟨⟨chunks, hlen, hl⟩, t2, t3, t4⟩ := enqueueTry_created r env created hclear hc hb
      rw [← Enqueue_limiter r env] at hl
      refine ⟨t2, t3, t4, ⟨chunks, hlen, hl⟩, ?_⟩
      rw [hl]
      exact (DspLimiter.run_fields created.rate created.IsExclusive chunks).1
    · rw [Enqueue_limiter r env]
      exact enqueueTry_not_initialised r env hclear hb

/-- C8 at the scenario of the specification: a device created in shared mode
under serial 1, settings of serial 2 asking for exclusive mode, and a device
manager that returns an exclusive PCM device: after the `Enqueue` the limit of
the limiter is 1. -/
theorem C8_device_rebuild_witness :
    (Enqueue pausedRenderer (exclusiveEnv (some exclusiveDevice))).1.m_dspLimiter.m_limit =
      (if exclusiveDevice.IsExclusive then 1 else 49 / 50) :=
  ((C8_device_rebuild pausedRenderer (exclusiveEnv (some exclusiveDevice)) sharedDevice none true
    200 rfl rfl).2.2 (by decide!)).1 exclusiveDevice rfl rfl |>.2.2.2.2

/-- C8 as stated fails in its last part.  After the same clear, a device
manager that returns a bitstream device has it installed, exclusive, but the
limiter is not initialised again: its limit stays 49/50; and a device manager
that returns no device leaves the renderer without one. -/
theorem C8_device_rebuild_counterexample :
    (CheckDeviceSettings pausedRenderer exclusiveSettings).m_device = none ∧
      (Enqueue pausedRenderer (exclusiveEnv (some bitstreamDevice))).1.m_device =
        some bitstreamDevice ∧
      bitstreamDevice.IsExclusive = true ∧
      (Enqueue pausedRenderer (exclusiveEnv (some bitstreamDevice))).1.m_dspLimiter =
        DspLimiter.Initialize 48000 false ∧
      (Enqueue pausedRenderer (exclusiveEnv (some bitstreamDevice))).1.m_dspLimiter.m_limit =
        49 / 50 ∧
      (Enqueue pausedRenderer (exclusiveEnv none)).1.m_device = none := by
  refine ⟨by decide!, by decide!, rfl, by decide!, by decide!, by decide!⟩

end AudioRenderer
end SaneAudioRenderer
